import Mathlib

/-!
Verification of the Magic Formula scoring engine
(`src/calculate_magic_formula.py`).

Shallow embedding conventions:

* Python floats are modelled as exact rationals (`ℚ`).
* The literal Python sentinel `"N/A"` (and, where the code treats them the
  same way, `None` / an absent key) is modelled by `Option.none` of the
  field's `Option` type; comments on each field record the exact merge.
* Values inside a quarterly entry can be a number, a non-numeric value
  (e.g. the string "N/A"), or `None`/absent; they are modelled by `PyVal`.
* The Swedish `magic_formula_reason` strings are modelled by the inductive
  type `Reason`; each constructor corresponds to exactly one reason string
  of the source (the f-string payloads become constructor arguments).
* A stock record is a flat Python dict; it is modelled as a structure
  grouping the raw fetched fields (`RawData`, never written by the engine),
  the numeric score/rank output fields (`ScoreFields`), and the narrative
  output fields (`NarrFields`).
-/

namespace MagicFormula

/-- A Python value stored inside a quarterly-data entry: a number, some
other (non-numeric) value such as the literal string "N/A", or
`None`/absent (`.get` returns `None` for an absent key, so the two are
indistinguishable to the engine). -/
inductive PyVal where
  | num (q : ℚ)
  | str (s : String)
  | null
deriving DecidableEq

/-- One element of the `quarterly_ebit` list: either a dict with an
optional `period` (the code reads it with `.get("period", "Unknown")`)
and an `ebit` value, or a non-dict element (skipped by
`calculate_ttm_from_quarterly`). -/
inductive QItem where
  | entry (period : Option String) (ebit : PyVal)
  | notDict
deriving DecidableEq

/-- The most recent quarterly balance-sheet dict, as read by the engine:
`period` via `.get("period", "N/A")`, and the four Magic Formula
components via `.get(...)` (absent ≡ `None` ≡ `PyVal.null`). -/
structure BSEntry where
  period : Option String
  total_assets : PyVal
  current_liabilities : PyVal
  cash : PyVal
  short_term_debt : PyVal
deriving DecidableEq

/-- One element of the `quarterly_balance_sheet` list: a dict or not
(the code checks `isinstance(most_recent_q, dict)`). -/
inductive BSItem where
  | entry (e : BSEntry)
  | notDict
deriving DecidableEq

/-- The `magic_formula_reason` strings of the source, one constructor per
string template; f-string payloads are carried as arguments. -/
inductive Reason where
  | ejBeraknad                      -- "Ej beräknad"
  | beraknad                        -- "Beräknad"
  | exkluderadFinansiellt           -- "Exkluderad: Finansiellt bolag"
  | exkluderadFastighet             -- "Exkluderad: Fastighetsbolag"
  | exkluderadMed (t : String)      -- f"Exkluderad: \x7bexclusion_reason\x7d"
  | exkluderadFranRanking           -- "Exkluderad från ranking"
  | exkluderadBank                  -- "Exkluderad: Bank"
  | exkluderadInvestering           -- "Exkluderad: Investeringsbolag"
  | exkluderadFinInv                -- "Exkluderad: Finansiellt/investeringsbolag"
  | felVidHamtning                  -- "Fel vid hämtning av data"
  | valuta (c : String)             -- f"Valuta är \x7bc\x7d, endast SEK-aktier beräknas"
  | saknarEV                        -- "Saknar Enterprise Value"
  | saknarKvartalsEbit              -- "Saknar kvartalsdata för EBIT (behöver 4 kvartal)"
  | kundeInteBeraknaTTM             -- "Kunde inte beräkna EBIT TTM från kvartalsdata"
  | saknarKvartalsBalans            -- "Saknar kvartalsdata för balansräkning"
  | ogiltigKvartalsBalans           -- "Ogiltig kvartalsdata för balansräkning"
  | saknarTotalAssets               -- "Saknar Total Assets i kvartalsdata"
  | saknarCurrentLiabilities        -- "Saknar Current Liabilities i kvartalsdata"
  | saknarCash                      -- "Saknar Cash i kvartalsdata"
  | saknarShortTermDebt             -- "Saknar Short-term Debt i kvartalsdata"
  | negativtInvesteratKapital       -- "Negativt eller noll investerat kapital"
  | kapitalForLitet (ic ebit : ℚ)   -- "Investerat kapital för litet för meningsfull beräkning (IC: .., EBIT: ..)"
  | negativEbit                     -- "Negativ EBIT (förluster)"
  | negativEY                       -- "Negativ/noll Earnings Yield"
  | negativROC                      -- "Negativ/noll Return on Capital"
  | kanInteBerakna                  -- "Kan inte beräkna"
deriving DecidableEq

/-- The raw fetched fields of a stock record; the scoring engine reads
them and never writes them.  `Option.none` stands for "N/A"/`None`/absent
exactly as the engine's own access pattern merges them (per field, see
the access sites in `calculate_magic_formula.py`). -/
structure RawData where
  ticker : Option String            -- `.get("ticker")`; Python truthiness: "" is falsy
  name : Option String              -- `.get("name", "") or ""`
  sector : Option String            -- `.get("sector", "") or ""`
  industry : Option String          -- `.get("industry", "") or ""`
  currency : Option String          -- `.get("currency", "N/A")`
  error : Option String             -- `.get("error")`, truthy iff a non-empty string
  default_excluded : Bool           -- truthiness of `.get("default_excluded")`
  exclusion_reason : Option String  -- `.get("exclusion_reason")`, truthy iff non-empty
  enterprise_value : Option ℚ       -- none ≡ "N/A"/None (the engine skips both)
  market_cap : Option ℚ             -- none ≡ "N/A"/None/non-numeric (all fail the threshold)
  quarterly_ebit : Option (List QItem)         -- none ≡ "N/A"/not-a-list
  quarterly_balance_sheet : Option (List BSItem) -- none ≡ "N/A"/not-a-list
deriving DecidableEq

/-- The numeric output fields written by the engine ("N/A" ≡ none).
Ranks and scores are positive integers, yields are rationals. -/
structure ScoreFields where
  magic_formula_score : Option ℕ
  magic_formula_score_100m : Option ℕ
  magic_formula_score_500m : Option ℕ
  magic_formula_score_1b : Option ℕ
  magic_formula_score_5b : Option ℕ
  ey_rank : Option ℕ
  roc_rank : Option ℕ
  ey_rank_100m : Option ℕ
  roc_rank_100m : Option ℕ
  ey_rank_500m : Option ℕ
  roc_rank_500m : Option ℕ
  ey_rank_1b : Option ℕ
  roc_rank_1b : Option ℕ
  ey_rank_5b : Option ℕ
  roc_rank_5b : Option ℕ
  earnings_yield : Option ℚ
  return_on_capital : Option ℚ
deriving DecidableEq

/-- The narrative output fields (shared across variants; only the default
pass is supposed to own them).  `magic_formula_uses_ttm` is deleted by the
engine for non-calculated stocks, hence `Option Bool` with none ≡ absent. -/
structure NarrFields where
  magic_formula_reason : Option Reason
  magic_formula_ebit_periods : Option String
  magic_formula_balance_sheet_period : Option String
  magic_formula_uses_ttm : Option Bool
deriving DecidableEq

/-- A stock record: raw fetched data plus the engine's output fields. -/
structure Stock where
  raw : RawData
  sc : ScoreFields
  narr : NarrFields
deriving DecidableEq

/-- Python truthiness of an optional string (`None`/absent and "" are falsy). -/
def pyTruthy : Option String → Bool
  | Option.none => false
  | Option.some s => s ≠ ""

/-- Python `str.lower()` (ASCII case-folding; the keyword matching in the
source only involves ASCII letters). -/
def pyLower (s : String) : String := String.mk (s.data.map Char.toLower)

/-- Python substring test `pat in hay`. -/
def containsSub (hay pat : String) : Bool := decide (pat.data <:+: hay.data)

/-- `calculate_ttm_from_quarterly(quarterly_data, "ebit")`.
Returns the TTM sum and the periods string; the `(0, "N/A")` failure
results are modelled as a rational paired with `Option.none`.
The source's `quarterly_data[:4] if len(...) >= 4 else quarterly_data`
followed by a `< 4` length check is `take 4` plus the same check. -/
def calculate_ttm_from_quarterly (quarterly_data : Option (List QItem)) :
    ℚ × Option String :=
  match quarterly_data with
  | Option.none => (0, Option.none)
  | Option.some l =>
    let quarters_to_use := l.take 4
    if quarters_to_use.length < 4 then (0, Option.none)
    else
      -- non-dict entries are skipped; a quarter contributes iff its
      -- `ebit` value is numeric, in which case its period is recorded
      let contrib := quarters_to_use.filterMap (fun it =>
        match it with
        | QItem.entry p (PyVal.num v) => Option.some (p.getD "Unknown", v)
        | _ => Option.none)
      let ttm_value : ℚ := (contrib.map Prod.snd).sum
      let periods := contrib.map Prod.fst
      if ttm_value = 0 ∨ periods.length < 4 then (0, Option.none)
      else
        let periods_str :=
          if periods.length = 4 then
            (periods.getD 3 "") ++ " to " ++ (periods.getD 0 "")
          else String.intercalate ", " periods
        (ttm_value, Option.some periods_str)

/-- The bank keywords of `is_financial_company`. -/
def bank_keywords : List String := ["bank", "banking", "banker"]

/-- The bank name denylist of `is_financial_company`. -/
def bank_names : List String :=
  ["tf bank", "resurs", "nordea", "swedbank", "seb", "handelsbanken",
   "shb", "svenska handelsbanken", "skandinaviska enskilda banken"]

/-- The bank ticker denylist of `is_financial_company`. -/
def bank_tickers : List String :=
  ["tfbank", "tf-bank", "resurs", "nda", "swed", "seb", "shb", "handl"]

/-- The investment-company name keywords of `is_financial_company`. -/
def investment_keywords : List String :=
  ["investment", "investor", "holding", "equity", "ratos", "lundberg"]

/-- `is_financial_company(stock)` (lines 427-498 of the source). -/
def is_financial_company (s : Stock) : Bool :=
  if s.raw.default_excluded || pyTruthy s.raw.exclusion_reason then true
  else
    let sector := pyLower (s.raw.sector.getD "")
    let industry := pyLower (s.raw.industry.getD "")
    let name := pyLower (s.raw.name.getD "")
    let ticker := pyLower (s.raw.ticker.getD "")
    if containsSub sector "financial" || containsSub sector "financial services" then true
    else if containsSub sector "real estate" || containsSub industry "real estate" then true
    else if bank_keywords.any (fun k => containsSub sector k) then true
    else if bank_keywords.any (fun k => containsSub industry k) then true
    else if bank_keywords.any (fun k => containsSub name k) then true
    else if bank_names.any (fun k => containsSub name k) then true
    else if bank_tickers.any (fun k => containsSub ticker k) then true
    else if investment_keywords.any (fun k => containsSub name k) then true
    else if containsSub ticker "ratos" || containsSub ticker "lund" then true
    else if containsSub industry "investment" || containsSub industry "asset management" then true
    else false

/-- `meets_market_cap_threshold(stock, min_market_cap)`; a missing or
non-numeric market cap fails the threshold. -/
def meets_market_cap_threshold (s : Stock) (min_market_cap : ℚ) : Bool :=
  match s.raw.market_cap with
  | Option.none => false
  | Option.some q => decide (min_market_cap ≤ q)

/-- Coercion applied by the source to the four balance-sheet components:
`float(x) if isinstance(x, (int, float)) else 0`.  A present non-numeric
value (e.g. the literal string "N/A") silently becomes 0. -/
def floatOr0 : PyVal → ℚ
  | PyVal.num q => q
  | PyVal.str _ => 0
  | PyVal.null => 0

/-- Outcome of the sequential extraction gates for one eligible stock
(the body of the `for stock in eligible_stocks` loop): either a skip with
the reason the source writes, or a valid entry for the ranking pool. -/
inductive ExtractResult where
  | skip (r : Reason)
  | valid (ey roc : ℚ) (ebit_periods bs_period : String)
deriving DecidableEq

/-- `Invested Capital = Total Assets - Cash - Current Liabilities +
Short-term Debt` over the coerced values (line 321). -/
def investedCapitalOf (q : BSEntry) : ℚ :=
  floatOr0 q.total_assets - floatOr0 q.cash
    - floatOr0 q.current_liabilities + floatOr0 q.short_term_debt

/-- The tail of the extraction gates, from the invested-capital check to
the final positivity check (lines 321-379), for a record whose TTM EBIT,
periods string and enterprise value have been established. -/
def extractTail (ttm : ℚ) (ebit_periods : String) (ev : ℚ) (q : BSEntry) : ExtractResult :=
  -- `invested_capital` is `investedCapitalOf q`; `ey`, `roc` and the
  -- 5% threshold are written inline
  if investedCapitalOf q ≤ 0 then ExtractResult.skip Reason.negativtInvesteratKapital
  else
    if investedCapitalOf q < |ttm| * (5 / 100) then
      ExtractResult.skip (Reason.kapitalForLitet (investedCapitalOf q) ttm)
    else
      if 0 < (if 0 < ev then ttm / ev else 0) ∧
         0 < (if 0 < investedCapitalOf q then ttm / investedCapitalOf q else 0) then
        ExtractResult.valid (if 0 < ev then ttm / ev else 0)
          (if 0 < investedCapitalOf q then ttm / investedCapitalOf q else 0)
          ebit_periods (q.period.getD "N/A")
      else
        ExtractResult.skip
          (if ttm < 0 then Reason.negativEbit
           else if (if 0 < ev then ttm / ev else 0) ≤ 0 then Reason.negativEY
           else if (if 0 < investedCapitalOf q then ttm / investedCapitalOf q else 0) ≤ 0 then
             Reason.negativROC
           else Reason.kanInteBerakna)

/-- The extraction gates of `calculate_magic_formula_for_stocks`
(lines 192-379), one eligible stock at a time, in source order. -/
def extractStock (s : Stock) : ExtractResult :=
  -- `currency` is `s.raw.currency.getD "N/A"`, `ebit_ttm` is
  -- `(calculate_ttm_from_quarterly ...).1`, both written inline
  if pyTruthy s.raw.error then ExtractResult.skip Reason.felVidHamtning
  else
    if s.raw.currency.getD "N/A" ≠ "SEK" ∧ s.raw.currency.getD "N/A" ≠ "N/A" then
      ExtractResult.skip (Reason.valuta (s.raw.currency.getD "N/A"))
    else
      match s.raw.enterprise_value with
      | Option.none => ExtractResult.skip Reason.saknarEV
      | Option.some ev =>
        match s.raw.quarterly_ebit with
        | Option.none => ExtractResult.skip Reason.saknarKvartalsEbit
        | Option.some qe =>
          if qe.length < 4 then ExtractResult.skip Reason.saknarKvartalsEbit
          else
            match (calculate_ttm_from_quarterly (Option.some qe)).2 with
            | Option.none => ExtractResult.skip Reason.kundeInteBeraknaTTM
            | Option.some ebit_periods =>
              if (calculate_ttm_from_quarterly (Option.some qe)).1 ≤ 0 then
                ExtractResult.skip Reason.kundeInteBeraknaTTM
              else
                match s.raw.quarterly_balance_sheet with
                | Option.none => ExtractResult.skip Reason.saknarKvartalsBalans
                | Option.some [] => ExtractResult.skip Reason.saknarKvartalsBalans
                | Option.some (BSItem.notDict :: _) =>
                    ExtractResult.skip Reason.ogiltigKvartalsBalans
                | Option.some (BSItem.entry q :: _) =>
                  if q.total_assets = PyVal.null then
                    ExtractResult.skip Reason.saknarTotalAssets
                  else if q.current_liabilities = PyVal.null then
                    ExtractResult.skip Reason.saknarCurrentLiabilities
                  else if q.cash = PyVal.null then
                    ExtractResult.skip Reason.saknarCash
                  else if q.short_term_debt = PyVal.null then
                    ExtractResult.skip Reason.saknarShortTermDebt
                  else
                    -- the `except (ValueError, TypeError)` branch guarding the
                    -- conversions is unreachable: each conversion is guarded by
                    -- `isinstance(x, (int, float))`
                    extractTail (calculate_ttm_from_quarterly (Option.some qe)).1
                      ebit_periods ev q

/-- The record passes the error, currency and enterprise-value gates
(lines 192-212). -/
def PassesPreEbitGates (s : Stock) : Prop :=
  pyTruthy s.raw.error = false ∧
  ¬(s.raw.currency.getD "N/A" ≠ "SEK" ∧ s.raw.currency.getD "N/A" ≠ "N/A") ∧
  s.raw.enterprise_value ≠ Option.none

/-- The record additionally passes the quarterly-EBIT and TTM gates
(lines 216-239). -/
def PassesEbitGates (s : Stock) : Prop :=
  PassesPreEbitGates s ∧
  ∃ qe, s.raw.quarterly_ebit = Option.some qe ∧ ¬(qe.length < 4) ∧
    (calculate_ttm_from_quarterly (Option.some qe)).2 ≠ Option.none ∧
    ¬((calculate_ttm_from_quarterly (Option.some qe)).1 ≤ 0)

/-- The record additionally reaches the balance-sheet field checks with
`q` as the most recent quarterly balance-sheet entry (lines 241-256). -/
def ReachesBalanceFields (s : Stock) (q : BSEntry) : Prop :=
  PassesEbitGates s ∧
  ∃ rest, s.raw.quarterly_balance_sheet = Option.some (BSItem.entry q :: rest)

/-- The record additionally passes the four balance-sheet presence
checks and reaches the invested-capital computation (lines 266-321). -/
def ReachesInvestedCapital (s : Stock) (q : BSEntry) : Prop :=
  ReachesBalanceFields s q ∧
  q.total_assets ≠ PyVal.null ∧ q.current_liabilities ≠ PyVal.null ∧
  q.cash ≠ PyVal.null ∧ q.short_term_debt ≠ PyVal.null

/-- The record additionally passes the positive-invested-capital gate and
the 5%-of-EBIT sanity bound, reaching the final `ey > 0 and roc > 0`
gate (lines 356-376). -/
def ReachesFinalGate (s : Stock) (q : BSEntry) : Prop :=
  ReachesInvestedCapital s q ∧
  ¬(investedCapitalOf q ≤ 0) ∧
  ¬(investedCapitalOf q <
      |(calculate_ttm_from_quarterly s.raw.quarterly_ebit).1| * (5 / 100))

/-- "Ensure reason field exists": absent/`None` becomes "Ej beräknad". -/
def ensureReason (s : Stock) : Stock :=
  match s.narr.magic_formula_reason with
  | Option.none =>
    { s with narr := { s.narr with magic_formula_reason := Option.some Reason.ejBeraknad } }
  | Option.some _ => s

/-- The reason written for an excluded stock (lines 124-164): sentinel
score plus a specific exclusion reason. -/
def markExcluded (s : Stock) : Stock :=
  let r :=
    if s.raw.default_excluded || pyTruthy s.raw.exclusion_reason then
      let er := s.raw.exclusion_reason.getD ""
      let erl := pyLower er
      if containsSub erl "financial" || containsSub erl "investment" then
        Reason.exkluderadFinansiellt
      else if containsSub erl "real estate" then Reason.exkluderadFastighet
      else if er ≠ "" then Reason.exkluderadMed er
      else Reason.exkluderadFranRanking
    else if is_financial_company s then
      let sector := pyLower (s.raw.sector.getD "")
      let industry := pyLower (s.raw.industry.getD "")
      let name := pyLower (s.raw.name.getD "")
      if bank_keywords.any (fun k => containsSub sector k) ||
         bank_keywords.any (fun k => containsSub industry k) ||
         bank_keywords.any (fun k => containsSub name k) then Reason.exkluderadBank
      else if containsSub sector "financial" || containsSub sector "financial services" then
        Reason.exkluderadFinansiellt
      else if containsSub sector "real estate" || containsSub industry "real estate" then
        Reason.exkluderadFastighet
      else if containsSub industry "investment" || containsSub industry "asset management" then
        Reason.exkluderadInvestering
      else Reason.exkluderadFinInv
    else Reason.exkluderadFranRanking
  { s with
    sc := { s.sc with magic_formula_score := Option.none },
    narr := { s.narr with magic_formula_reason := Option.some r } }

/-- First loop of `calculate_magic_formula_for_stocks` (lines 107-167):
ensure the reason field, then either mark the stock excluded
(`Sum.inl`) or pass it to the eligible pool (`Sum.inr`). -/
def classifyStock (exclude_filter : Option (Stock → Bool)) (s0 : Stock) : Stock ⊕ Stock :=
  let s := ensureReason s0
  let isExcl :=
    (match exclude_filter with
     | Option.some f => f s
     | Option.none => false) || is_financial_company s
  if isExcl then Sum.inl (markExcluded s) else Sum.inr s

/-- An element of `valid_stocks`: the stock together with its metrics. -/
structure ValidItem where
  stock : Stock
  ey : ℚ
  roc : ℚ
  ebit_periods_used : String
  balance_sheet_period_used : String
deriving DecidableEq

/-- A skipped eligible record: sentinel score, specific reason, all
other fields (ranks included) untouched. -/
def skippedStock (s0 : Stock) (r : Reason) : Stock :=
  let s := ensureReason s0
  { s with
    sc := { s.sc with magic_formula_score := Option.none },
    narr := { s.narr with magic_formula_reason := Option.some r } }

/-- Second loop of `calculate_magic_formula_for_stocks` (lines 184-379)
for one eligible stock: a skipped stock gets the sentinel score and the
skip reason; a valid one joins the ranking pool. -/
def processEligible (s0 : Stock) : Stock ⊕ ValidItem :=
  let s := ensureReason s0
  match extractStock s with
  | ExtractResult.skip r => Sum.inl (skippedStock s0 r)
  | ExtractResult.valid ey roc ps bsp => Sum.inr ⟨s, ey, roc, ps, bsp⟩

/-- Python's stable `list.sort(key=key, reverse=True)`: a stable
descending sort (ties keep the pre-sort relative order). -/
def stableSortDescBy {α : Type} (key : α → ℚ) (l : List α) : List α :=
  l.mergeSort (fun a b => decide (key b ≤ key a))

/-- Writing the ranks and derived fields onto a valid stock
(lines 392-409). -/
def applyScore (it : ValidItem) (eyR rocR : ℕ) : Stock :=
  { it.stock with
    sc := { it.stock.sc with
      magic_formula_score := Option.some (eyR + rocR)
      ey_rank := Option.some eyR
      roc_rank := Option.some rocR
      earnings_yield := Option.some (it.ey * 100)
      return_on_capital := Option.some (it.roc * 100) },
    narr := { magic_formula_reason := Option.some Reason.beraknad
              magic_formula_ebit_periods := Option.some it.ebit_periods_used
              magic_formula_balance_sheet_period := Option.some it.balance_sheet_period_used
              magic_formula_uses_ttm := Option.some true } }

/-- Trailing "ensure all stocks have a reason" loop (lines 412-421). -/
def finalEnsure (s : Stock) : Stock :=
  match s.narr.magic_formula_reason with
  | Option.none =>
    let r := if s.sc.magic_formula_score = Option.none then Reason.ejBeraknad
             else Reason.beraknad
    { s with narr := { s.narr with magic_formula_reason := Option.some r } }
  | Option.some _ => s

/-- Reassembling `eligible_stocks` after ranking: the k-th valid position
receives the ranks assigned to pool tag k (the Python code reaches the
same dict objects through the `item["stock"]` references).  The
`it.stock` fallback is unreachable: every tag occurs in the sorted pool. -/
def assembleRanked (eyR rocR : ℕ → Option ℕ) :
    List (Stock ⊕ ValidItem) → ℕ → List Stock
  | [], _ => []
  | Sum.inl s :: rest, k => s :: assembleRanked eyR rocR rest k
  | Sum.inr it :: rest, k =>
    (match eyR k, rocR k with
     | Option.some e, Option.some r => applyScore it e r
     | _, _ => it.stock) :: assembleRanked eyR rocR rest (k + 1)

/-- The classified input (first loop) of
`calculate_magic_formula_for_stocks`. -/
def mfClassified (fl : Option (Stock → Bool)) (stocks : List Stock) : List (Stock ⊕ Stock) :=
  stocks.map (classifyStock fl)

/-- `eligible_stocks` after the first loop. -/
def mfEligible (fl : Option (Stock → Bool)) (stocks : List Stock) : List Stock :=
  (mfClassified fl stocks).filterMap (fun c =>
    match c with | Sum.inr s => Option.some s | Sum.inl _ => Option.none)

/-- `excluded_stocks` after the first loop. -/
def mfExcluded (fl : Option (Stock → Bool)) (stocks : List Stock) : List Stock :=
  (mfClassified fl stocks).filterMap (fun c =>
    match c with | Sum.inl s => Option.some s | Sum.inr _ => Option.none)

/-- The processed eligible list (second loop), positionally. -/
def mfProcessed (fl : Option (Stock → Bool)) (stocks : List Stock) :
    List (Stock ⊕ ValidItem) :=
  (mfEligible fl stocks).map processEligible

/-- `valid_stocks` in order of appearance. -/
def mfValidItems (fl : Option (Stock → Bool)) (stocks : List Stock) : List ValidItem :=
  (mfProcessed fl stocks).filterMap (fun p =>
    match p with | Sum.inr it => Option.some it | Sum.inl _ => Option.none)

/-- The ranking pool: each valid stock as (tag, ey, roc), the tag being
its position in `valid_stocks` (standing for the Python dict's object
identity; the sort keys are exactly `ey` and `roc`). -/
def mfPool (fl : Option (Stock → Bool)) (stocks : List Stock) : List (ℕ × ℚ × ℚ) :=
  (mfValidItems fl stocks).enum.map (fun p => (p.1, p.2.ey, p.2.roc))

/-- `valid_stocks` after `sort(key=ey, reverse=True)` (line 382). -/
def mfEySorted (fl : Option (Stock → Bool)) (stocks : List Stock) : List (ℕ × ℚ × ℚ) :=
  stableSortDescBy (fun t => t.2.1) (mfPool fl stocks)

/-- `valid_stocks` after the second, `roc`, sort (line 387): the source
re-sorts the already-ey-sorted list. -/
def mfRocSorted (fl : Option (Stock → Bool)) (stocks : List Stock) : List (ℕ × ℚ × ℚ) :=
  stableSortDescBy (fun t => t.2.2) (mfEySorted fl stocks)

/-- `ey_rank` of pool tag k: 1-based position in the ey-sorted list. -/
def mfEyRank (fl : Option (Stock → Bool)) (stocks : List Stock) (k : ℕ) : Option ℕ :=
  ((mfEySorted fl stocks).findIdx? (fun t => t.1 == k)).map (· + 1)

/-- `roc_rank` of pool tag k: 1-based position in the roc-sorted list. -/
def mfRocRank (fl : Option (Stock → Bool)) (stocks : List Stock) (k : ℕ) : Option ℕ :=
  ((mfRocSorted fl stocks).findIdx? (fun t => t.1 == k)).map (· + 1)

/-- `calculate_magic_formula_for_stocks(stocks, exclude_filter)`
(lines 87-424): classify, extract, rank, and return
`eligible_stocks + excluded_stocks`. -/
def calculate_magic_formula_for_stocks (fl : Option (Stock → Bool))
    (stocks : List Stock) : List Stock :=
  (assembleRanked (mfEyRank fl stocks) (mfRocRank fl stocks) (mfProcessed fl stocks) 0
    ++ mfExcluded fl stocks).map finalEnsure

/-- The records of one run that passed every extraction gate: exactly
those whose reason reads "Beräknad". -/
def mfScoredStocks (fl : Option (Stock → Bool)) (stocks : List Stock) : List Stock :=
  (calculate_magic_formula_for_stocks fl stocks).filter
    (fun s => decide (s.narr.magic_formula_reason = Option.some Reason.beraknad))

/-- All seventeen numeric output fields set to "N/A"
(the initialisation loop of `calculate_all_score_variants`, lines 539-557). -/
def scNA : ScoreFields :=
  { magic_formula_score := Option.none
    magic_formula_score_100m := Option.none
    magic_formula_score_500m := Option.none
    magic_formula_score_1b := Option.none
    magic_formula_score_5b := Option.none
    ey_rank := Option.none
    roc_rank := Option.none
    ey_rank_100m := Option.none
    roc_rank_100m := Option.none
    ey_rank_500m := Option.none
    roc_rank_500m := Option.none
    ey_rank_1b := Option.none
    roc_rank_1b := Option.none
    ey_rank_5b := Option.none
    roc_rank_5b := Option.none
    earnings_yield := Option.none
    return_on_capital := Option.none }

/-- Initialise all score fields of one stock to "N/A". -/
def initScores (s : Stock) : Stock := { s with sc := scNA }

/-- The dict key a stock contributes to `original_ticker_map`: its ticker
when truthy (`\x7bs.get("ticker"): s for s in original_stocks if s.get("ticker")\x7d`). -/
def tickerKey (s : Stock) : Option String :=
  match s.raw.ticker with
  | Option.some u => if u ≠ "" then Option.some u else Option.none
  | Option.none => Option.none

/-- `original_ticker_map[t]` points at the LAST stock with truthy ticker
`t` (later comprehension entries overwrite earlier ones); this returns
that stock's index in the list. -/
def lastTickerIdx (l : List Stock) (t : String) : Option ℕ :=
  match l with
  | [] => Option.none
  | s :: rest =>
    match lastTickerIdx rest t with
    | Option.some j => Option.some (j + 1)
    | Option.none => if tickerKey s = Option.some t then Option.some 0 else Option.none

/-- Default-pass write-back for one result stock (lines 566-605). -/
def applyDefaultCopy (r target : Stock) : Stock :=
  let sc1 := { target.sc with
    magic_formula_score := r.sc.magic_formula_score
    ey_rank := r.sc.ey_rank
    roc_rank := r.sc.roc_rank
    earnings_yield := r.sc.earnings_yield
    return_on_capital := r.sc.return_on_capital }
  -- `if "magic_formula_reason" in stock:` — copy when present
  let reason1 :=
    match r.narr.magic_formula_reason with
    | Option.some x => Option.some x
    | Option.none => target.narr.magic_formula_reason
  let narr1 :=
    if r.sc.magic_formula_score ≠ Option.none then
      { magic_formula_reason := reason1
        magic_formula_ebit_periods :=
          Option.some (r.narr.magic_formula_ebit_periods.getD "N/A")
        magic_formula_balance_sheet_period :=
          Option.some (r.narr.magic_formula_balance_sheet_period.getD "N/A")
        magic_formula_uses_ttm := Option.some true }
    else
      -- non-calculated: periods set to "N/A", `magic_formula_uses_ttm` deleted
      { magic_formula_reason := reason1
        magic_formula_ebit_periods := Option.some "N/A"
        magic_formula_balance_sheet_period := Option.some "N/A"
        magic_formula_uses_ttm := Option.none }
  { target with sc := sc1, narr := narr1 }

/-- The four market-cap variants of the engine. -/
inductive CapVariant where
  | m100 | m500 | b1 | b5
deriving DecidableEq

/-- The market-cap floor of a variant (SEK). -/
def capThreshold : CapVariant → ℚ
  | CapVariant.m100 => 100000000
  | CapVariant.m500 => 500000000
  | CapVariant.b1 => 1000000000
  | CapVariant.b5 => 5000000000

/-- Write a variant's (score, ey rank, roc rank) triple. -/
def setVariantTriple (v : CapVariant) (sc : ScoreFields)
    (score eyr rocr : Option ℕ) : ScoreFields :=
  match v with
  | CapVariant.m100 =>
    { sc with magic_formula_score_100m := score, ey_rank_100m := eyr, roc_rank_100m := rocr }
  | CapVariant.m500 =>
    { sc with magic_formula_score_500m := score, ey_rank_500m := eyr, roc_rank_500m := rocr }
  | CapVariant.b1 =>
    { sc with magic_formula_score_1b := score, ey_rank_1b := eyr, roc_rank_1b := rocr }
  | CapVariant.b5 =>
    { sc with magic_formula_score_5b := score, ey_rank_5b := eyr, roc_rank_5b := rocr }

/-- Read a variant's (score, ey rank, roc rank) triple. -/
def getVariantTriple (v : CapVariant) (sc : ScoreFields) :
    Option ℕ × Option ℕ × Option ℕ :=
  match v with
  | CapVariant.m100 => (sc.magic_formula_score_100m, sc.ey_rank_100m, sc.roc_rank_100m)
  | CapVariant.m500 => (sc.magic_formula_score_500m, sc.ey_rank_500m, sc.roc_rank_500m)
  | CapVariant.b1 => (sc.magic_formula_score_1b, sc.ey_rank_1b, sc.roc_rank_1b)
  | CapVariant.b5 => (sc.magic_formula_score_5b, sc.ey_rank_5b, sc.roc_rank_5b)

/-- Variant-pass write-back for one result stock (lines 649-674):
the variant triple is copied; the shared period fields are only
overwritten when the result was calculated and carries a truthy,
non-"N/A" period string; the reason is never copied. -/
def applyVariantCopy (v : CapVariant) (r target : Stock) : Stock :=
  let sc1 := setVariantTriple v target.sc r.sc.magic_formula_score r.sc.ey_rank r.sc.roc_rank
  let narr1 :=
    if r.sc.magic_formula_score ≠ Option.none then
      let ebit1 :=
        match r.narr.magic_formula_ebit_periods with
        | Option.some p =>
          if p ≠ "" ∧ p ≠ "N/A" then Option.some p
          else target.narr.magic_formula_ebit_periods
        | Option.none => target.narr.magic_formula_ebit_periods
      let bsp1 :=
        match r.narr.magic_formula_balance_sheet_period with
        | Option.some p =>
          if p ≠ "" ∧ p ≠ "N/A" then Option.some p
          else target.narr.magic_formula_balance_sheet_period
        | Option.none => target.narr.magic_formula_balance_sheet_period
      { target.narr with
        magic_formula_ebit_periods := ebit1
        magic_formula_balance_sheet_period := bsp1 }
    else target.narr
  { target with sc := sc1, narr := narr1 }

/-- The batch index one result stock writes back to: the
`original_ticker_map` entry of its truthy ticker
(`if ticker and ticker in original_ticker_map`). -/
def targetIdx (orig : List Stock) (r : Stock) : Option ℕ :=
  match tickerKey r with
  | Option.some t => lastTickerIdx orig t
  | Option.none => Option.none

/-- Write a list of per-ticker results back onto the batch through the
ticker map built from `orig` (`for stock in results: ... if ticker and
ticker in original_ticker_map`). -/
def writeBackWith (copyFn : Stock → Stock → Stock) (orig : List Stock)
    (b : List Stock) (results : List Stock) : List Stock :=
  results.foldl (fun acc r =>
    match targetIdx orig r with
    | Option.some i => List.modify (copyFn r) i acc
    | Option.none => acc) b

/-- The default scoring pass of `calculate_all_score_variants`
(lines 559-605): score the non-financial subset, write scores, ranks,
reason and period fields back by ticker. -/
def defaultStep (orig b : List Stock) : List Stock :=
  let stocks_default :=
    calculate_magic_formula_for_stocks Option.none
      (b.filter (fun s => !(is_financial_company s)))
  writeBackWith applyDefaultCopy orig b stocks_default

/-- One market-cap variant pass (lines 639-674). -/
def variantStep (v : CapVariant) (orig b : List Stock) : List Stock :=
  let variant_filtered :=
    calculate_magic_formula_for_stocks Option.none
      (b.filter (fun s =>
        !(is_financial_company s) && meets_market_cap_threshold s (capThreshold v)))
  writeBackWith (applyVariantCopy v) orig b variant_filtered

/-- The batch after initialisation and the default pass. -/
def mfDefaultBatch (stocks : List Stock) : List Stock :=
  defaultStep stocks (stocks.map initScores)

/-- `calculate_all_score_variants(stocks)` (lines 511-677): initialise
every score field, run the default pass, then the four market-cap
passes, each reading the current batch and writing back in place.
(The `isinstance(stocks, dict)` conversion is outside the model: the
input is already a list.) -/
def calculate_all_score_variants (stocks : List Stock) : List Stock :=
  let b2 := variantStep CapVariant.m100 stocks (mfDefaultBatch stocks)
  let b3 := variantStep CapVariant.m500 stocks b2
  let b4 := variantStep CapVariant.b1 stocks b3
  variantStep CapVariant.b5 stocks b4

/-- The per-stock consistency sweep of `recalculate_all_scores`
(lines 706-761, excluding the I/O): only stocks with a truthy ticker are
swept; a variant score whose rank pair is not fully numeric is forced to
"N/A", and a missing reason is filled in. -/
def sweepStock (s : Stock) : Stock :=
  match tickerKey s with
  | Option.none => s
  | Option.some _ =>
    -- the "ensure all score fields exist" writes are no-ops in the model
    let sc1 :=
      if s.sc.ey_rank = Option.none ∨ s.sc.roc_rank = Option.none then
        { s.sc with magic_formula_score := Option.none }
      else s.sc
    let sc2 :=
      if sc1.ey_rank_100m = Option.none ∨ sc1.roc_rank_100m = Option.none then
        { sc1 with magic_formula_score_100m := Option.none }
      else sc1
    let sc3 :=
      if sc2.ey_rank_500m = Option.none ∨ sc2.roc_rank_500m = Option.none then
        { sc2 with magic_formula_score_500m := Option.none }
      else sc2
    let sc4 :=
      if sc3.ey_rank_1b = Option.none ∨ sc3.roc_rank_1b = Option.none then
        { sc3 with magic_formula_score_1b := Option.none }
      else sc3
    let sc5 :=
      if sc4.ey_rank_5b = Option.none ∨ sc4.roc_rank_5b = Option.none then
        { sc4 with magic_formula_score_5b := Option.none }
      else sc4
    let narr1 :=
      match s.narr.magic_formula_reason with
      | Option.none =>
        let r := if sc5.magic_formula_score = Option.none then Reason.ejBeraknad
                 else Reason.beraknad
        { s.narr with magic_formula_reason := Option.some r }
      | Option.some _ => s.narr
    { s with sc := sc5, narr := narr1 }

/-- The full scoring run of `recalculate_all_scores`, minus the file
I/O: score all variants, then apply the consistency sweep. -/
def recalculate_all_scores_pure (stocks : List Stock) : List Stock :=
  (calculate_all_score_variants stocks).map sweepStock

/-- The five score columns of one record: the default Magic Formula
column and the four market-cap variants. -/
inductive ScoreColumn where
  | dflt | m100 | m500 | b1 | b5
deriving DecidableEq

/-- A column's score field. -/
def colScore : ScoreColumn → ScoreFields → Option ℕ
  | ScoreColumn.dflt => fun sc => sc.magic_formula_score
  | ScoreColumn.m100 => fun sc => sc.magic_formula_score_100m
  | ScoreColumn.m500 => fun sc => sc.magic_formula_score_500m
  | ScoreColumn.b1 => fun sc => sc.magic_formula_score_1b
  | ScoreColumn.b5 => fun sc => sc.magic_formula_score_5b

/-- A column's ey-rank field. -/
def colEyRank : ScoreColumn → ScoreFields → Option ℕ
  | ScoreColumn.dflt => fun sc => sc.ey_rank
  | ScoreColumn.m100 => fun sc => sc.ey_rank_100m
  | ScoreColumn.m500 => fun sc => sc.ey_rank_500m
  | ScoreColumn.b1 => fun sc => sc.ey_rank_1b
  | ScoreColumn.b5 => fun sc => sc.ey_rank_5b

/-- A column's roc-rank field. -/
def colRocRank : ScoreColumn → ScoreFields → Option ℕ
  | ScoreColumn.dflt => fun sc => sc.roc_rank
  | ScoreColumn.m100 => fun sc => sc.roc_rank_100m
  | ScoreColumn.m500 => fun sc => sc.roc_rank_500m
  | ScoreColumn.b1 => fun sc => sc.roc_rank_1b
  | ScoreColumn.b5 => fun sc => sc.roc_rank_5b

/-- Row-by-row view of `calculate_magic_formula_for_stocks` on an
all-eligible input: every position keeps its place in the output, and
the valid rows consume successive pool tags starting at `k`. -/
def calcRows (eyR rocR : ℕ → Option ℕ) : List Stock → ℕ → List Stock
  | [], _ => []
  | s :: rest, k =>
    match processEligible s with
    | Sum.inl sk => finalEnsure sk :: calcRows eyR rocR rest k
    | Sum.inr it =>
      finalEnsure
        (match eyR k, rocR k with
         | Option.some e, Option.some r => applyScore it e r
         | _, _ => it.stock) :: calcRows eyR rocR rest (k + 1)

/-- How many records of a pool pass every extraction gate (the size of
`valid_stocks`). -/
def validCount (ins : List Stock) : ℕ :=
  ins.countP (fun s =>
    match processEligible s with
    | Sum.inr _ => true
    | Sum.inl _ => false)

/-- Batch index `i` receives a default-pass write: some non-financial
record with a truthy ticker maps to `i` through `original_ticker_map`. -/
def DefaultTargeted (stocks : List Stock) (i : ℕ) : Prop :=
  ∃ j, ∃ hj : j < stocks.length,
    is_financial_company (stocks.get ⟨j, hj⟩) = false ∧
    targetIdx stocks (stocks.get ⟨j, hj⟩) = Option.some i

/-- What one row of an all-eligible scoring run looks like relative to
its input: a skipped row gets the sentinel score and its skip reason and
keeps every other field; a valid row gets ranks, score, yields, and the
fully rewritten narrative. -/
def RowFact (s out : Stock) : Prop :=
  out.raw = s.raw ∧
  ((∃ rr, extractStock s = ExtractResult.skip rr ∧
      out.sc = { s.sc with magic_formula_score := Option.none } ∧
      out.narr = { s.narr with magic_formula_reason := Option.some rr })
   ∨ (∃ e ro ps bs eyr rocr,
      extractStock s = ExtractResult.valid e ro ps bs ∧
      out.sc = { s.sc with
        magic_formula_score := Option.some (eyr + rocr)
        ey_rank := Option.some eyr
        roc_rank := Option.some rocr
        earnings_yield := Option.some (e * 100)
        return_on_capital := Option.some (ro * 100) } ∧
      out.narr = { magic_formula_reason := Option.some Reason.beraknad
                   magic_formula_ebit_periods := Option.some ps
                   magic_formula_balance_sheet_period := Option.some bs
                   magic_formula_uses_ttm := Option.some true }))

/-- Step 1 of the consistency sweep: the default column. -/
def sweep1 (sc : ScoreFields) : ScoreFields :=
  if sc.ey_rank = Option.none ∨ sc.roc_rank = Option.none then
    { sc with magic_formula_score := Option.none }
  else sc

/-- Step 2 of the consistency sweep: the 100m column. -/
def sweep2 (sc : ScoreFields) : ScoreFields :=
  if sc.ey_rank_100m = Option.none ∨ sc.roc_rank_100m = Option.none then
    { sc with magic_formula_score_100m := Option.none }
  else sc

/-- Step 3 of the consistency sweep: the 500m column. -/
def sweep3 (sc : ScoreFields) : ScoreFields :=
  if sc.ey_rank_500m = Option.none ∨ sc.roc_rank_500m = Option.none then
    { sc with magic_formula_score_500m := Option.none }
  else sc

/-- Step 4 of the consistency sweep: the 1b column. -/
def sweep4 (sc : ScoreFields) : ScoreFields :=
  if sc.ey_rank_1b = Option.none ∨ sc.roc_rank_1b = Option.none then
    { sc with magic_formula_score_1b := Option.none }
  else sc

/-- Step 5 of the consistency sweep: the 5b column. -/
def sweep5 (sc : ScoreFields) : ScoreFields :=
  if sc.ey_rank_5b = Option.none ∨ sc.roc_rank_5b = Option.none then
    { sc with magic_formula_score_5b := Option.none }
  else sc

/-- The record's raw fields pass every extraction gate. -/
def ExtractValid (s : Stock) : Prop :=
  ∃ e ro ps bs, extractStock s = ExtractResult.valid e ro ps bs

/-- A (score, ey rank, roc rank) triple is consistent: fully numeric or
fully "N/A". -/
def TripleOk (t : Option ℕ × Option ℕ × Option ℕ) : Prop :=
  (∃ x e r, t = (Option.some x, Option.some e, Option.some r)) ∨
  t = (Option.none, Option.none, Option.none)

/-- The per-entry invariant of the scoring passes: raw fields intact,
every column's triple consistent, and numeric default ranks only on
records whose raw fields pass every extraction gate. -/
def C3Inv (orig s : Stock) : Prop :=
  s.raw = orig.raw ∧
  (∀ c : ScoreColumn,
    TripleOk (colScore c s.sc, colEyRank c s.sc, colRocRank c s.sc)) ∧
  ((s.sc.ey_rank ≠ Option.none ∨ s.sc.roc_rank ≠ Option.none) → ExtractValid s)

/-- Entry-wise frame relation of the market-cap variant passes against
the default batch: raw fields, the four shared narrative fields and the
five default-column score fields all agree. -/
def C8Inv (d s : Stock) : Prop :=
  s.raw = d.raw ∧ s.narr = d.narr ∧
  s.sc.magic_formula_score = d.sc.magic_formula_score ∧
  s.sc.ey_rank = d.sc.ey_rank ∧ s.sc.roc_rank = d.sc.roc_rank ∧
  s.sc.earnings_yield = d.sc.earnings_yield ∧
  s.sc.return_on_capital = d.sc.return_on_capital

/-- After the default pass: a non-financial entry that maps back to its
own index and passes every gate carries the gate's period strings in its
shared narrative fields. -/
def DNarrFact (stocks : List Stock) (i : ℕ) (d : Stock) : Prop :=
  ∀ e ro ps bs, is_financial_company d = false →
    targetIdx stocks d = Option.some i →
    extractStock d = ExtractResult.valid e ro ps bs →
    d.narr.magic_formula_ebit_periods = Option.some ps ∧
    d.narr.magic_formula_balance_sheet_period = Option.some bs

/-- What the write-back passes need of two parallel scoring results
computed from inputs with equal raw and score fields: the narrative may
only differ on a non-calculated result, and the reason is always set. -/
def PairedResult (r r' : Stock) : Prop :=
  r.raw = r'.raw ∧ r.sc = r'.sc ∧
  r.narr.magic_formula_reason = r'.narr.magic_formula_reason ∧
  r.narr.magic_formula_reason ≠ Option.none ∧
  (r.sc.magic_formula_score ≠ Option.none → r.narr = r'.narr)

/-- `PairedResult` lifted to optional list lookups: both absent, or both
present and paired. -/
def OptPaired : Option Stock → Option Stock → Prop
  | Option.some a, Option.some b => PairedResult a b
  | Option.none, Option.none => True
  | _, _ => False

/-- The paired-batch relation of the default write-back: entries agree
on raw and score fields, and on the narrative too unless some pending
result targets this index. -/
def OptBatchRel (res stocks : List Stock) (i : ℕ) :
    Option Stock → Option Stock → Prop
  | Option.some a, Option.some b => a.raw = b.raw ∧ a.sc = b.sc ∧
      (a.narr = b.narr ∨ ∃ r ∈ res, targetIdx stocks r = Option.some i)
  | Option.none, Option.none => True
  | _, _ => False


/-- `ey = ebit_val / ev_val if ev_val > 0 else 0` (line 337). -/
def eyComputed (s : Stock) (ev : ℚ) : ℚ :=
  if 0 < ev then (calculate_ttm_from_quarterly s.raw.quarterly_ebit).1 / ev else 0

/-- `roc = ebit_val / invested_capital if invested_capital > 0 else 0`
(line 354). -/
def rocComputed (s : Stock) (q : BSEntry) : ℚ :=
  if 0 < investedCapitalOf q then
    (calculate_ttm_from_quarterly s.raw.quarterly_ebit).1 / investedCapitalOf q
  else 0

/-! ## Concrete example records (spec §8 scenarios and counterexamples) -/

/-- A quarterly EBIT entry with a numeric value. -/
def mkQuarter (p : String) (v : ℚ) : QItem := QItem.entry (Option.some p) (PyVal.num v)

/-- Narrative fields all absent. -/
def narrEmpty : NarrFields :=
  { magic_formula_reason := Option.none
    magic_formula_ebit_periods := Option.none
    magic_formula_balance_sheet_period := Option.none
    magic_formula_uses_ttm := Option.none }

/-- Four quarters of EBIT 100 each: TTM = 400. -/
def exQuarters : List QItem :=
  [mkQuarter "2024-Q4" 100, mkQuarter "2024-Q3" 100,
   mkQuarter "2024-Q2" 100, mkQuarter "2024-Q1" 100]

/-- Spec scenario 1 balance sheet: invested capital
1000 − 100 − 200 + 50 = 750. -/
def exBS : BSEntry :=
  { period := Option.some "2024-12-31"
    total_assets := PyVal.num 1000
    current_liabilities := PyVal.num 200
    cash := PyVal.num 100
    short_term_debt := PyVal.num 50 }

/-- Spec scenario 3's failing case: invested capital
265 − 100 − 200 + 50 = 15 < 20 = 5% of the TTM EBIT 400. -/
def exBSSmallIC : BSEntry :=
  { period := Option.some "2024-12-31"
    total_assets := PyVal.num 265
    current_liabilities := PyVal.num 200
    cash := PyVal.num 100
    short_term_debt := PyVal.num 50 }

/-- Invested capital 100 − 100 − 200 + 50 = −150 ≤ 0. -/
def exBSNegIC : BSEntry :=
  { period := Option.some "2024-12-31"
    total_assets := PyVal.num 100
    current_liabilities := PyVal.num 200
    cash := PyVal.num 100
    short_term_debt := PyVal.num 50 }

/-- Balance sheet whose `cash` is the literal "N/A" string (present but
not numeric, not `None`). -/
def exBSCashNA : BSEntry :=
  { period := Option.some "2024-12-31"
    total_assets := PyVal.num 1000
    current_liabilities := PyVal.num 200
    cash := PyVal.str "N/A"
    short_term_debt := PyVal.num 50 }

/-- Balance sheet with `cash` absent. -/
def exBSCashNone : BSEntry :=
  { period := Option.some "2024-12-31"
    total_assets := PyVal.num 1000
    current_liabilities := PyVal.num 200
    cash := PyVal.null
    short_term_debt := PyVal.num 50 }

/-- The raw data of spec scenario 1: TTM EBIT 400, enterprise value
4000, invested capital 750. -/
def exRawBase : RawData :=
  { ticker := Option.some "AAA"
    name := Option.some "Test AB"
    sector := Option.some "Technology"
    industry := Option.some "Software"
    currency := Option.some "SEK"
    error := Option.none
    default_excluded := false
    exclusion_reason := Option.none
    enterprise_value := Option.some 4000
    market_cap := Option.some 600000000
    quarterly_ebit := Option.some exQuarters
    quarterly_balance_sheet := Option.some [BSItem.entry exBS] }

/-- Spec scenario 1 as a full record. -/
def exStock : Stock := { raw := exRawBase, sc := scNA, narr := narrEmpty }

/-- Same fundamentals but enterprise value 2000 (earnings yield 0.2). -/
def exStockB : Stock :=
  { exStock with raw := { exRawBase with
      ticker := Option.some "BBB", enterprise_value := Option.some 2000 } }

/-- Spec scenario 3's failing record (invested capital 15). -/
def exStockSmallIC : Stock :=
  { exStock with raw := { exRawBase with
      quarterly_balance_sheet := Option.some [BSItem.entry exBSSmallIC] } }

/-- A record with non-positive invested capital (−150). -/
def exStockNegIC : Stock :=
  { exStock with raw := { exRawBase with
      quarterly_balance_sheet := Option.some [BSItem.entry exBSNegIC] } }

/-- Scenario with a non-positive enterprise value (−5). -/
def exStockNegEV : Stock :=
  { exStock with raw := { exRawBase with enterprise_value := Option.some (-5) } }

/-- A record whose most recent balance-sheet entry carries the literal
"N/A" string (not `None`) as its `cash` value. -/
def exStockCashNA : Stock :=
  { exStock with raw := { exRawBase with
      quarterly_balance_sheet := Option.some [BSItem.entry exBSCashNA] } }

/-- A record with `cash` absent from the most recent entry. -/
def exStockCashNone : Stock :=
  { exStock with raw := { exRawBase with
      quarterly_balance_sheet := Option.some [BSItem.entry exBSCashNone] } }

/-- A record whose sector is "Financial Services". -/
def exStockFinSector : Stock :=
  { exStock with raw := { exRawBase with
      ticker := Option.some "FFF", sector := Option.some "Financial Services" } }

/-- A second record with exactly the fundamentals of `exStock` (for
exercising ties). -/
def exStockA2 : Stock :=
  { exStock with raw := { exRawBase with ticker := Option.some "AA2" } }

/-- A record whose industry is "financial" but whose sector, name and
ticker match no exclusion keyword. -/
def exStockFinIndustry : Stock :=
  { raw :=
    { ticker := Option.some "ZZZ"
      name := Option.some "Zeta AB"
      sector := Option.some "Technology"
      industry := Option.some "financial"
      currency := Option.some "SEK"
      error := Option.none
      default_excluded := false
      exclusion_reason := Option.none
      enterprise_value := Option.some 4000
      market_cap := Option.some 600000000
      quarterly_ebit := Option.none
      quarterly_balance_sheet := Option.none }
    sc := scNA
    narr := narrEmpty }

/-! ## Gate evaluation lemmas -/

/-- Under the gates up to the invested-capital step, the extractor is the
extraction tail. -/
theorem extractStock_eq_tail (s : Stock) (q : BSEntry) (rest : List BSItem)
    (qe : List QItem) (ev : ℚ) (ps : String)
    (h1 : pyTruthy s.raw.error = false)
    (h2 : ¬(s.raw.currency.getD "N/A" ≠ "SEK" ∧ s.raw.currency.getD "N/A" ≠ "N/A"))
    (hev : s.raw.enterprise_value = Option.some ev)
    (hqe : s.raw.quarterly_ebit = Option.some qe)
    (hlen : ¬(qe.length < 4))
    (hps : (calculate_ttm_from_quarterly (Option.some qe)).2 = Option.some ps)
    (hpos : ¬((calculate_ttm_from_quarterly (Option.some qe)).1 ≤ 0))
    (hbs : s.raw.quarterly_balance_sheet = Option.some (BSItem.entry q :: rest))
    (hta : q.total_assets ≠ PyVal.null)
    (hcl : q.current_liabilities ≠ PyVal.null)
    (hca : q.cash ≠ PyVal.null)
    (hsd : q.short_term_debt ≠ PyVal.null) :
    extractStock s =
      extractTail (calculate_ttm_from_quarterly (Option.some qe)).1 ps ev q := by
  simp only [extractStock, h1, hev, hqe, hbs, hps, Bool.false_eq_true, if_false,
    h2, hlen, hpos, hta, hcl, hca, hsd, ite_false, ne_eq, not_false_iff]

/-- Under the gates up to the balance-sheet field checks, the extractor
is the four presence checks followed by the extraction tail. -/
theorem extractStock_at_balance (s : Stock) (q : BSEntry) (rest : List BSItem)
    (qe : List QItem) (ev : ℚ) (ps : String)
    (h1 : pyTruthy s.raw.error = false)
    (h2 : ¬(s.raw.currency.getD "N/A" ≠ "SEK" ∧ s.raw.currency.getD "N/A" ≠ "N/A"))
    (hev : s.raw.enterprise_value = Option.some ev)
    (hqe : s.raw.quarterly_ebit = Option.some qe)
    (hlen : ¬(qe.length < 4))
    (hps : (calculate_ttm_from_quarterly (Option.some qe)).2 = Option.some ps)
    (hpos : ¬((calculate_ttm_from_quarterly (Option.some qe)).1 ≤ 0))
    (hbs : s.raw.quarterly_balance_sheet = Option.some (BSItem.entry q :: rest)) :
    extractStock s =
      (if q.total_assets = PyVal.null then ExtractResult.skip Reason.saknarTotalAssets
       else if q.current_liabilities = PyVal.null then
         ExtractResult.skip Reason.saknarCurrentLiabilities
       else if q.cash = PyVal.null then ExtractResult.skip Reason.saknarCash
       else if q.short_term_debt = PyVal.null then
         ExtractResult.skip Reason.saknarShortTermDebt
       else extractTail (calculate_ttm_from_quarterly (Option.some qe)).1 ps ev q) := by
  simp only [extractStock, h1, hev, hqe, hbs, hps, Bool.false_eq_true, if_false,
    h2, hlen, hpos, ite_false, ne_eq, not_false_iff]

/-! ## Stable descending sort: permutation, sortedness, stability -/

theorem sortDesc_perm {α : Type} (key : α → ℚ) (l : List α) :
    (stableSortDescBy key l).Perm l :=
  List.mergeSort_perm l _

theorem sortDesc_length {α : Type} (key : α → ℚ) (l : List α) :
    (stableSortDescBy key l).length = l.length :=
  (sortDesc_perm key l).length_eq

theorem sortDesc_pairwise {α : Type} (key : α → ℚ) (l : List α) :
    List.Pairwise (fun a b => key b ≤ key a) (stableSortDescBy key l) := by
  have := @List.sorted_mergeSort α (fun a b : α => decide (key b ≤ key a))
    (fun a b c hab hbc => by simp_all; linarith)
    (fun a b => by simp [le_total])
    l
  simpa [stableSortDescBy] using this

theorem sortDesc_pair_sublist {α : Type} (key : α → ℚ) {l : List α} {a b : α}
    (h : [a, b].Sublist l) (hk : key a = key b) :
    [a, b].Sublist (stableSortDescBy key l) := by
  apply List.sublist_mergeSort
    (fun a b c hab hbc => by simp_all; linarith)
    (fun a b => by simp [le_total])
  · simp [hk]
  · exact h

theorem pair_sublist_of_getElem {α : Type} {l : List α} {i j : ℕ}
    (hi : i < l.length) (hj : j < l.length) (hij : i < j) :
    [l[i], l[j]].Sublist l := by
  have h := @List.map_get_sublist α l [⟨i, hi⟩, ⟨j, hj⟩]
    (by simp [hij])
  simpa using h

theorem pair_sublist_index {α : Type} {l : List α} {a b : α}
    (h : [a, b].Sublist l) :
    ∃ i j, ∃ (hi : i < l.length) (hj : j < l.length),
      i < j ∧ l[i] = a ∧ l[j] = b := by
  obtain ⟨is, heq, hpw⟩ := List.sublist_eq_map_get h
  have hlen2 : is.length = 2 := by
    have := congrArg List.length heq
    simpa using this.symm
  match is, hlen2, heq, hpw with
  | [x, y], _, heq, hpw =>
    simp only [List.map_cons, List.map_nil, List.cons.injEq, and_true] at heq
    obtain ⟨ha, hb⟩ := heq
    refine ⟨x.1, y.1, x.2, y.2, by simpa using hpw, ?_, ?_⟩
    · rw [ha]; simp [List.get_eq_getElem]
    · rw [hb]; simp [List.get_eq_getElem]

/-! ## Tagged pools: positions and ranks -/

theorem findIdx_tag_of_nodup {β : Type} {l : List (ℕ × β)}
    (hnd : (l.map Prod.fst).Nodup) (i : ℕ) (hi : i < l.length) :
    l.findIdx? (fun t => t.1 == l[i].1) = Option.some i := by
  rw [List.findIdx?_eq_some_iff_getElem]
  refine ⟨hi, by simp, fun j hj => ?_⟩
  have hj' : j < l.length := lt_trans hj hi
  simp only [beq_iff_eq, Bool.not_eq_true, beq_eq_false_iff_ne, ne_eq]
  intro hcontra
  have hjm : j < (l.map Prod.fst).length := by simpa using hj'
  have him : i < (l.map Prod.fst).length := by simpa using hi
  have h1 : (l.map Prod.fst)[j] = (l.map Prod.fst)[i] := by
    simpa [List.getElem_map] using hcontra
  have := (List.Nodup.getElem_inj_iff hnd).mp h1
  omega

theorem findIdx_tag_mem {β : Type} {l : List (ℕ × β)}
    (hnd : (l.map Prod.fst).Nodup) {k : ℕ} (hmem : k ∈ l.map Prod.fst) :
    ∃ i, ∃ hi : i < l.length, l[i].1 = k ∧
      l.findIdx? (fun t => t.1 == k) = Option.some i := by
  rw [List.mem_iff_getElem] at hmem
  obtain ⟨i, hi, hik⟩ := hmem
  have hi' : i < l.length := by simpa using hi
  have hik' : l[i].1 = k := by simpa [List.getElem_map] using hik
  refine ⟨i, hi', hik', ?_⟩
  have := findIdx_tag_of_nodup hnd i hi'
  rwa [hik'] at this

theorem nodup_tags_rank_map {β : Type} {l : List (ℕ × β)}
    (hnd : (l.map Prod.fst).Nodup) :
    (l.map Prod.fst).map
        (fun k => ((l.findIdx? (fun t => t.1 == k)).map (fun i => i + 1)).getD 0)
      = List.range' 1 l.length := by
  apply List.ext_getElem
  · simp
  · intro n h1 h2
    have hn : n < l.length := by simpa using h1
    have hfind := findIdx_tag_of_nodup hnd n hn
    simp only [List.getElem_map, List.getElem_range']
    rw [hfind]
    simp [Nat.add_comm]

/-- The pool tags are `0, 1, ..., N-1` in order. -/
theorem mfPool_map_fst (fl : Option (Stock → Bool)) (stocks : List Stock) :
    (mfPool fl stocks).map Prod.fst = List.range (mfValidItems fl stocks).length := by
  unfold mfPool
  rw [List.map_map]
  have : (Prod.fst ∘ fun p : ℕ × ValidItem => (p.1, p.2.ey, p.2.roc)) = Prod.fst := rfl
  rw [this, List.enum_map_fst]

theorem mfPool_length (fl : Option (Stock → Bool)) (stocks : List Stock) :
    (mfPool fl stocks).length = (mfValidItems fl stocks).length := by
  unfold mfPool; simp [List.enum_length]

theorem mfPool_getElem (fl : Option (Stock → Bool)) (stocks : List Stock)
    (k : ℕ) (hk : k < (mfPool fl stocks).length) :
    (mfPool fl stocks)[k] =
      (k, ((mfValidItems fl stocks).get
            ⟨k, by rw [← mfPool_length fl stocks]; exact hk⟩).ey,
          ((mfValidItems fl stocks).get
            ⟨k, by rw [← mfPool_length fl stocks]; exact hk⟩).roc) := by
  unfold mfPool
  have hk' : k < (mfValidItems fl stocks).length := by
    rw [← mfPool_length fl stocks]; exact hk
  simp [List.getElem_map, List.getElem_enum]

theorem mfEySorted_perm_pool (fl : Option (Stock → Bool)) (stocks : List Stock) :
    (mfEySorted fl stocks).Perm (mfPool fl stocks) :=
  sortDesc_perm _ _

theorem mfRocSorted_perm_pool (fl : Option (Stock → Bool)) (stocks : List Stock) :
    (mfRocSorted fl stocks).Perm (mfPool fl stocks) :=
  (sortDesc_perm _ _).trans (mfEySorted_perm_pool fl stocks)

theorem mfEySorted_tags_perm (fl : Option (Stock → Bool)) (stocks : List Stock) :
    ((mfEySorted fl stocks).map Prod.fst).Perm
      (List.range (mfValidItems fl stocks).length) := by
  rw [← mfPool_map_fst fl stocks]
  exact (mfEySorted_perm_pool fl stocks).map Prod.fst

theorem mfRocSorted_tags_perm (fl : Option (Stock → Bool)) (stocks : List Stock) :
    ((mfRocSorted fl stocks).map Prod.fst).Perm
      (List.range (mfValidItems fl stocks).length) := by
  rw [← mfPool_map_fst fl stocks]
  exact (mfRocSorted_perm_pool fl stocks).map Prod.fst

theorem mfEySorted_tags_nodup (fl : Option (Stock → Bool)) (stocks : List Stock) :
    ((mfEySorted fl stocks).map Prod.fst).Nodup :=
  ((mfEySorted_tags_perm fl stocks).symm.nodup
    (List.nodup_range (mfValidItems fl stocks).length))

theorem mfRocSorted_tags_nodup (fl : Option (Stock → Bool)) (stocks : List Stock) :
    ((mfRocSorted fl stocks).map Prod.fst).Nodup :=
  ((mfRocSorted_tags_perm fl stocks).symm.nodup
    (List.nodup_range (mfValidItems fl stocks).length))

/-- Every pool tag gets an ey rank: its 1-based position in the stable
ey-descending sort. -/
theorem mfEyRank_eq_some (fl : Option (Stock → Bool)) (stocks : List Stock)
    (k : ℕ) (hk : k < (mfValidItems fl stocks).length) :
    ∃ i, ∃ hi : i < (mfEySorted fl stocks).length,
      (mfEySorted fl stocks)[i].1 = k ∧
      mfEyRank fl stocks k = Option.some (i + 1) := by
  have hmem : k ∈ (mfEySorted fl stocks).map Prod.fst :=
    ((mfEySorted_tags_perm fl stocks).mem_iff).mpr (by simpa using hk)
  obtain ⟨i, hi, hik, hfind⟩ := findIdx_tag_mem (mfEySorted_tags_nodup fl stocks) hmem
  exact ⟨i, hi, hik, by simp [mfEyRank, hfind]⟩

/-- Every pool tag gets a roc rank: its 1-based position in the stable
roc-descending re-sort. -/
theorem mfRocRank_eq_some (fl : Option (Stock → Bool)) (stocks : List Stock)
    (k : ℕ) (hk : k < (mfValidItems fl stocks).length) :
    ∃ i, ∃ hi : i < (mfRocSorted fl stocks).length,
      (mfRocSorted fl stocks)[i].1 = k ∧
      mfRocRank fl stocks k = Option.some (i + 1) := by
  have hmem : k ∈ (mfRocSorted fl stocks).map Prod.fst :=
    ((mfRocSorted_tags_perm fl stocks).mem_iff).mpr (by simpa using hk)
  obtain ⟨i, hi, hik, hfind⟩ := findIdx_tag_mem (mfRocSorted_tags_nodup fl stocks) hmem
  exact ⟨i, hi, hik, by simp [mfRocRank, hfind]⟩

/-! ## Inventory of the possible skip reasons -/

/-- The extractor can only skip with one of the reasons below; in
particular the "Negativ EBIT" and "Negativ/noll Return on Capital"
branches of the final gate, and its `else` branch, are unreachable. -/
theorem extractStock_skip_cases (s : Stock) (r : Reason)
    (h : extractStock s = ExtractResult.skip r) :
    r = Reason.felVidHamtning ∨ (∃ c, r = Reason.valuta c) ∨
    r = Reason.saknarEV ∨ r = Reason.saknarKvartalsEbit ∨
    r = Reason.kundeInteBeraknaTTM ∨ r = Reason.saknarKvartalsBalans ∨
    r = Reason.ogiltigKvartalsBalans ∨ r = Reason.saknarTotalAssets ∨
    r = Reason.saknarCurrentLiabilities ∨ r = Reason.saknarCash ∨
    r = Reason.saknarShortTermDebt ∨ r = Reason.negativtInvesteratKapital ∨
    (∃ a b, r = Reason.kapitalForLitet a b) ∨ r = Reason.negativEY := by
  unfold extractStock at h
  repeat' split at h
  all_goals try (cases h <;> simp)
  all_goals try (unfold extractTail at h; repeat' split at h)
  all_goals try (cases h <;> simp)
  all_goals exfalso
  all_goals try linarith
  all_goals
    first
      | (rename_i hevpos hicpos hgate htlt heyle hrocle
         have hey := not_le.mp heyle
         rcases div_pos_iff.mp hey with ⟨htt, hev2⟩ | ⟨htneg, hevneg⟩
         · exact absurd (div_pos htt hicpos) (not_lt.mpr hrocle)
         · linarith)
      | (rename_i hevpos hicpos hgate htlt heyle hrocneg
         exact hgate ⟨not_le.mp heyle, not_le.mp hrocneg⟩)

/-- A skip reason is never the "Beräknad" marker. -/
theorem extractStock_skip_ne_beraknad (s : Stock) (r : Reason)
    (h : extractStock s = ExtractResult.skip r) : r ≠ Reason.beraknad := by
  rcases extractStock_skip_cases s r h with
    h | ⟨c, h⟩ | h | h | h | h | h | h | h | h | h | h | ⟨a, b, h⟩ | h <;> simp [h]

/-! ## Frame and congruence lemmas -/

@[simp] theorem ensureReason_raw (s : Stock) : (ensureReason s).raw = s.raw := by
  unfold ensureReason; split <;> rfl

@[simp] theorem skippedStock_raw (s : Stock) (r : Reason) :
    (skippedStock s r).raw = s.raw := by
  unfold skippedStock; simp

@[simp] theorem markExcluded_raw (s : Stock) : (markExcluded s).raw = s.raw := rfl

@[simp] theorem applyScore_raw (it : ValidItem) (e r : ℕ) :
    (applyScore it e r).raw = it.stock.raw := rfl

@[simp] theorem initScores_raw (s : Stock) : (initScores s).raw = s.raw := rfl

@[simp] theorem applyDefaultCopy_raw (r t : Stock) :
    (applyDefaultCopy r t).raw = t.raw := rfl

@[simp] theorem applyVariantCopy_raw (v : CapVariant) (r t : Stock) :
    (applyVariantCopy v r t).raw = t.raw := rfl

@[simp] theorem finalEnsure_raw (s : Stock) : (finalEnsure s).raw = s.raw := by
  unfold finalEnsure; split <;> rfl

@[simp] theorem sweepStock_raw (s : Stock) : (sweepStock s).raw = s.raw := by
  unfold sweepStock; split <;> rfl

theorem extractStock_raw_congr {a b : Stock} (h : a.raw = b.raw) :
    extractStock a = extractStock b := by
  unfold extractStock; rw [h]

theorem is_financial_company_raw_congr {a b : Stock} (h : a.raw = b.raw) :
    is_financial_company a = is_financial_company b := by
  unfold is_financial_company; rw [h]

theorem meets_market_cap_raw_congr {a b : Stock} (h : a.raw = b.raw) (m : ℚ) :
    meets_market_cap_threshold a m = meets_market_cap_threshold b m := by
  unfold meets_market_cap_threshold; rw [h]

theorem extractStock_ensureReason (s : Stock) :
    extractStock (ensureReason s) = extractStock s :=
  extractStock_raw_congr (ensureReason_raw s)

/-- A skipped eligible record leaves the pipeline at `processEligible`:
sentinel score, skip reason, and it never joins the ranking pool. -/
theorem processEligible_skip {s : Stock} {r : Reason}
    (h : extractStock s = ExtractResult.skip r) :
    processEligible s = Sum.inl (skippedStock s r) := by
  unfold processEligible
  dsimp only
  rw [extractStock_ensureReason, h]

theorem processEligible_valid {s : Stock} {ey roc : ℚ} {ps bs : String}
    (h : extractStock s = ExtractResult.valid ey roc ps bs) :
    processEligible s = Sum.inr ⟨ensureReason s, ey, roc, ps, bs⟩ := by
  unfold processEligible
  dsimp only
  rw [extractStock_ensureReason, h]

/-! ## Gate facts for the concrete example records -/

/-- TTM over the example quarters: 400, periods "2024-Q1 to 2024-Q4". -/
theorem exQuarters_ttm : calculate_ttm_from_quarterly (Option.some exQuarters) =
    (400, Option.some "2024-Q1 to 2024-Q4") := by
  norm_num [calculate_ttm_from_quarterly, exQuarters, mkQuarter,
    List.filterMap_cons, List.sum_cons, List.getD]
  rfl

theorem exStock_reaches : ReachesInvestedCapital exStock exBS := by
  refine ⟨⟨⟨⟨by decide, by decide, by decide⟩,
    exQuarters, rfl, by decide, ?_, ?_⟩, [], rfl⟩,
    by decide, by decide, by decide, by decide⟩
  · rw [exQuarters_ttm]; simp
  · rw [exQuarters_ttm]; norm_num

theorem exStockSmallIC_reaches : ReachesInvestedCapital exStockSmallIC exBSSmallIC := by
  refine ⟨⟨⟨⟨by decide, by decide, by decide⟩,
    exQuarters, rfl, by decide, ?_, ?_⟩, [], rfl⟩,
    by decide, by decide, by decide, by decide⟩
  · rw [exQuarters_ttm]; simp
  · rw [exQuarters_ttm]; norm_num

theorem exStockNegIC_reaches : ReachesInvestedCapital exStockNegIC exBSNegIC := by
  refine ⟨⟨⟨⟨by decide, by decide, by decide⟩,
    exQuarters, rfl, by decide, ?_, ?_⟩, [], rfl⟩,
    by decide, by decide, by decide, by decide⟩
  · rw [exQuarters_ttm]; simp
  · rw [exQuarters_ttm]; norm_num

theorem exStockNegEV_reaches : ReachesFinalGate exStockNegEV exBS := by
  refine ⟨⟨⟨⟨⟨by decide, by decide, by decide⟩,
    exQuarters, rfl, by decide, ?_, ?_⟩, [], rfl⟩,
    by decide, by decide, by decide, by decide⟩, ?_, ?_⟩
  · rw [exQuarters_ttm]; simp
  · rw [exQuarters_ttm]; norm_num
  · norm_num [investedCapitalOf, exBS, floatOr0]
  · show ¬(investedCapitalOf exBS <
      |(calculate_ttm_from_quarterly exStockNegEV.raw.quarterly_ebit).1| * (5 / 100))
    have hq : exStockNegEV.raw.quarterly_ebit = Option.some exQuarters := rfl
    rw [hq, exQuarters_ttm]
    norm_num [investedCapitalOf, exBS, floatOr0]

theorem exStockCashNone_reaches : ReachesBalanceFields exStockCashNone exBSCashNone := by
  refine ⟨⟨⟨by decide, by decide, by decide⟩,
    exQuarters, rfl, by decide, ?_, ?_⟩, [], rfl⟩
  · rw [exQuarters_ttm]; simp
  · rw [exQuarters_ttm]; norm_num

/-! ## Claims C4-C7 and C10 -/

/-- C4: for every record reaching the invested-capital step whose four
balance-sheet components are numbers, invested capital is exactly
`total_assets − cash − current_liabilities + short_term_debt` from the
most recent quarterly entry; if that value is ≤ 0 the record is skipped
with the non-positive-invested-capital reason, receives no ranks (it
leaves the pipeline at `processEligible`), and when the record is
instead scored its return on capital divides by exactly that value. -/
theorem claim_C4 (s : Stock) (q : BSEntry) (ta cl ca sd : ℚ)
    (hreach : ReachesInvestedCapital s q)
    (hta : q.total_assets = PyVal.num ta)
    (hcl : q.current_liabilities = PyVal.num cl)
    (hca : q.cash = PyVal.num ca)
    (hsd : q.short_term_debt = PyVal.num sd) :
    investedCapitalOf q = ta - ca - cl + sd ∧
    (ta - ca - cl + sd ≤ 0 →
      extractStock s = ExtractResult.skip Reason.negativtInvesteratKapital ∧
      processEligible s = Sum.inl (skippedStock s Reason.negativtInvesteratKapital)) ∧
    (∀ ey roc ps bs, extractStock s = ExtractResult.valid ey roc ps bs →
      roc = (calculate_ttm_from_quarterly s.raw.quarterly_ebit).1 / (ta - ca - cl + sd)) := by
  obtain ⟨⟨⟨⟨h1, h2, hev0⟩, qe, hqe, hlen, hps0, hpos⟩, rest, hbs⟩, hta0, hcl0, hca0, hsd0⟩ :=
    hreach
  obtain ⟨ev, hev⟩ := Option.ne_none_iff_exists'.mp hev0
  obtain ⟨ps, hps⟩ := Option.ne_none_iff_exists'.mp hps0
  have hic : investedCapitalOf q = ta - ca - cl + sd := by
    unfold investedCapitalOf
    rw [hta, hca, hcl, hsd]
    simp [floatOr0]
  have key := extractStock_eq_tail s q rest qe ev ps h1 h2 hev hqe hlen hps hpos hbs
    hta0 hcl0 hca0 hsd0
  refine ⟨hic, fun hle => ?_, fun ey roc ps2 bs2 hv => ?_⟩
  · have hskip : extractStock s = ExtractResult.skip Reason.negativtInvesteratKapital := by
      rw [key]
      unfold extractTail
      rw [if_pos (by rw [hic]; exact hle)]
    exact ⟨hskip, processEligible_skip hskip⟩
  · rw [key] at hv
    unfold extractTail at hv
    rw [hqe]
    repeat' split at hv
    all_goals try (cases hv)
    all_goals try (rw [hic])
    all_goals simp_all

/-- C4 witness: the record with balance sheet 100/200/100/50 has
invested capital −150 ≤ 0 and is skipped with the
non-positive-invested-capital reason. -/
theorem claim_C4_witness :
    investedCapitalOf exBSNegIC = 100 - 100 - 200 + 50 ∧
    ((100:ℚ) - 100 - 200 + 50 ≤ 0 →
      extractStock exStockNegIC = ExtractResult.skip Reason.negativtInvesteratKapital ∧
      processEligible exStockNegIC =
        Sum.inl (skippedStock exStockNegIC Reason.negativtInvesteratKapital)) ∧
    (∀ ey roc ps bs, extractStock exStockNegIC = ExtractResult.valid ey roc ps bs →
      roc = (calculate_ttm_from_quarterly exStockNegIC.raw.quarterly_ebit).1 /
        (100 - 100 - 200 + 50)) :=
  claim_C4 exStockNegIC exBSNegIC 100 200 100 50 exStockNegIC_reaches rfl rfl rfl rfl

/-- C5 counterexample: a record whose most recent balance-sheet entry
carries the literal "N/A" string as its `cash` value is NOT skipped
with a field-specific reason — the extractor treats it as 0 and scores
the record (invested capital 1000 − 0 − 200 + 50 = 850, return on
capital 400/850 = 8/17). -/
theorem claim_C5_counterexample :
    exStockCashNA.raw.quarterly_balance_sheet =
      Option.some [BSItem.entry exBSCashNA] ∧
    exBSCashNA.cash = PyVal.str "N/A" ∧
    investedCapitalOf exBSCashNA = 1000 - 0 - 200 + 50 ∧
    extractStock exStockCashNA =
      ExtractResult.valid (1 / 10) (8 / 17) "2024-Q1 to 2024-Q4" "2024-12-31" := by
  refine ⟨rfl, rfl, by norm_num [investedCapitalOf, exBSCashNA, floatOr0], ?_⟩
  have key := extractStock_eq_tail exStockCashNA exBSCashNA [] exQuarters 4000
    "2024-Q1 to 2024-Q4"
    (by decide) (by decide) rfl rfl (by decide)
    (by rw [exQuarters_ttm]) (by rw [exQuarters_ttm]; norm_num)
    rfl (by decide) (by decide) (by decide) (by decide)
  rw [key, exQuarters_ttm]
  unfold extractTail
  norm_num [investedCapitalOf, exBSCashNA, floatOr0]

/-- C5 (amended): the four field gates fire exactly when a component is
absent or `None` in the most recent entry — then the record is skipped
with the field-specific reason (priority: total assets, current
liabilities, cash, short-term debt) and receives no ranks.  A present
but non-numeric value (such as the literal "N/A" string) does not
trigger the gate; it is coerced to 0 (see the counterexample). -/
theorem claim_C5_amended (s : Stock) (q : BSEntry)
    (hreach : ReachesBalanceFields s q) :
    (q.total_assets = PyVal.null →
       extractStock s = ExtractResult.skip Reason.saknarTotalAssets ∧
       processEligible s = Sum.inl (skippedStock s Reason.saknarTotalAssets)) ∧
    (q.total_assets ≠ PyVal.null → q.current_liabilities = PyVal.null →
       extractStock s = ExtractResult.skip Reason.saknarCurrentLiabilities ∧
       processEligible s = Sum.inl (skippedStock s Reason.saknarCurrentLiabilities)) ∧
    (q.total_assets ≠ PyVal.null → q.current_liabilities ≠ PyVal.null →
     q.cash = PyVal.null →
       extractStock s = ExtractResult.skip Reason.saknarCash ∧
       processEligible s = Sum.inl (skippedStock s Reason.saknarCash)) ∧
    (q.total_assets ≠ PyVal.null → q.current_liabilities ≠ PyVal.null →
     q.cash ≠ PyVal.null → q.short_term_debt = PyVal.null →
       extractStock s = ExtractResult.skip Reason.saknarShortTermDebt ∧
       processEligible s = Sum.inl (skippedStock s Reason.saknarShortTermDebt)) := by
  obtain ⟨⟨⟨h1, h2, hev0⟩, qe, hqe, hlen, hps0, hpos⟩, rest, hbs⟩ := hreach
  obtain ⟨ev, hev⟩ := Option.ne_none_iff_exists'.mp hev0
  obtain ⟨ps, hps⟩ := Option.ne_none_iff_exists'.mp hps0
  have key := extractStock_at_balance s q rest qe ev ps h1 h2 hev hqe hlen hps hpos hbs
  refine ⟨fun ha => ?_, fun ha hb => ?_, fun ha hb hc => ?_, fun ha hb hc hd => ?_⟩
  all_goals
    refine ⟨?_, processEligible_skip ?_⟩ <;>
      (rw [key]; simp_all)

/-- C5 witness (amended claim): a record whose most recent entry has
`cash` absent is skipped with "Saknar Cash i kvartalsdata". -/
theorem claim_C5_witness :
    (exBSCashNone.total_assets = PyVal.null →
       extractStock exStockCashNone = ExtractResult.skip Reason.saknarTotalAssets ∧
       processEligible exStockCashNone =
         Sum.inl (skippedStock exStockCashNone Reason.saknarTotalAssets)) ∧
    (exBSCashNone.total_assets ≠ PyVal.null →
     exBSCashNone.current_liabilities = PyVal.null →
       extractStock exStockCashNone = ExtractResult.skip Reason.saknarCurrentLiabilities ∧
       processEligible exStockCashNone =
         Sum.inl (skippedStock exStockCashNone Reason.saknarCurrentLiabilities)) ∧
    (exBSCashNone.total_assets ≠ PyVal.null →
     exBSCashNone.current_liabilities ≠ PyVal.null →
     exBSCashNone.cash = PyVal.null →
       extractStock exStockCashNone = ExtractResult.skip Reason.saknarCash ∧
       processEligible exStockCashNone =
         Sum.inl (skippedStock exStockCashNone Reason.saknarCash)) ∧
    (exBSCashNone.total_assets ≠ PyVal.null →
     exBSCashNone.current_liabilities ≠ PyVal.null →
     exBSCashNone.cash ≠ PyVal.null → exBSCashNone.short_term_debt = PyVal.null →
       extractStock exStockCashNone = ExtractResult.skip Reason.saknarShortTermDebt ∧
       processEligible exStockCashNone =
         Sum.inl (skippedStock exStockCashNone Reason.saknarShortTermDebt)) :=
  claim_C5_amended exStockCashNone exBSCashNone exStockCashNone_reaches

/-- C6 counterexample: a record whose industry string contains
"financial" but whose sector, name and ticker match no exclusion
keyword is NOT classified as a financial company by the code. -/
theorem claim_C6_counterexample :
    exStockFinIndustry.raw.industry = Option.some "financial" ∧
    exStockFinIndustry.raw.sector = Option.some "Technology" ∧
    is_financial_company exStockFinIndustry = false := by
  refine ⟨rfl, rfl, by decide⟩

/-- C6 (amended): a record whose SECTOR string (lower-cased) contains
"financial" is always classified as a financial company, independent of
its fundamentals; an industry string containing "financial" does not by
itself trigger the exclusion (see the counterexample). -/
theorem claim_C6_amended (s : Stock)
    (h : containsSub (pyLower (s.raw.sector.getD "")) "financial" = true) :
    is_financial_company s = true := by
  unfold is_financial_company
  split
  · rfl
  · dsimp only
    rw [h]
    simp

/-- C6 witness: a record with sector "Financial Services" is excluded. -/
theorem claim_C6_witness :
    containsSub (pyLower (exStockFinSector.raw.sector.getD "")) "financial" = true ∧
    is_financial_company exStockFinSector = true :=
  ⟨by decide, claim_C6_amended exStockFinSector (by decide)⟩

/-- C7: for records past the positive-TTM-EBIT and positive-invested-
capital gates, invested capital below 5% of |TTM EBIT| means a skip
whose reason embeds both magnitudes and no ranks; at or above the bound
the sanity check passes (no `kapitalForLitet` skip is possible). -/
theorem claim_C7 (s : Stock) (q : BSEntry)
    (hreach : ReachesInvestedCapital s q)
    (hicpos : ¬(investedCapitalOf q ≤ 0)) :
    (investedCapitalOf q <
        |(calculate_ttm_from_quarterly s.raw.quarterly_ebit).1| * (5 / 100) →
      extractStock s = ExtractResult.skip
        (Reason.kapitalForLitet (investedCapitalOf q)
          (calculate_ttm_from_quarterly s.raw.quarterly_ebit).1) ∧
      processEligible s = Sum.inl (skippedStock s
        (Reason.kapitalForLitet (investedCapitalOf q)
          (calculate_ttm_from_quarterly s.raw.quarterly_ebit).1))) ∧
    (¬(investedCapitalOf q <
        |(calculate_ttm_from_quarterly s.raw.quarterly_ebit).1| * (5 / 100)) →
      ∀ a b, extractStock s ≠ ExtractResult.skip (Reason.kapitalForLitet a b)) := by
  obtain ⟨⟨⟨⟨h1, h2, hev0⟩, qe, hqe, hlen, hps0, hpos⟩, rest, hbs⟩, hta0, hcl0, hca0, hsd0⟩ :=
    hreach
  obtain ⟨ev, hev⟩ := Option.ne_none_iff_exists'.mp hev0
  obtain ⟨ps, hps⟩ := Option.ne_none_iff_exists'.mp hps0
  have key := extractStock_eq_tail s q rest qe ev ps h1 h2 hev hqe hlen hps hpos hbs
    hta0 hcl0 hca0 hsd0
  rw [hqe]
  constructor
  · intro hsmall
    have hskip : extractStock s = ExtractResult.skip
        (Reason.kapitalForLitet (investedCapitalOf q)
          (calculate_ttm_from_quarterly (Option.some qe)).1) := by
      rw [key]
      unfold extractTail
      rw [if_neg hicpos, if_pos hsmall]
    exact ⟨hskip, processEligible_skip hskip⟩
  · intro hok a b hcontra
    rw [key] at hcontra
    unfold extractTail at hcontra
    rw [if_neg hicpos, if_neg hok] at hcontra
    repeat' split at hcontra
    all_goals simp_all

/-- C7 witness: invested capital 750 with TTM EBIT 400 passes the 5%
bound (20); invested capital 15 fails it and is skipped with the
magnitude-annotated reason. -/
theorem claim_C7_witness :
    (investedCapitalOf exBSSmallIC <
        |(calculate_ttm_from_quarterly exStockSmallIC.raw.quarterly_ebit).1| * (5 / 100) ∧
      extractStock exStockSmallIC = ExtractResult.skip
        (Reason.kapitalForLitet (investedCapitalOf exBSSmallIC)
          (calculate_ttm_from_quarterly exStockSmallIC.raw.quarterly_ebit).1)) ∧
    (¬(investedCapitalOf exBS <
        |(calculate_ttm_from_quarterly exStock.raw.quarterly_ebit).1| * (5 / 100)) ∧
      ∀ a b, extractStock exStock ≠ ExtractResult.skip (Reason.kapitalForLitet a b)) := by
  have hq1 : exStockSmallIC.raw.quarterly_ebit = Option.some exQuarters := rfl
  have hq2 : exStock.raw.quarterly_ebit = Option.some exQuarters := rfl
  have hsmall : investedCapitalOf exBSSmallIC <
      |(calculate_ttm_from_quarterly exStockSmallIC.raw.quarterly_ebit).1| * (5 / 100) := by
    rw [hq1, exQuarters_ttm]
    norm_num [investedCapitalOf, exBSSmallIC, floatOr0]
  have hok : ¬(investedCapitalOf exBS <
      |(calculate_ttm_from_quarterly exStock.raw.quarterly_ebit).1| * (5 / 100)) := by
    rw [hq2, exQuarters_ttm]
    norm_num [investedCapitalOf, exBS, floatOr0]
  refine ⟨⟨hsmall, ?_⟩, hok, ?_⟩
  · exact ((claim_C7 exStockSmallIC exBSSmallIC exStockSmallIC_reaches
      (by norm_num [investedCapitalOf, exBSSmallIC, floatOr0])).1 hsmall).1
  · exact (claim_C7 exStock exBS exStock_reaches
      (by norm_num [investedCapitalOf, exBS, floatOr0])).2 hok

/-- C10: the "Negativ EBIT" and "Negativ/noll Return on Capital"
branches of the final positivity gate are unreachable for every input;
for a record reaching the final gate the computed return on capital is
strictly positive, the only possible failure is the "Negativ/noll
Earnings Yield" skip, it occurs exactly when enterprise value ≤ 0 (the
computed earnings yield is then 0), and with a positive enterprise
value the record is scored. -/
theorem claim_C10 :
    (∀ s : Stock, extractStock s ≠ ExtractResult.skip Reason.negativEbit ∧
       extractStock s ≠ ExtractResult.skip Reason.negativROC) ∧
    (∀ (s : Stock) (q : BSEntry) (ev : ℚ),
       ReachesFinalGate s q → s.raw.enterprise_value = Option.some ev →
       0 < rocComputed s q ∧
       (∀ r, extractStock s = ExtractResult.skip r → r = Reason.negativEY ∧ ev ≤ 0) ∧
       (ev ≤ 0 → extractStock s = ExtractResult.skip Reason.negativEY ∧
          eyComputed s ev = 0) ∧
       (0 < ev → ∃ ps bs, extractStock s = ExtractResult.valid (eyComputed s ev)
          (rocComputed s q) ps bs)) := by
  constructor
  · intro s
    constructor <;> intro h <;>
      rcases extractStock_skip_cases _ _ h with
        h1|⟨c,h1⟩|h1|h1|h1|h1|h1|h1|h1|h1|h1|h1|⟨a,b,h1⟩|h1 <;> simp at h1
  · intro s q ev hreach hev
    obtain ⟨⟨⟨⟨⟨h1, h2, hev0⟩, qe, hqe, hlen, hps0, hpos⟩, rest, hbs⟩,
      hta0, hcl0, hca0, hsd0⟩, hicpos, hsan⟩ := hreach
    obtain ⟨ps, hps⟩ := Option.ne_none_iff_exists'.mp hps0
    rw [hqe] at hsan
    have key := extractStock_eq_tail s q rest qe ev ps h1 h2 hev hqe hlen hps hpos hbs
      hta0 hcl0 hca0 hsd0
    have hic : 0 < investedCapitalOf q := not_le.mp hicpos
    have httm : 0 < (calculate_ttm_from_quarterly (Option.some qe)).1 := not_le.mp hpos
    have hroc_eq : rocComputed s q =
        (calculate_ttm_from_quarterly (Option.some qe)).1 / investedCapitalOf q := by
      unfold rocComputed; rw [hqe, if_pos hic]
    refine ⟨by rw [hroc_eq]; exact div_pos httm hic, ?_, ?_, ?_⟩
    · intro r hr
      by_cases hevpos : 0 < ev
      · exfalso
        rw [key] at hr
        unfold extractTail at hr
        rw [if_neg hicpos, if_neg hsan, if_pos hevpos, if_pos hic,
          if_pos ⟨div_pos httm hevpos, div_pos httm hic⟩] at hr
        cases hr
      · have hevle : ev ≤ 0 := le_of_not_lt hevpos
        rw [key] at hr
        unfold extractTail at hr
        rw [if_neg hicpos, if_neg hsan, if_neg hevpos, if_pos hic,
          if_neg (fun hc : (0:ℚ) < 0 ∧ _ => absurd hc.1 (lt_irrefl 0)),
          if_neg (not_lt.mpr (le_of_lt httm)), if_pos (le_refl (0:ℚ))] at hr
        cases hr
        exact ⟨rfl, hevle⟩
    · intro hevle
      have hevpos : ¬ 0 < ev := not_lt.mpr hevle
      constructor
      · rw [key]
        unfold extractTail
        rw [if_neg hicpos, if_neg hsan, if_neg hevpos, if_pos hic,
          if_neg (fun hc : (0:ℚ) < 0 ∧ _ => absurd hc.1 (lt_irrefl 0)),
          if_neg (not_lt.mpr (le_of_lt httm)), if_pos (le_refl (0:ℚ))]
      · unfold eyComputed
        rw [if_neg hevpos]
    · intro hevpos
      refine ⟨ps, q.period.getD "N/A", ?_⟩
      have hey_eq : eyComputed s ev =
          (calculate_ttm_from_quarterly (Option.some qe)).1 / ev := by
        unfold eyComputed; rw [hqe, if_pos hevpos]
      rw [key]
      unfold extractTail
      rw [if_neg hicpos, if_neg hsan, if_pos hevpos, if_pos hic,
        if_pos ⟨div_pos httm hevpos, div_pos httm hic⟩, hey_eq, hroc_eq]

/-! ## The scored output in normal form -/

theorem skippedStock_reason (s : Stock) (r : Reason) :
    (skippedStock s r).narr.magic_formula_reason = Option.some r := rfl

theorem applyScore_reason (it : ValidItem) (e r : ℕ) :
    (applyScore it e r).narr.magic_formula_reason = Option.some Reason.beraknad := rfl

theorem finalEnsure_of_some {s : Stock} {r : Reason}
    (h : s.narr.magic_formula_reason = Option.some r) : finalEnsure s = s := by
  unfold finalEnsure
  split
  · simp_all
  · rfl

theorem markExcluded_reason (s : Stock) :
    ∃ r, (markExcluded s).narr.magic_formula_reason = Option.some r ∧
      r ≠ Reason.beraknad := by
  refine ⟨_, rfl, ?_⟩
  intro hcontra
  dsimp only at hcontra
  repeat' split at hcontra
  all_goals simp_all

theorem processEligible_inl {s0 t : Stock} (h : processEligible s0 = Sum.inl t) :
    ∃ r, extractStock s0 = ExtractResult.skip r ∧ t = skippedStock s0 r := by
  cases hx : extractStock s0 with
  | skip r =>
    rw [processEligible_skip hx] at h
    exact ⟨r, rfl, (Sum.inl.injEq _ _).mp h |>.symm⟩
  | valid ey roc ps bs =>
    rw [processEligible_valid hx] at h
    cases h

theorem mem_mfExcluded {fl : Option (Stock → Bool)} {stocks : List Stock} {t : Stock}
    (h : t ∈ mfExcluded fl stocks) : ∃ s0, t = markExcluded (ensureReason s0) := by
  unfold mfExcluded mfClassified at h
  rw [List.mem_filterMap] at h
  obtain ⟨c, hc, hct⟩ := h
  rw [List.mem_map] at hc
  obtain ⟨s0, _, hcs⟩ := hc
  unfold classifyStock at hcs
  dsimp only at hcs
  split at hcs
  · rw [← hcs] at hct
    exact ⟨s0, by simpa using hct.symm⟩
  · rw [← hcs] at hct
    cases hct

theorem mem_mfProcessed_inl {fl : Option (Stock → Bool)} {stocks : List Stock}
    {t : Stock} (h : Sum.inl t ∈ mfProcessed fl stocks) :
    ∃ r, t.narr.magic_formula_reason = Option.some r ∧ r ≠ Reason.beraknad := by
  unfold mfProcessed at h
  rw [List.mem_map] at h
  obtain ⟨s0, _, hs⟩ := h
  obtain ⟨r, hx, ht⟩ := processEligible_inl hs
  refine ⟨r, by rw [ht]; rfl, ?_⟩
  have hx' : extractStock (ensureReason s0) = ExtractResult.skip r := by
    rw [extractStock_ensureReason]; exact hx
  exact extractStock_skip_ne_beraknad _ _ hx'

/-- The valid-item extraction used in the assembly lemma. -/
theorem assembleRanked_filter_map
    (eyR rocR : ℕ → Option ℕ) (E R : ℕ → ℕ) (l : List (Stock ⊕ ValidItem)) (k0 : ℕ)
    (HL : ∀ s, Sum.inl s ∈ l → ∃ r, s.narr.magic_formula_reason = Option.some r ∧
      r ≠ Reason.beraknad)
    (hE : ∀ k, k0 ≤ k →
      k < k0 + (l.filterMap (fun p => match p with
        | Sum.inr it => Option.some it | Sum.inl _ => Option.none)).length →
      eyR k = Option.some (E k) ∧ rocR k = Option.some (R k)) :
    ((assembleRanked eyR rocR l k0).map finalEnsure).filter
        (fun s => decide (s.narr.magic_formula_reason = Option.some Reason.beraknad))
      = (List.enumFrom k0 (l.filterMap (fun p => match p with
          | Sum.inr it => Option.some it | Sum.inl _ => Option.none))).map
          (fun p => applyScore p.2 (E p.1) (R p.1)) := by
  induction l generalizing k0 with
  | nil => rfl
  | cons hd tl ih =>
    cases hd with
    | inl s =>
      obtain ⟨r, hr, hrne⟩ := HL s (by simp)
      have hfe : finalEnsure s = s := finalEnsure_of_some hr
      show ((s :: assembleRanked eyR rocR tl k0).map finalEnsure).filter _ = _
      rw [List.map_cons, List.filter_cons, hfe]
      have hdec : (decide (s.narr.magic_formula_reason
          = Option.some Reason.beraknad)) = false := by
        simp [hr, hrne]
      rw [hdec]
      simp only [List.filterMap_cons]
      exact ih k0 (fun s2 hs2 => HL s2 (List.mem_cons_of_mem _ hs2))
        (fun k hk1 hk2 => hE k hk1 (by simpa using hk2))
    | inr it =>
      have hcount : k0 < k0 + ((Sum.inr it :: tl).filterMap (fun p => match p with
          | Sum.inr it => Option.some it | Sum.inl _ => Option.none)).length := by
        simp only [List.filterMap_cons]
        simp
      obtain ⟨he, hrr⟩ := hE k0 (le_refl _) hcount
      show (((match eyR k0, rocR k0 with
        | Option.some e, Option.some r => applyScore it e r
        | _, _ => it.stock) :: assembleRanked eyR rocR tl (k0 + 1)).map
          finalEnsure).filter _ = _
      rw [he, hrr]
      simp only [List.map_cons, List.filter_cons]
      rw [finalEnsure_of_some (applyScore_reason it (E k0) (R k0))]
      have hdec : (decide ((applyScore it (E k0) (R k0)).narr.magic_formula_reason
          = Option.some Reason.beraknad)) = true := by
        simp [applyScore_reason]
      rw [hdec]
      simp only [List.filterMap_cons, if_true]
      have htail := ih (k0 + 1) (fun s2 hs2 => HL s2 (List.mem_cons_of_mem _ hs2))
        (fun k hk1 hk2 => hE k (Nat.le_of_succ_le hk1) (by
          simp only [List.filterMap_cons] at *
          simp only [List.length_cons] at *
          omega))
      rw [htail]
      rfl

/-- The scored records of one run, in eligible order: the k-th valid
item carrying its two ranks. -/
theorem mfScoredStocks_eq (fl : Option (Stock → Bool)) (stocks : List Stock) :
    mfScoredStocks fl stocks
      = ((mfValidItems fl stocks).enum).map
          (fun p => applyScore p.2 ((mfEyRank fl stocks p.1).getD 0)
            ((mfRocRank fl stocks p.1).getD 0)) := by
  unfold mfScoredStocks calculate_magic_formula_for_stocks
  rw [List.map_append, List.filter_append]
  have hexc : ((mfExcluded fl stocks).map finalEnsure).filter
      (fun s => decide (s.narr.magic_formula_reason
        = Option.some Reason.beraknad)) = [] := by
    rw [List.filter_eq_nil]
    intro a ha
    rw [List.mem_map] at ha
    obtain ⟨b, hb, hab⟩ := ha
    obtain ⟨s0, hbs⟩ := mem_mfExcluded hb
    obtain ⟨r, hr, hrne⟩ := markExcluded_reason (ensureReason s0)
    rw [← hbs] at hr
    rw [← hab, finalEnsure_of_some hr]
    simp [hr, hrne]
  rw [hexc, List.append_nil]
  have key := assembleRanked_filter_map (mfEyRank fl stocks) (mfRocRank fl stocks)
    (fun k => (mfEyRank fl stocks k).getD 0) (fun k => (mfRocRank fl stocks k).getD 0)
    (mfProcessed fl stocks) 0
    (fun s hs => mem_mfProcessed_inl hs)
    (fun k hk1 hk2 => by
      have hkN : k < (mfValidItems fl stocks).length := by
        simpa [mfValidItems] using hk2
      obtain ⟨i, hi, htag, heq⟩ := mfEyRank_eq_some fl stocks k hkN
      obtain ⟨j, hj, htag2, heq2⟩ := mfRocRank_eq_some fl stocks k hkN
      exact ⟨by simp [heq], by simp [heq2]⟩)
  exact key

/-- C1: in every run, the pool is stable-sorted descending by earnings
yield (a permutation of the pool, pairwise descending), the record at
sorted position i gets `ey_rank` i+1; the already-ey-sorted pool is
then re-sorted descending by return on capital and the record at
position i of that sort gets `roc_rank` i+1; every record that passed
all extraction gates appears in the output scored with
`magic_formula_score = ey_rank + roc_rank`, which is at least 2 (the
score of a record ranked 1 on both metrics). -/
theorem claim_C1 (fl : Option (Stock → Bool)) (stocks : List Stock) :
    (mfEySorted fl stocks).Perm (mfPool fl stocks) ∧
    List.Pairwise (fun a b : ℕ × ℚ × ℚ => b.2.1 ≤ a.2.1) (mfEySorted fl stocks) ∧
    (∀ i, ∀ hi : i < (mfEySorted fl stocks).length,
       mfEyRank fl stocks ((mfEySorted fl stocks)[i].1) = Option.some (i + 1)) ∧
    (mfRocSorted fl stocks).Perm (mfEySorted fl stocks) ∧
    List.Pairwise (fun a b : ℕ × ℚ × ℚ => b.2.2 ≤ a.2.2) (mfRocSorted fl stocks) ∧
    (∀ i, ∀ hi : i < (mfRocSorted fl stocks).length,
       mfRocRank fl stocks ((mfRocSorted fl stocks)[i].1) = Option.some (i + 1)) ∧
    (∀ k, ∀ hk : k < (mfValidItems fl stocks).length,
       ∃ e r, mfEyRank fl stocks k = Option.some e ∧
         mfRocRank fl stocks k = Option.some r ∧
         1 ≤ e ∧ 1 ≤ r ∧
         applyScore ((mfValidItems fl stocks)[k]) e r ∈
           calculate_magic_formula_for_stocks fl stocks ∧
         (applyScore ((mfValidItems fl stocks)[k]) e r).sc.magic_formula_score
           = Option.some (e + r) ∧
         (applyScore ((mfValidItems fl stocks)[k]) e r).sc.ey_rank = Option.some e ∧
         (applyScore ((mfValidItems fl stocks)[k]) e r).sc.roc_rank = Option.some r ∧
         2 ≤ e + r) := by
  refine ⟨mfEySorted_perm_pool fl stocks, sortDesc_pairwise _ _, ?_,
    sortDesc_perm _ _, sortDesc_pairwise _ _, ?_, ?_⟩
  · intro i hi
    have := findIdx_tag_of_nodup (mfEySorted_tags_nodup fl stocks) i hi
    simp [mfEyRank, this]
  · intro i hi
    have := findIdx_tag_of_nodup (mfRocSorted_tags_nodup fl stocks) i hi
    simp [mfRocRank, this]
  · intro k hk
    obtain ⟨i, hi, htag, heq⟩ := mfEyRank_eq_some fl stocks k hk
    obtain ⟨j, hj, htag2, heq2⟩ := mfRocRank_eq_some fl stocks k hk
    refine ⟨i + 1, j + 1, heq, heq2, by omega, by omega, ?_, rfl, rfl, rfl, by omega⟩
    have hmem : applyScore ((mfValidItems fl stocks)[k]) (i + 1) (j + 1) ∈
        mfScoredStocks fl stocks := by
      rw [mfScoredStocks_eq]
      rw [List.mem_map]
      refine ⟨(k, (mfValidItems fl stocks)[k]), ?_, ?_⟩
      · rw [List.mem_iff_getElem]
        exact ⟨k, by simpa using hk, List.getElem_enum _ _ _⟩
      · simp [heq, heq2]
    exact List.mem_of_mem_filter hmem

/-- C2: over the N records passing every gate in one run, the multiset
of assigned `ey_rank`s is exactly 1..N and likewise for `roc_rank`;
ties in the ey key keep the pool (pre-sort) order, and ties in the roc
key keep the order of the ey-sorted list being re-sorted. -/
theorem claim_C2 (fl : Option (Stock → Bool)) (stocks : List Stock) :
    ((mfScoredStocks fl stocks).map (fun s => s.sc.ey_rank)).Perm
      ((List.range' 1 (mfPool fl stocks).length).map Option.some) ∧
    ((mfScoredStocks fl stocks).map (fun s => s.sc.roc_rank)).Perm
      ((List.range' 1 (mfPool fl stocks).length).map Option.some) ∧
    (∀ i j, ∀ hi : i < (mfValidItems fl stocks).length,
       ∀ hj : j < (mfValidItems fl stocks).length, i < j →
       ((mfValidItems fl stocks)[i]).ey = ((mfValidItems fl stocks)[j]).ey →
       ∃ ri rj, mfEyRank fl stocks i = Option.some ri ∧
         mfEyRank fl stocks j = Option.some rj ∧ ri < rj) ∧
    (∀ i j, ∀ hi : i < (mfEySorted fl stocks).length,
       ∀ hj : j < (mfEySorted fl stocks).length, i < j →
       ((mfEySorted fl stocks)[i]).2.2 = ((mfEySorted fl stocks)[j]).2.2 →
       ∃ ri rj, mfRocRank fl stocks ((mfEySorted fl stocks)[i].1) = Option.some ri ∧
         mfRocRank fl stocks ((mfEySorted fl stocks)[j].1) = Option.some rj ∧
         ri < rj) := by
  have hlen : (mfEySorted fl stocks).length = (mfValidItems fl stocks).length := by
    rw [(mfEySorted_perm_pool fl stocks).length_eq, mfPool_length]
  refine ⟨?_, ?_, ?_, ?_⟩
  · -- multiset of ey ranks
    rw [mfScoredStocks_eq, List.map_map]
    have h1 : ((fun s => s.sc.ey_rank) ∘ fun p : ℕ × ValidItem =>
        applyScore p.2 ((mfEyRank fl stocks p.1).getD 0)
          ((mfRocRank fl stocks p.1).getD 0))
        = (fun p : ℕ × ValidItem =>
            Option.some ((mfEyRank fl stocks p.1).getD 0)) := rfl
    rw [h1]
    have h2 : (fun p : ℕ × ValidItem =>
        Option.some ((mfEyRank fl stocks p.1).getD 0))
        = (fun k => Option.some ((mfEyRank fl stocks k).getD 0)) ∘ Prod.fst := rfl
    rw [h2, ← List.map_map, List.enum_map_fst]
    have h3 : (List.range (mfValidItems fl stocks).length).Perm
        ((mfEySorted fl stocks).map Prod.fst) := (mfEySorted_tags_perm fl stocks).symm
    refine (h3.map _).trans ?_
    have h4 := @nodup_tags_rank_map _ (mfEySorted fl stocks)
      (mfEySorted_tags_nodup fl stocks)
    rw [List.map_map] at h4
    rw [List.map_map]
    have h5 : ((mfEySorted fl stocks).map ((fun k =>
        Option.some ((mfEyRank fl stocks k).getD 0)) ∘ Prod.fst))
        = ((mfEySorted fl stocks).map (Option.some ∘ ((fun k =>
            (((mfEySorted fl stocks).findIdx? (fun t => t.1 == k)).map
              (fun i => i + 1)).getD 0) ∘ Prod.fst))) := rfl
    rw [h5, ← List.map_map, h4, hlen, mfPool_length]
  · -- multiset of roc ranks
    rw [mfScoredStocks_eq, List.map_map]
    have h1 : ((fun s => s.sc.roc_rank) ∘ fun p : ℕ × ValidItem =>
        applyScore p.2 ((mfEyRank fl stocks p.1).getD 0)
          ((mfRocRank fl stocks p.1).getD 0))
        = (fun k => Option.some ((mfRocRank fl stocks k).getD 0)) ∘ Prod.fst := rfl
    rw [h1, ← List.map_map, List.enum_map_fst]
    have h3 : (List.range (mfValidItems fl stocks).length).Perm
        ((mfRocSorted fl stocks).map Prod.fst) := (mfRocSorted_tags_perm fl stocks).symm
    refine (h3.map _).trans ?_
    have h4 := @nodup_tags_rank_map _ (mfRocSorted fl stocks)
      (mfRocSorted_tags_nodup fl stocks)
    rw [List.map_map] at h4
    rw [List.map_map]
    have h5 : ((mfRocSorted fl stocks).map ((fun k =>
        Option.some ((mfRocRank fl stocks k).getD 0)) ∘ Prod.fst))
        = ((mfRocSorted fl stocks).map (Option.some ∘ ((fun k =>
            (((mfRocSorted fl stocks).findIdx? (fun t => t.1 == k)).map
              (fun i => i + 1)).getD 0) ∘ Prod.fst))) := rfl
    have hlen2 : (mfRocSorted fl stocks).length = (mfValidItems fl stocks).length := by
      rw [(mfRocSorted_perm_pool fl stocks).length_eq, mfPool_length]
    rw [h5, ← List.map_map, h4, hlen2, mfPool_length]
  · -- ey ties keep pool order
    intro i j hi hj hij hkey
    have hpi : i < (mfPool fl stocks).length := by rw [mfPool_length]; exact hi
    have hpj : j < (mfPool fl stocks).length := by rw [mfPool_length]; exact hj
    have hgi := mfPool_getElem fl stocks i hpi
    have hgj := mfPool_getElem fl stocks j hpj
    have hsub : [(mfPool fl stocks)[i], (mfPool fl stocks)[j]].Sublist
        (mfPool fl stocks) := pair_sublist_of_getElem hpi hpj hij
    have hkey2 : ((mfPool fl stocks)[i]).2.1 = ((mfPool fl stocks)[j]).2.1 := by
      rw [hgi, hgj]; exact hkey
    have hsorted : [(mfPool fl stocks)[i], (mfPool fl stocks)[j]].Sublist
        (mfEySorted fl stocks) :=
      sortDesc_pair_sublist (fun t : ℕ × ℚ × ℚ => t.2.1) hsub hkey2
    obtain ⟨a, b, ha, hb, hab, hea, heb⟩ := pair_sublist_index hsorted
    have hra : mfEyRank fl stocks i = Option.some (a + 1) := by
      have := findIdx_tag_of_nodup (mfEySorted_tags_nodup fl stocks) a ha
      rw [hea, hgi] at this
      simp [mfEyRank, this]
    have hrb : mfEyRank fl stocks j = Option.some (b + 1) := by
      have := findIdx_tag_of_nodup (mfEySorted_tags_nodup fl stocks) b hb
      rw [heb, hgj] at this
      simp [mfEyRank, this]
    exact ⟨a + 1, b + 1, hra, hrb, by omega⟩
  · -- roc ties keep the ey-sorted order
    intro i j hi hj hij hkey
    have hsub : [(mfEySorted fl stocks)[i], (mfEySorted fl stocks)[j]].Sublist
        (mfEySorted fl stocks) := pair_sublist_of_getElem hi hj hij
    have hsorted : [(mfEySorted fl stocks)[i], (mfEySorted fl stocks)[j]].Sublist
        (mfRocSorted fl stocks) :=
      sortDesc_pair_sublist (fun t : ℕ × ℚ × ℚ => t.2.2) hsub hkey
    obtain ⟨a, b, ha, hb, hab, hea, heb⟩ := pair_sublist_index hsorted
    have hra : mfRocRank fl stocks ((mfEySorted fl stocks)[i].1)
        = Option.some (a + 1) := by
      have := findIdx_tag_of_nodup (mfRocSorted_tags_nodup fl stocks) a ha
      rw [hea] at this
      simp [mfRocRank, this]
    have hrb : mfRocRank fl stocks ((mfEySorted fl stocks)[j].1)
        = Option.some (b + 1) := by
      have := findIdx_tag_of_nodup (mfRocSorted_tags_nodup fl stocks) b hb
      rw [heb] at this
      simp [mfRocRank, this]
    exact ⟨a + 1, b + 1, hra, hrb, by omega⟩

/-! ## Concrete pipeline evaluation for the ranking witnesses -/

theorem ensureReason_idem (s : Stock) :
    ensureReason (ensureReason s) = ensureReason s := by
  unfold ensureReason
  cases h : s.narr.magic_formula_reason <;> simp [h]

theorem exStock_valid : extractStock exStock =
    ExtractResult.valid (1 / 10) (8 / 15) "2024-Q1 to 2024-Q4" "2024-12-31" := by
  have key := extractStock_eq_tail exStock exBS [] exQuarters 4000
    "2024-Q1 to 2024-Q4"
    (by decide) (by decide) rfl rfl (by decide)
    (by rw [exQuarters_ttm]) (by rw [exQuarters_ttm]; norm_num)
    rfl (by decide) (by decide) (by decide) (by decide)
  rw [key, exQuarters_ttm]
  unfold extractTail
  norm_num [investedCapitalOf, exBS, floatOr0]

theorem exStockB_valid : extractStock exStockB =
    ExtractResult.valid (1 / 5) (8 / 15) "2024-Q1 to 2024-Q4" "2024-12-31" := by
  have key := extractStock_eq_tail exStockB exBS [] exQuarters 2000
    "2024-Q1 to 2024-Q4"
    (by decide) (by decide) rfl rfl (by decide)
    (by rw [exQuarters_ttm]) (by rw [exQuarters_ttm]; norm_num)
    rfl (by decide) (by decide) (by decide) (by decide)
  rw [key, exQuarters_ttm]
  unfold extractTail
  norm_num [investedCapitalOf, exBS, floatOr0]

theorem exStockA2_valid : extractStock exStockA2 =
    ExtractResult.valid (1 / 10) (8 / 15) "2024-Q1 to 2024-Q4" "2024-12-31" := by
  have key := extractStock_eq_tail exStockA2 exBS [] exQuarters 4000
    "2024-Q1 to 2024-Q4"
    (by decide) (by decide) rfl rfl (by decide)
    (by rw [exQuarters_ttm]) (by rw [exQuarters_ttm]; norm_num)
    rfl (by decide) (by decide) (by decide) (by decide)
  rw [key, exQuarters_ttm]
  unfold extractTail
  norm_num [investedCapitalOf, exBS, floatOr0]

theorem validItems_pair {s1 s2 : Stock} {e1 r1 e2 r2 : ℚ} {p1 q1 p2 q2 : String}
    (hc1 : is_financial_company (ensureReason s1) = false)
    (hc2 : is_financial_company (ensureReason s2) = false)
    (hv1 : extractStock s1 = ExtractResult.valid e1 r1 p1 q1)
    (hv2 : extractStock s2 = ExtractResult.valid e2 r2 p2 q2) :
    mfValidItems Option.none [s1, s2] =
      [⟨ensureReason s1, e1, r1, p1, q1⟩, ⟨ensureReason s2, e2, r2, p2, q2⟩] := by
  have hcA : classifyStock Option.none s1 = Sum.inr (ensureReason s1) := by
    unfold classifyStock
    dsimp only
    rw [hc1]
    rfl
  have hcB : classifyStock Option.none s2 = Sum.inr (ensureReason s2) := by
    unfold classifyStock
    dsimp only
    rw [hc2]
    rfl
  have hp1 : processEligible (ensureReason s1) =
      Sum.inr ⟨ensureReason s1, e1, r1, p1, q1⟩ := by
    have hx : extractStock (ensureReason s1) = ExtractResult.valid e1 r1 p1 q1 := by
      rw [extractStock_ensureReason]; exact hv1
    rw [processEligible_valid hx, ensureReason_idem]
  have hp2 : processEligible (ensureReason s2) =
      Sum.inr ⟨ensureReason s2, e2, r2, p2, q2⟩ := by
    have hx : extractStock (ensureReason s2) = ExtractResult.valid e2 r2 p2 q2 := by
      rw [extractStock_ensureReason]; exact hv2
    rw [processEligible_valid hx, ensureReason_idem]
  unfold mfValidItems mfProcessed mfEligible mfClassified
  rw [List.map_cons, List.map_cons, List.map_nil, hcA, hcB]
  simp only [List.filterMap_cons, List.filterMap_nil, List.map_cons, List.map_nil,
    hp1, hp2]

theorem validItems_AB : mfValidItems Option.none [exStock, exStockB] =
    [⟨ensureReason exStock, 1 / 10, 8 / 15, "2024-Q1 to 2024-Q4", "2024-12-31"⟩,
     ⟨ensureReason exStockB, 1 / 5, 8 / 15, "2024-Q1 to 2024-Q4", "2024-12-31"⟩] :=
  validItems_pair (by decide) (by decide) exStock_valid exStockB_valid

theorem validItems_AA2 : mfValidItems Option.none [exStock, exStockA2] =
    [⟨ensureReason exStock, 1 / 10, 8 / 15, "2024-Q1 to 2024-Q4", "2024-12-31"⟩,
     ⟨ensureReason exStockA2, 1 / 10, 8 / 15, "2024-Q1 to 2024-Q4", "2024-12-31"⟩] :=
  validItems_pair (by decide) (by decide) exStock_valid exStockA2_valid

/-- C1 witness: in the two-record run, record 0 receives both ranks and
a composite score of at least 2. -/
theorem claim_C1_witness :
    ∃ e r, mfEyRank Option.none [exStock, exStockB] 0 = Option.some e ∧
      mfRocRank Option.none [exStock, exStockB] 0 = Option.some r ∧
      2 ≤ e + r := by
  have hlen : 0 < (mfValidItems Option.none [exStock, exStockB]).length := by
    rw [validItems_AB]; simp
  obtain ⟨e, r, he, hr, _, _, _, _, _, _, hmin⟩ :=
    (claim_C1 Option.none [exStock, exStockB]).2.2.2.2.2.2 0 hlen
  exact ⟨e, r, he, hr, hmin⟩

/-- C2 witness: in the run on two records with identical fundamentals,
the ey tie keeps the pool order (record 0 outranks record 1). -/
theorem claim_C2_witness :
    ∃ ri rj, mfEyRank Option.none [exStock, exStockA2] 0 = Option.some ri ∧
      mfEyRank Option.none [exStock, exStockA2] 1 = Option.some rj ∧ ri < rj := by
  have h0 : 0 < (mfValidItems Option.none [exStock, exStockA2]).length := by
    rw [validItems_AA2]; simp
  have h1 : 1 < (mfValidItems Option.none [exStock, exStockA2]).length := by
    rw [validItems_AA2]; simp
  have hkey : ((mfValidItems Option.none [exStock, exStockA2]).get ⟨0, h0⟩).ey
      = ((mfValidItems Option.none [exStock, exStockA2]).get ⟨1, h1⟩).ey := by
    simp [validItems_AA2]
  exact (claim_C2 Option.none [exStock, exStockA2]).2.2.1 0 1 h0 h1 (by omega) hkey

/-- C10 witness: the record with enterprise value −5 reaches the final
gate, its computed return on capital is positive, and it is skipped
with "Negativ/noll Earnings Yield" with computed earnings yield 0. -/
theorem claim_C10_witness :
    0 < rocComputed exStockNegEV exBS ∧
    (∀ r, extractStock exStockNegEV = ExtractResult.skip r →
       r = Reason.negativEY ∧ (-5:ℚ) ≤ 0) ∧
    ((-5:ℚ) ≤ 0 → extractStock exStockNegEV = ExtractResult.skip Reason.negativEY ∧
       eyComputed exStockNegEV (-5) = 0) ∧
    (0 < (-5:ℚ) → ∃ ps bs, extractStock exStockNegEV =
       ExtractResult.valid (eyComputed exStockNegEV (-5))
         (rocComputed exStockNegEV exBS) ps bs) :=
  claim_C10.2 exStockNegEV exBS (-5) exStockNegEV_reaches rfl

/-! ## Write-back machinery: targeting, lengths, frames -/

theorem tickerKey_raw_congr {a b : Stock} (h : a.raw = b.raw) :
    tickerKey a = tickerKey b := by
  unfold tickerKey; rw [h]

theorem targetIdx_raw_congr {a b : Stock} (orig : List Stock) (h : a.raw = b.raw) :
    targetIdx orig a = targetIdx orig b := by
  unfold targetIdx; rw [tickerKey_raw_congr h]

theorem lastTickerIdx_cons (s : Stock) (rest : List Stock) (t : String) :
    lastTickerIdx (s :: rest) t =
      match lastTickerIdx rest t with
      | Option.some j => Option.some (j + 1)
      | Option.none =>
        if tickerKey s = Option.some t then Option.some 0 else Option.none := rfl

/-- The ticker map sends `t` to an in-range index holding ticker `t`. -/
theorem lastTickerIdx_spec {l : List Stock} {t : String} {i : ℕ}
    (h : lastTickerIdx l t = Option.some i) :
    ∃ hi : i < l.length, tickerKey (l.get ⟨i, hi⟩) = Option.some t := by
  induction l generalizing i with
  | nil => exact absurd h (by simp [lastTickerIdx])
  | cons s rest ih =>
    rw [lastTickerIdx_cons] at h
    cases hrest : lastTickerIdx rest t with
    | some j =>
      rw [hrest] at h
      obtain rfl : j + 1 = i := by simpa using h
      obtain ⟨hj, hjt⟩ := ih hrest
      exact ⟨by simpa using Nat.succ_lt_succ hj, by simpa using hjt⟩
    | none =>
      rw [hrest] at h
      by_cases hs : tickerKey s = Option.some t
      · rw [if_pos hs] at h
        obtain rfl : 0 = i := by simpa using h
        exact ⟨by simp, by simpa using hs⟩
      · rw [if_neg hs] at h; exact absurd h (by simp)

/-- Ticker maps agree wherever the per-entry tickers agree. -/
theorem lastTickerIdx_congr {l l' : List Stock}
    (h : l.map tickerKey = l'.map tickerKey) (t : String) :
    lastTickerIdx l t = lastTickerIdx l' t := by
  induction l generalizing l' with
  | nil => cases l' with
    | nil => rfl
    | cons s' rest' => exact absurd h (by simp)
  | cons s rest ih =>
    cases l' with
    | nil => exact absurd h (by simp)
    | cons s' rest' =>
      simp only [List.map_cons, List.cons.injEq] at h
      rw [lastTickerIdx_cons, lastTickerIdx_cons, ih h.2, h.1]

theorem targetIdx_eq_some {orig : List Stock} {r : Stock} {i : ℕ} :
    targetIdx orig r = Option.some i ↔
      ∃ t, tickerKey r = Option.some t ∧ lastTickerIdx orig t = Option.some i := by
  unfold targetIdx
  cases h : tickerKey r <;> simp

/-- Two results written to the same batch index carry the same truthy
ticker: the one held at that index of the original batch. -/
theorem targetIdx_same_ticker {orig : List Stock} {a c : Stock} {i : ℕ}
    (ha : targetIdx orig a = Option.some i) (hc : targetIdx orig c = Option.some i) :
    tickerKey a = tickerKey c := by
  obtain ⟨t, hat, hmap⟩ := targetIdx_eq_some.mp ha
  obtain ⟨u, hcu, hmap'⟩ := targetIdx_eq_some.mp hc
  obtain ⟨hi, hit⟩ := lastTickerIdx_spec hmap
  obtain ⟨hi', hiu⟩ := lastTickerIdx_spec hmap'
  rw [hat, hcu, hit.symm.trans hiu]

theorem writeBackWith_nil (f : Stock → Stock → Stock) (orig b : List Stock) :
    writeBackWith f orig b [] = b := rfl

theorem writeBackWith_cons_some {orig : List Stock} {r : Stock} {i : ℕ}
    (h : targetIdx orig r = Option.some i) (f : Stock → Stock → Stock)
    (b res : List Stock) :
    writeBackWith f orig b (r :: res) =
      writeBackWith f orig (List.modify (f r) i b) res := by
  unfold writeBackWith
  rw [List.foldl_cons, h]

theorem writeBackWith_cons_none {orig : List Stock} {r : Stock}
    (h : targetIdx orig r = Option.none) (f : Stock → Stock → Stock)
    (b res : List Stock) :
    writeBackWith f orig b (r :: res) = writeBackWith f orig b res := by
  unfold writeBackWith
  rw [List.foldl_cons, h]

theorem writeBackWith_length (f : Stock → Stock → Stock) (orig : List Stock)
    (res b : List Stock) : (writeBackWith f orig b res).length = b.length := by
  induction res generalizing b with
  | nil => rfl
  | cons r rs ih =>
    cases htg : targetIdx orig r with
    | some i => rw [writeBackWith_cons_some htg, ih, List.length_modify]
    | none => rw [writeBackWith_cons_none htg]; exact ih b

/-- Mapping through a projection the modified entry keeps erases an
in-place modification. -/
theorem map_modify_of_eq {α β : Type} (g : α → β) (f : α → α)
    (h : ∀ a, g (f a) = g a) (i : ℕ) (l : List α) :
    (List.modify f i l).map g = l.map g := by
  induction l generalizing i with
  | nil => rw [List.modify_nil]
  | cons a tl ih =>
    cases i with
    | zero => show g (f a) :: _ = _; rw [h]; rfl
    | succ n => show g a :: (List.modify f n tl).map g = _; rw [ih]; rfl

/-- A write-back whose copy function preserves a projection preserves
that projection across the whole batch. -/
theorem writeBackWith_map_eq {β : Type} (g : Stock → β)
    (f : Stock → Stock → Stock) (hg : ∀ r t, g (f r t) = g t)
    (orig : List Stock) (res b : List Stock) :
    (writeBackWith f orig b res).map g = b.map g := by
  induction res generalizing b with
  | nil => rfl
  | cons r rs ih =>
    cases htg : targetIdx orig r with
    | some i =>
      rw [writeBackWith_cons_some htg, ih, map_modify_of_eq g (f r) (hg r)]
    | none => rw [writeBackWith_cons_none htg]; exact ih b

/-- An index no result targets is left alone by the write-back. -/
theorem writeBackWith_untargeted {orig res : List Stock} {i : ℕ}
    (hres : ∀ r ∈ res, targetIdx orig r ≠ Option.some i)
    (f : Stock → Stock → Stock) (b : List Stock) :
    (writeBackWith f orig b res)[i]? = b[i]? := by
  induction res generalizing b with
  | nil => rfl
  | cons r rs ih =>
    have hrs : ∀ r' ∈ rs, targetIdx orig r' ≠ Option.some i :=
      fun r' hr' => hres r' (List.mem_cons_of_mem r hr')
    cases htg : targetIdx orig r with
    | some j =>
      rw [writeBackWith_cons_some htg, ih hrs _, List.getElem?_modify]
      have hji : j ≠ i := fun hj => hres r (List.mem_cons_self r rs) (hj ▸ htg)
      cases b[i]? <;> simp [hji]
    | none => rw [writeBackWith_cons_none htg]; exact ih hrs b

/-- With pairwise-distinct truthy tickers among the results, the entry a
result targets ends up as exactly that result's copy onto it. -/
theorem writeBackWith_unique {orig res : List Stock} {r : Stock} {i : ℕ}
    (hnd : (res.filterMap tickerKey).Nodup)
    (hr : r ∈ res) (ht : targetIdx orig r = Option.some i)
    (f : Stock → Stock → Stock) (b : List Stock) (hi : i < b.length) :
    (writeBackWith f orig b res)[i]? = Option.some (f r (b.get ⟨i, hi⟩)) := by
  induction res generalizing b with
  | nil => exact absurd hr (List.not_mem_nil r)
  | cons a rs ih =>
    obtain ⟨t, hrt, -⟩ := targetIdx_eq_some.mp ht
    rcases List.mem_cons.mp hr with rfl | hr'
    · -- the head is the writer: nothing later touches ticker t again
      have hnt : t ∉ rs.filterMap tickerKey := by
        rw [List.filterMap_cons, hrt] at hnd
        exact (List.nodup_cons.mp hnd).1
      have hrs : ∀ c ∈ rs, targetIdx orig c ≠ Option.some i := by
        intro c hc hci
        have : tickerKey r = tickerKey c := targetIdx_same_ticker ht hci
        exact hnt (List.mem_filterMap.mpr ⟨c, hc, this ▸ hrt⟩)
      rw [writeBackWith_cons_some ht, writeBackWith_untargeted hrs,
        List.getElem?_modify]
      rw [List.getElem?_eq_getElem hi]
      simp [List.get_eq_getElem]
    · -- the head is not the writer; it cannot target the same index
      have hnd' : (rs.filterMap tickerKey).Nodup := by
        rw [List.filterMap_cons] at hnd
        cases h : tickerKey a with
        | none => rw [h] at hnd; exact hnd
        | some u => rw [h] at hnd; exact (List.nodup_cons.mp hnd).2
      cases htg : targetIdx orig a with
      | some j =>
        have hji : j ≠ i := by
          intro hj
          obtain ⟨u, hau, -⟩ := targetIdx_eq_some.mp htg
          have htk : tickerKey a = tickerKey r := targetIdx_same_ticker (hj ▸ htg) ht
          have hnd2 : (u :: rs.filterMap tickerKey).Nodup := by
            rw [List.filterMap_cons] at hnd
            rw [hau] at hnd
            exact hnd
          exact (List.nodup_cons.mp hnd2).1
            (List.mem_filterMap.mpr ⟨r, hr', by rw [← htk]; exact hau⟩)
        rw [writeBackWith_cons_some htg,
          ih hnd' hr' (List.modify (f a) j b) (by simpa using hi)]
        congr 2
        have := List.getElem_modify (f a) j b i (by simpa using hi)
        simp only [List.get_eq_getElem]
        rw [this, if_neg hji]
      | none => rw [writeBackWith_cons_none htg]; exact ih hnd' hr' b hi

/-! ## Row-by-row view of an all-eligible scoring run -/

@[simp] theorem ensureReason_sc (s : Stock) : (ensureReason s).sc = s.sc := by
  unfold ensureReason
  cases s.narr.magic_formula_reason <;> rfl

theorem skippedStock_eq (s : Stock) (rr : Reason) :
    skippedStock s rr =
      { s with sc := { s.sc with magic_formula_score := Option.none },
               narr := { s.narr with magic_formula_reason := Option.some rr } } := by
  unfold skippedStock ensureReason
  cases s.narr.magic_formula_reason <;> rfl

theorem skippedStock_ensure (s : Stock) (rr : Reason) :
    skippedStock (ensureReason s) rr = skippedStock s rr := by
  obtain ⟨raw, sc, narr⟩ := s
  obtain ⟨mr, ep, bp, ut⟩ := narr
  cases mr <;> rfl

theorem processEligible_ensureReason (s : Stock) :
    processEligible (ensureReason s) = processEligible s := by
  unfold processEligible
  dsimp only
  rw [extractStock_ensureReason, extractStock_ensureReason, ensureReason_idem]
  cases extractStock s with
  | skip r =>
    show Sum.inl (skippedStock (ensureReason s) r) = Sum.inl (skippedStock s r)
    rw [skippedStock_ensure]
  | valid e ro ps bs => rfl

theorem classifyStock_none_eligible {s : Stock}
    (h : is_financial_company s = false) :
    classifyStock Option.none s = Sum.inr (ensureReason s) := by
  unfold classifyStock
  dsimp only
  rw [is_financial_company_raw_congr (ensureReason_raw s), h]
  rfl

theorem mfEligible_of_nofin {ins : List Stock}
    (hfl : ∀ s ∈ ins, is_financial_company s = false) :
    mfEligible Option.none ins = ins.map ensureReason := by
  induction ins with
  | nil => rfl
  | cons s tl ih =>
    unfold mfEligible mfClassified at ih ⊢
    rw [List.map_cons, List.filterMap_cons,
      classifyStock_none_eligible (hfl s (List.mem_cons_self s tl)),
      ih (fun u hu => hfl u (List.mem_cons_of_mem s hu)), List.map_cons]

theorem mfExcluded_of_nofin {ins : List Stock}
    (hfl : ∀ s ∈ ins, is_financial_company s = false) :
    mfExcluded Option.none ins = [] := by
  induction ins with
  | nil => rfl
  | cons s tl ih =>
    unfold mfExcluded mfClassified at ih ⊢
    rw [List.map_cons, List.filterMap_cons,
      classifyStock_none_eligible (hfl s (List.mem_cons_self s tl)),
      ih (fun u hu => hfl u (List.mem_cons_of_mem s hu))]

theorem mfProcessed_of_nofin {ins : List Stock}
    (hfl : ∀ s ∈ ins, is_financial_company s = false) :
    mfProcessed Option.none ins = ins.map processEligible := by
  unfold mfProcessed
  rw [mfEligible_of_nofin hfl, List.map_map]
  exact List.map_congr_left (fun s _ => processEligible_ensureReason s)

theorem calcRows_cons (eyR rocR : ℕ → Option ℕ) (s : Stock) (rest : List Stock)
    (k : ℕ) :
    calcRows eyR rocR (s :: rest) k =
      match processEligible s with
      | Sum.inl sk => finalEnsure sk :: calcRows eyR rocR rest k
      | Sum.inr it =>
        finalEnsure
          (match eyR k, rocR k with
           | Option.some e, Option.some r => applyScore it e r
           | _, _ => it.stock) :: calcRows eyR rocR rest (k + 1) := rfl

theorem assembleRanked_map_processEligible (eyR rocR : ℕ → Option ℕ)
    (ins : List Stock) (k : ℕ) :
    (assembleRanked eyR rocR (ins.map processEligible) k).map finalEnsure =
      calcRows eyR rocR ins k := by
  induction ins generalizing k with
  | nil => rfl
  | cons s tl ih =>
    rw [List.map_cons, calcRows_cons]
    cases h : processEligible s with
    | inl sk => rw [assembleRanked, List.map_cons, ih]
    | inr it => rw [assembleRanked, List.map_cons, ih]

/-- On an all-eligible input the scoring run is its row-by-row view with
the run's own rank maps and tags from zero. -/
theorem calc_eq_calcRows {ins : List Stock}
    (hfl : ∀ s ∈ ins, is_financial_company s = false) :
    calculate_magic_formula_for_stocks Option.none ins =
      calcRows (mfEyRank Option.none ins) (mfRocRank Option.none ins) ins 0 := by
  unfold calculate_magic_formula_for_stocks
  rw [mfExcluded_of_nofin hfl, List.append_nil, mfProcessed_of_nofin hfl,
    assembleRanked_map_processEligible]

theorem calcRows_length (eyR rocR : ℕ → Option ℕ) (ins : List Stock) (k : ℕ) :
    (calcRows eyR rocR ins k).length = ins.length := by
  induction ins generalizing k with
  | nil => rfl
  | cons s tl ih =>
    rw [calcRows_cons]
    cases processEligible s with
    | inl sk => rw [List.length_cons, ih, List.length_cons]
    | inr it => rw [List.length_cons, ih, List.length_cons]

theorem validCount_cons (s : Stock) (tl : List Stock) :
    validCount (s :: tl) =
      validCount tl +
        (match processEligible s with
         | Sum.inr _ => 1
         | Sum.inl _ => 0) := by
  unfold validCount
  rw [List.countP_cons]
  cases processEligible s <;> rfl

theorem mfValidItems_of_nofin {ins : List Stock}
    (hfl : ∀ s ∈ ins, is_financial_company s = false) :
    mfValidItems Option.none ins =
      (ins.map processEligible).filterMap (fun p =>
        match p with
        | Sum.inr it => Option.some it
        | Sum.inl _ => Option.none) := by
  unfold mfValidItems
  rw [mfProcessed_of_nofin hfl]

theorem mfValidItems_length_of_nofin {ins : List Stock}
    (hfl : ∀ s ∈ ins, is_financial_company s = false) :
    (mfValidItems Option.none ins).length = validCount ins := by
  rw [mfValidItems_of_nofin hfl]
  clear hfl
  induction ins with
  | nil => rfl
  | cons s tl ih =>
    rw [List.map_cons, List.filterMap_cons, validCount_cons]
    cases h : processEligible s with
    | inl sk => simpa using ih
    | inr it => simpa using ih

theorem processEligible_inr_inv {s : Stock} {it : ValidItem}
    (h : processEligible s = Sum.inr it) :
    ∃ e ro ps bs, extractStock s = ExtractResult.valid e ro ps bs ∧
      it = ⟨ensureReason s, e, ro, ps, bs⟩ := by
  cases hx : extractStock s with
  | skip r => rw [processEligible_skip hx] at h; cases h
  | valid e ro ps bs =>
    rw [processEligible_valid hx] at h
    exact ⟨e, ro, ps, bs, rfl, ((Sum.inr.injEq _ _).mp h).symm⟩

theorem rowFact_skip {s sk : Stock} (h : processEligible s = Sum.inl sk) :
    RowFact s (finalEnsure sk) := by
  obtain ⟨rr, hx, rfl⟩ := processEligible_inl h
  rw [finalEnsure_of_some (skippedStock_reason s rr), skippedStock_eq]
  exact ⟨rfl, Or.inl ⟨rr, hx, rfl, rfl⟩⟩

theorem rowFact_valid {s : Stock} {it : ValidItem}
    (h : processEligible s = Sum.inr it) (eyr rocr : ℕ) :
    RowFact s (finalEnsure (applyScore it eyr rocr)) := by
  obtain ⟨e, ro, ps, bs, hx, rfl⟩ := processEligible_inr_inv h
  rw [finalEnsure_of_some (applyScore_reason _ eyr rocr)]
  refine ⟨by rw [applyScore_raw]; exact ensureReason_raw s,
    Or.inr ⟨e, ro, ps, bs, eyr, rocr, hx, ?_, rfl⟩⟩
  show { (ensureReason s).sc with
    magic_formula_score := Option.some (eyr + rocr)
    ey_rank := Option.some eyr
    roc_rank := Option.some rocr
    earnings_yield := Option.some (e * 100)
    return_on_capital := Option.some (ro * 100) } = _
  rw [ensureReason_sc]

/-- Row `i` of an all-eligible run relates to input row `i` by
`RowFact`, provided the rank maps are total on the tags the list
consumes. -/
theorem calcRows_fact (eyR rocR : ℕ → Option ℕ) (ins : List Stock) (k0 : ℕ)
    (hE : ∀ k, k0 ≤ k → k < k0 + validCount ins →
      (eyR k).isSome ∧ (rocR k).isSome)
    (i : ℕ) (hi : i < ins.length) (out : Stock)
    (hout : (calcRows eyR rocR ins k0)[i]? = Option.some out) :
    RowFact (ins.get ⟨i, hi⟩) out := by
  induction ins generalizing k0 i with
  | nil => exact absurd hi (by simp)
  | cons s tl ih =>
    rw [calcRows_cons] at hout
    cases h : processEligible s with
    | inl sk =>
      rw [h] at hout
      dsimp only at hout
      have hcount : validCount (s :: tl) = validCount tl := by
        rw [validCount_cons, h]
        rfl
      cases i with
      | zero =>
        rw [List.getElem?_cons_zero] at hout
        obtain rfl : finalEnsure sk = out := by simpa using hout
        exact rowFact_skip h
      | succ j =>
        rw [List.getElem?_cons_succ] at hout
        exact ih k0 (fun k hk1 hk2 => hE k hk1 (by rw [hcount]; exact hk2))
          j (Nat.lt_of_succ_lt_succ hi) hout
    | inr it =>
      rw [h] at hout
      dsimp only at hout
      have hcount : validCount (s :: tl) = validCount tl + 1 := by
        rw [validCount_cons, h]
      cases i with
      | zero =>
        rw [List.getElem?_cons_zero] at hout
        have hk0 : (eyR k0).isSome ∧ (rocR k0).isSome :=
          hE k0 (Nat.le_refl k0) (by omega)
        obtain ⟨ev, hev⟩ := Option.isSome_iff_exists.mp hk0.1
        obtain ⟨rv, hrv⟩ := Option.isSome_iff_exists.mp hk0.2
        rw [hev, hrv] at hout
        obtain rfl : finalEnsure (applyScore it ev rv) = out := by simpa using hout
        exact rowFact_valid h ev rv
      | succ j =>
        rw [List.getElem?_cons_succ] at hout
        exact ih (k0 + 1) (fun k hk1 hk2 => hE k (by omega) (by omega))
          j (Nat.lt_of_succ_lt_succ hi) hout

theorem calc_length_of_nofin {ins : List Stock}
    (hfl : ∀ s ∈ ins, is_financial_company s = false) :
    (calculate_magic_formula_for_stocks Option.none ins).length = ins.length := by
  rw [calc_eq_calcRows hfl, calcRows_length]

/-- The all-eligible run with the run's own rank maps, per row. -/
theorem calc_fact {ins : List Stock}
    (hfl : ∀ s ∈ ins, is_financial_company s = false)
    (i : ℕ) (hi : i < ins.length) (out : Stock)
    (hout : (calculate_magic_formula_for_stocks Option.none ins)[i]? = Option.some out) :
    RowFact (ins.get ⟨i, hi⟩) out := by
  rw [calc_eq_calcRows hfl] at hout
  refine calcRows_fact _ _ ins 0 ?_ i hi out hout
  intro k hk1 hk2
  have hk : k < (mfValidItems Option.none ins).length := by
    rw [mfValidItems_length_of_nofin hfl]; omega
  obtain ⟨a, ha, -, hey⟩ := mfEyRank_eq_some Option.none ins k hk
  obtain ⟨b2, hb, -, hroc⟩ := mfRocRank_eq_some Option.none ins k hk
  exact ⟨by rw [hey]; rfl, by rw [hroc]; rfl⟩

theorem calcRows_map_raw (eyR rocR : ℕ → Option ℕ) (ins : List Stock) (k : ℕ) :
    (calcRows eyR rocR ins k).map Stock.raw = ins.map Stock.raw := by
  induction ins generalizing k with
  | nil => rfl
  | cons s tl ih =>
    rw [calcRows_cons]
    cases h : processEligible s with
    | inl sk =>
      obtain ⟨rr, -, rfl⟩ := processEligible_inl h
      rw [List.map_cons, List.map_cons, ih, finalEnsure_raw, skippedStock_raw]
    | inr it =>
      obtain ⟨e, ro, ps, bs, -, rfl⟩ := processEligible_inr_inv h
      rw [List.map_cons, List.map_cons, ih]
      cases eyR k <;> cases rocR k <;>
        simp [finalEnsure_raw, applyScore_raw, ensureReason_raw]

theorem calc_map_raw_of_nofin {ins : List Stock}
    (hfl : ∀ s ∈ ins, is_financial_company s = false) :
    (calculate_magic_formula_for_stocks Option.none ins).map Stock.raw =
      ins.map Stock.raw := by
  rw [calc_eq_calcRows hfl, calcRows_map_raw]

/-- Every scoring-run output carries the raw fields of some input. -/
theorem mem_calc_raw_of_nofin {ins : List Stock} {out : Stock}
    (hfl : ∀ s ∈ ins, is_financial_company s = false)
    (h : out ∈ calculate_magic_formula_for_stocks Option.none ins) :
    ∃ c ∈ ins, out.raw = c.raw := by
  have : out.raw ∈ ins.map Stock.raw := by
    rw [← calc_map_raw_of_nofin hfl]
    exact List.mem_map_of_mem Stock.raw h
  obtain ⟨c, hc, hcr⟩ := List.mem_map.mp this
  exact ⟨c, hc, hcr.symm⟩

theorem map_tickerKey_eq_of_map_raw {l l' : List Stock}
    (h : l.map Stock.raw = l'.map Stock.raw) :
    l.map tickerKey = l'.map tickerKey := by
  have e : ∀ m : List Stock, m.map tickerKey =
      (m.map Stock.raw).map (fun rd =>
        match rd.ticker with
        | Option.some u => if u ≠ "" then Option.some u else Option.none
        | Option.none => Option.none) := by
    intro m
    rw [List.map_map]
    rfl
  rw [e, e, h]

theorem filterMap_tickerKey_eq_of_map {l l' : List Stock}
    (h : l.map tickerKey = l'.map tickerKey) :
    l.filterMap tickerKey = l'.filterMap tickerKey := by
  have e : ∀ m : List Stock,
      m.filterMap tickerKey = (m.map tickerKey).filterMap id := by
    intro m
    rw [List.filterMap_map]
    rfl
  rw [e, e, h]

/-- With pairwise-distinct truthy tickers, a truthy ticker pins down its
position in the batch. -/
theorem tickerKey_inj_of_nodup {b : List Stock}
    (hnd : (b.filterMap tickerKey).Nodup)
    {i j : ℕ} (hi : i < b.length) (hj : j < b.length)
    (ht : tickerKey (b.get ⟨i, hi⟩) = tickerKey (b.get ⟨j, hj⟩))
    (hsome : tickerKey (b.get ⟨i, hi⟩) ≠ Option.none) : i = j := by
  induction b generalizing i j with
  | nil => exact absurd hi (by simp)
  | cons a tl ih =>
    obtain ⟨t, hit⟩ := Option.ne_none_iff_exists'.mp hsome
    have hnd' : (tl.filterMap tickerKey).Nodup := by
      rw [List.filterMap_cons] at hnd
      cases h : tickerKey a with
      | none => rw [h] at hnd; exact hnd
      | some u => rw [h] at hnd; exact (List.nodup_cons.mp hnd).2
    cases i with
    | zero =>
      cases j with
      | zero => rfl
      | succ j' =>
        exfalso
        have hat : tickerKey a = Option.some t := hit
        have hjt : tickerKey (tl.get ⟨j', Nat.lt_of_succ_lt_succ hj⟩) =
            Option.some t := ht.symm.trans hit
        have hmem : t ∈ tl.filterMap tickerKey :=
          List.mem_filterMap.mpr ⟨tl.get ⟨j', Nat.lt_of_succ_lt_succ hj⟩,
            List.get_mem tl j' (Nat.lt_of_succ_lt_succ hj), hjt⟩
        rw [List.filterMap_cons, hat] at hnd
        exact (List.nodup_cons.mp hnd).1 hmem
    | succ i' =>
      cases j with
      | zero =>
        exfalso
        have hat : tickerKey a = Option.some t := ht.symm.trans hit
        have hitl : tickerKey (tl.get ⟨i', Nat.lt_of_succ_lt_succ hi⟩) =
            Option.some t := hit
        have hmem : t ∈ tl.filterMap tickerKey :=
          List.mem_filterMap.mpr ⟨tl.get ⟨i', Nat.lt_of_succ_lt_succ hi⟩,
            List.get_mem tl i' (Nat.lt_of_succ_lt_succ hi), hitl⟩
        rw [List.filterMap_cons, hat] at hnd
        exact (List.nodup_cons.mp hnd).1 hmem
      | succ j' =>
        have := ih hnd' (Nat.lt_of_succ_lt_succ hi) (Nat.lt_of_succ_lt_succ hj)
          ht hsome
        omega

/-- Master per-entry description of one scoring pass over a batch with
pairwise-distinct truthy tickers: entry `i` is rewritten by the copy
function from its own row's scoring result exactly when it survives the
pass filter and its own truthy ticker maps back to `i`; otherwise it is
left alone. -/
theorem scoredPass_entry (pred : Stock → Bool) (copyFn : Stock → Stock → Stock)
    (stocks b : List Stock)
    (hpred : ∀ s, pred s = true → is_financial_company s = false)
    (hnd : (stocks.filterMap tickerKey).Nodup)
    (hraw : b.map Stock.raw = stocks.map Stock.raw)
    (i : ℕ) (hi : i < b.length) :
    (pred (b.get ⟨i, hi⟩) = true ∧
      targetIdx stocks (b.get ⟨i, hi⟩) = Option.some i ∧
      ∃ r, RowFact (b.get ⟨i, hi⟩) r ∧
        (writeBackWith copyFn stocks b
          (calculate_magic_formula_for_stocks Option.none (b.filter pred)))[i]? =
          Option.some (copyFn r (b.get ⟨i, hi⟩)))
    ∨ (¬(pred (b.get ⟨i, hi⟩) = true ∧
          targetIdx stocks (b.get ⟨i, hi⟩) = Option.some i) ∧
      (writeBackWith copyFn stocks b
        (calculate_magic_formula_for_stocks Option.none (b.filter pred)))[i]? =
        Option.some (b.get ⟨i, hi⟩)) := by
  have hfl : ∀ s ∈ b.filter pred, is_financial_company s = false :=
    fun s hs => hpred s (List.mem_filter.mp hs).2
  have hbtk : b.map tickerKey = stocks.map tickerKey :=
    map_tickerKey_eq_of_map_raw hraw
  have hbnd : (b.filterMap tickerKey).Nodup := by
    rw [filterMap_tickerKey_eq_of_map hbtk]; exact hnd
  have hfltnd : ((b.filter pred).filterMap tickerKey).Nodup :=
    ((List.filter_sublist b).filterMap tickerKey).nodup hbnd
  have hresraw : (calculate_magic_formula_for_stocks Option.none
      (b.filter pred)).map Stock.raw = (b.filter pred).map Stock.raw :=
    calc_map_raw_of_nofin hfl
  have hresnd : ((calculate_magic_formula_for_stocks Option.none
      (b.filter pred)).filterMap tickerKey).Nodup := by
    rw [filterMap_tickerKey_eq_of_map (map_tickerKey_eq_of_map_raw hresraw)]
    exact hfltnd
  have hreslen : (calculate_magic_formula_for_stocks Option.none
      (b.filter pred)).length = (b.filter pred).length := calc_length_of_nofin hfl
  by_cases hcond : pred (b.get ⟨i, hi⟩) = true ∧
      targetIdx stocks (b.get ⟨i, hi⟩) = Option.some i
  · left
    obtain ⟨hp, htg⟩ := hcond
    have hmem : b.get ⟨i, hi⟩ ∈ b.filter pred :=
      List.mem_filter.mpr ⟨List.get_mem b i hi, hp⟩
    obtain ⟨p, hp2, hpe⟩ := List.getElem_of_mem hmem
    have hpl : p < (calculate_magic_formula_for_stocks Option.none
        (b.filter pred)).length := by rw [hreslen]; exact hp2
    have hrf : RowFact (b.get ⟨i, hi⟩)
        ((calculate_magic_formula_for_stocks Option.none (b.filter pred)).get
          ⟨p, hpl⟩) := by
      have hfact := calc_fact hfl p hp2 _ (List.getElem?_eq_getElem hpl)
      have : (b.filter pred).get ⟨p, hp2⟩ = b.get ⟨i, hi⟩ := hpe
      rw [this] at hfact
      exact hfact
    have hrt : targetIdx stocks
        ((calculate_magic_formula_for_stocks Option.none (b.filter pred)).get
          ⟨p, hpl⟩) = Option.some i := by
      rw [targetIdx_raw_congr stocks hrf.1]
      exact htg
    refine ⟨hp, htg, _, hrf, ?_⟩
    exact writeBackWith_unique hresnd
      (List.get_mem _ p hpl) hrt copyFn b hi
  · right
    refine ⟨hcond, ?_⟩
    have hnt : ∀ r ∈ calculate_magic_formula_for_stocks Option.none
        (b.filter pred), targetIdx stocks r ≠ Option.some i := by
      intro r hr hri
      obtain ⟨c, hc, hcr⟩ := mem_calc_raw_of_nofin hfl hr
      have hcp : pred c = true := (List.mem_filter.mp hc).2
      have hcb : c ∈ b := (List.mem_filter.mp hc).1
      obtain ⟨j, hj, hje⟩ := List.getElem_of_mem hcb
      have hct : targetIdx stocks c = Option.some i := by
        rw [← targetIdx_raw_congr stocks hcr]
        exact hri
      obtain ⟨t, hctk, hlti⟩ := targetIdx_eq_some.mp hct
      obtain ⟨hi2, hsit⟩ := lastTickerIdx_spec hlti
      have hbit : tickerKey (b.get ⟨i, hi⟩) = Option.some t := by
        have hmape : (b.map tickerKey)[i]? = (stocks.map tickerKey)[i]? := by
          rw [hbtk]
        rw [List.getElem?_map, List.getElem?_map,
          List.getElem?_eq_getElem hi, List.getElem?_eq_getElem hi2] at hmape
        have : tickerKey (b.get ⟨i, hi⟩) = tickerKey (stocks.get ⟨i, hi2⟩) := by
          simpa using hmape
        rw [this]
        exact hsit
      have hbjt : tickerKey (b.get ⟨j, hj⟩) = Option.some t := by
        have : b.get ⟨j, hj⟩ = c := hje
        rw [this]
        exact hctk
      have hij : j = i := tickerKey_inj_of_nodup hbnd hj hi
        (by rw [hbjt, hbit]) (by rw [hbjt]; simp)
      apply hcond
      subst hij
      have hbc : b.get ⟨j, hj⟩ = c := hje
      rw [hbc]
      exact ⟨hcp, hct⟩
    rw [writeBackWith_untargeted hnt copyFn b, List.getElem?_eq_getElem hi]
    rfl

/-! ## The consistency invariant through the five scoring passes -/

theorem extractValid_raw_congr {a b : Stock} (h : a.raw = b.raw) :
    ExtractValid b → ExtractValid a := by
  rintro ⟨e, ro, ps, bs, hv⟩
  exact ⟨e, ro, ps, bs, (extractStock_raw_congr h).trans hv⟩

/-- The copied (score, ey rank, roc rank) default triple of a scoring
result is always consistent, given the target's invariant link. -/
theorem written_triple_ok {t r : Stock} (hrf : RowFact t r)
    (hlink : (t.sc.ey_rank ≠ Option.none ∨ t.sc.roc_rank ≠ Option.none) →
      ExtractValid t) :
    TripleOk (r.sc.magic_formula_score, r.sc.ey_rank, r.sc.roc_rank) := by
  rcases hrf.2 with ⟨rr, hx, hsc, -⟩ | ⟨e, ro, ps, bs, eyr, rocr, hx, hsc, -⟩
  · right
    have hteyn : t.sc.ey_rank = Option.none := by
      by_contra hne
      obtain ⟨e, ro, ps, bs, hv⟩ := hlink (Or.inl hne)
      rw [hx] at hv
      cases hv
    have htrocn : t.sc.roc_rank = Option.none := by
      by_contra hne
      obtain ⟨e, ro, ps, bs, hv⟩ := hlink (Or.inr hne)
      rw [hx] at hv
      cases hv
    rw [hsc]
    dsimp only
    rw [hteyn, htrocn]
  · left
    rw [hsc]
    exact ⟨eyr + rocr, eyr, rocr, rfl⟩

/-- Ranks copied from a scoring result are numeric only on gate-passing
raw fields. -/
theorem written_link {t r : Stock} (hrf : RowFact t r)
    (hlink : (t.sc.ey_rank ≠ Option.none ∨ t.sc.roc_rank ≠ Option.none) →
      ExtractValid t) :
    (r.sc.ey_rank ≠ Option.none ∨ r.sc.roc_rank ≠ Option.none) →
      ExtractValid t := by
  rcases hrf.2 with ⟨rr, hx, hsc, -⟩ | ⟨e, ro, ps, bs, eyr, rocr, hx, hsc, -⟩
  · intro h
    apply hlink
    rw [hsc] at h
    exact h
  · intro _
    exact ⟨e, ro, ps, bs, hx⟩

theorem c3inv_default {o t r : Stock} (hrf : RowFact t r) (hinv : C3Inv o t) :
    C3Inv o (applyDefaultCopy r t) := by
  obtain ⟨hraw, htri, hlink⟩ := hinv
  refine ⟨by rw [applyDefaultCopy_raw]; exact hraw, ?_, ?_⟩
  · intro c
    cases c with
    | dflt => exact @written_triple_ok t r hrf hlink
    | m100 => exact htri ScoreColumn.m100
    | m500 => exact htri ScoreColumn.m500
    | b1 => exact htri ScoreColumn.b1
    | b5 => exact htri ScoreColumn.b5
  · intro h
    exact extractValid_raw_congr (applyDefaultCopy_raw r t)
      (written_link hrf hlink h)

theorem c3inv_variant (v : CapVariant) {o t r : Stock}
    (hrf : RowFact t r) (hinv : C3Inv o t) :
    C3Inv o (applyVariantCopy v r t) := by
  obtain ⟨hraw, htri, hlink⟩ := hinv
  refine ⟨by rw [applyVariantCopy_raw]; exact hraw, ?_, ?_⟩
  · intro c
    cases v <;> cases c <;>
      first
        | exact htri ScoreColumn.dflt
        | exact htri ScoreColumn.m100
        | exact htri ScoreColumn.m500
        | exact htri ScoreColumn.b1
        | exact htri ScoreColumn.b5
        | exact @written_triple_ok t r hrf hlink
  · intro h
    refine extractValid_raw_congr (applyVariantCopy_raw v r t) (hlink ?_)
    cases v <;> exact h

theorem pass_C3Inv (pred : Stock → Bool) (copyFn : Stock → Stock → Stock)
    (stocks b : List Stock)
    (hpred : ∀ s, pred s = true → is_financial_company s = false)
    (hnd : (stocks.filterMap tickerKey).Nodup)
    (hraw : b.map Stock.raw = stocks.map Stock.raw)
    (hcopy : ∀ (o r t : Stock), RowFact t r → C3Inv o t → C3Inv o (copyFn r t))
    (hinv : ∀ j (hj : j < b.length) (hj' : j < stocks.length),
      C3Inv (stocks.get ⟨j, hj'⟩) (b.get ⟨j, hj⟩))
    (i : ℕ)
    (hi : i < (writeBackWith copyFn stocks b
      (calculate_magic_formula_for_stocks Option.none (b.filter pred))).length)
    (hi' : i < stocks.length) :
    C3Inv (stocks.get ⟨i, hi'⟩)
      ((writeBackWith copyFn stocks b
        (calculate_magic_formula_for_stocks Option.none (b.filter pred))).get
          ⟨i, hi⟩) := by
  have hib : i < b.length := by
    rw [writeBackWith_length] at hi
    exact hi
  rcases scoredPass_entry pred copyFn stocks b hpred hnd hraw i hib with
    ⟨hp, ht, r, hrf, hw⟩ | ⟨hnc, hw⟩
  · have hval : (writeBackWith copyFn stocks b
        (calculate_magic_formula_for_stocks Option.none (b.filter pred))).get
          ⟨i, hi⟩ = copyFn r (b.get ⟨i, hib⟩) := by
      have h3 := List.getElem?_eq_getElem hi
      rw [hw] at h3
      exact (Option.some.inj h3).symm
    rw [hval]
    exact hcopy _ r _ hrf (hinv i hib hi')
  · have hval : (writeBackWith copyFn stocks b
        (calculate_magic_formula_for_stocks Option.none (b.filter pred))).get
          ⟨i, hi⟩ = b.get ⟨i, hib⟩ := by
      have h3 := List.getElem?_eq_getElem hi
      rw [hw] at h3
      exact (Option.some.inj h3).symm
    rw [hval]
    exact hinv i hib hi'

theorem variantStep_length (v : CapVariant) (orig b : List Stock) :
    (variantStep v orig b).length = b.length := by
  unfold variantStep
  rw [writeBackWith_length]

theorem mfDefaultBatch_length (stocks : List Stock) :
    (mfDefaultBatch stocks).length = stocks.length := by
  unfold mfDefaultBatch defaultStep
  rw [writeBackWith_length, List.length_map]

theorem calcAll_length (stocks : List Stock) :
    (calculate_all_score_variants stocks).length = stocks.length := by
  unfold calculate_all_score_variants
  rw [variantStep_length, variantStep_length, variantStep_length,
    variantStep_length, mfDefaultBatch_length]

theorem recalc_length (stocks : List Stock) :
    (recalculate_all_scores_pure stocks).length = stocks.length := by
  unfold recalculate_all_scores_pure
  rw [List.length_map, calcAll_length]

theorem initBatch_map_raw (stocks : List Stock) :
    (stocks.map initScores).map Stock.raw = stocks.map Stock.raw := by
  rw [List.map_map]
  exact List.map_congr_left (fun s _ => initScores_raw s)

theorem variantStep_map_raw (v : CapVariant) (orig b : List Stock) :
    (variantStep v orig b).map Stock.raw = b.map Stock.raw := by
  unfold variantStep
  exact writeBackWith_map_eq Stock.raw _ (applyVariantCopy_raw v) orig _ b

theorem mfDefaultBatch_map_raw (stocks : List Stock) :
    (mfDefaultBatch stocks).map Stock.raw = stocks.map Stock.raw := by
  unfold mfDefaultBatch defaultStep
  rw [writeBackWith_map_eq Stock.raw _ applyDefaultCopy_raw, initBatch_map_raw]

theorem calcAll_map_raw (stocks : List Stock) :
    (calculate_all_score_variants stocks).map Stock.raw =
      stocks.map Stock.raw := by
  unfold calculate_all_score_variants
  rw [variantStep_map_raw, variantStep_map_raw, variantStep_map_raw,
    variantStep_map_raw, mfDefaultBatch_map_raw]

theorem sc_eta_score (sc : ScoreFields) (h : sc.magic_formula_score = Option.none) :
    { sc with magic_formula_score := Option.none } = sc := by
  rw [← h]

theorem sc_eta_100m (sc : ScoreFields) (h : sc.magic_formula_score_100m = Option.none) :
    { sc with magic_formula_score_100m := Option.none } = sc := by
  rw [← h]

theorem sc_eta_500m (sc : ScoreFields) (h : sc.magic_formula_score_500m = Option.none) :
    { sc with magic_formula_score_500m := Option.none } = sc := by
  rw [← h]

theorem sc_eta_1b (sc : ScoreFields) (h : sc.magic_formula_score_1b = Option.none) :
    { sc with magic_formula_score_1b := Option.none } = sc := by
  rw [← h]

theorem sc_eta_5b (sc : ScoreFields) (h : sc.magic_formula_score_5b = Option.none) :
    { sc with magic_formula_score_5b := Option.none } = sc := by
  rw [← h]

/-- On a record whose five triples are all consistent, the consistency
sweep does not change any score field. -/
theorem sweepStock_sc_of_tripleOk (x : Stock)
    (h : ∀ c : ScoreColumn,
      TripleOk (colScore c x.sc, colEyRank c x.sc, colRocRank c x.sc)) :
    (sweepStock x).sc = x.sc := by
  have h1 : sweep1 x.sc = x.sc := by
    unfold sweep1
    rcases h ScoreColumn.dflt with ⟨a, e, r, heq⟩ | heq
    · have he : x.sc.ey_rank = Option.some e := congrArg (fun p => p.2.1) heq
      have hr : x.sc.roc_rank = Option.some r := congrArg (fun p => p.2.2) heq
      rw [if_neg (by simp [he, hr])]
    · have ha : x.sc.magic_formula_score = Option.none := congrArg (fun p => p.1) heq
      have he : x.sc.ey_rank = Option.none := congrArg (fun p => p.2.1) heq
      rw [if_pos (Or.inl he), sc_eta_score _ ha]
  have h2 : sweep2 x.sc = x.sc := by
    unfold sweep2
    rcases h ScoreColumn.m100 with ⟨a, e, r, heq⟩ | heq
    · have he : x.sc.ey_rank_100m = Option.some e := congrArg (fun p => p.2.1) heq
      have hr : x.sc.roc_rank_100m = Option.some r := congrArg (fun p => p.2.2) heq
      rw [if_neg (by simp [he, hr])]
    · have ha : x.sc.magic_formula_score_100m = Option.none := congrArg (fun p => p.1) heq
      have he : x.sc.ey_rank_100m = Option.none := congrArg (fun p => p.2.1) heq
      rw [if_pos (Or.inl he), sc_eta_100m _ ha]
  have h3 : sweep3 x.sc = x.sc := by
    unfold sweep3
    rcases h ScoreColumn.m500 with ⟨a, e, r, heq⟩ | heq
    · have he : x.sc.ey_rank_500m = Option.some e := congrArg (fun p => p.2.1) heq
      have hr : x.sc.roc_rank_500m = Option.some r := congrArg (fun p => p.2.2) heq
      rw [if_neg (by simp [he, hr])]
    · have ha : x.sc.magic_formula_score_500m = Option.none := congrArg (fun p => p.1) heq
      have he : x.sc.ey_rank_500m = Option.none := congrArg (fun p => p.2.1) heq
      rw [if_pos (Or.inl he), sc_eta_500m _ ha]
  have h4 : sweep4 x.sc = x.sc := by
    unfold sweep4
    rcases h ScoreColumn.b1 with ⟨a, e, r, heq⟩ | heq
    · have he : x.sc.ey_rank_1b = Option.some e := congrArg (fun p => p.2.1) heq
      have hr : x.sc.roc_rank_1b = Option.some r := congrArg (fun p => p.2.2) heq
      rw [if_neg (by simp [he, hr])]
    · have ha : x.sc.magic_formula_score_1b = Option.none := congrArg (fun p => p.1) heq
      have he : x.sc.ey_rank_1b = Option.none := congrArg (fun p => p.2.1) heq
      rw [if_pos (Or.inl he), sc_eta_1b _ ha]
  have h5 : sweep5 x.sc = x.sc := by
    unfold sweep5
    rcases h ScoreColumn.b5 with ⟨a, e, r, heq⟩ | heq
    · have he : x.sc.ey_rank_5b = Option.some e := congrArg (fun p => p.2.1) heq
      have hr : x.sc.roc_rank_5b = Option.some r := congrArg (fun p => p.2.2) heq
      rw [if_neg (by simp [he, hr])]
    · have ha : x.sc.magic_formula_score_5b = Option.none := congrArg (fun p => p.1) heq
      have he : x.sc.ey_rank_5b = Option.none := congrArg (fun p => p.2.1) heq
      rw [if_pos (Or.inl he), sc_eta_5b _ ha]
  have hchain : ∀ u, tickerKey x = Option.some u →
      (sweepStock x).sc = sweep5 (sweep4 (sweep3 (sweep2 (sweep1 x.sc)))) := by
    intro u htk
    unfold sweepStock
    rw [htk]
    rfl
  cases htk : tickerKey x with
  | none =>
    unfold sweepStock
    rw [htk]
  | some u =>
    rw [hchain u htk, h1, h2, h3, h4, h5]

theorem calcAll_C3Inv (stocks : List Stock)
    (hnd : (stocks.filterMap tickerKey).Nodup)
    (i : ℕ) (hi : i < (calculate_all_score_variants stocks).length) :
    ∃ hi0 : i < stocks.length,
      C3Inv (stocks.get ⟨i, hi0⟩)
        ((calculate_all_score_variants stocks).get ⟨i, hi⟩) := by
  have hi0 : i < stocks.length := by rw [calcAll_length] at hi; exact hi
  refine ⟨hi0, ?_⟩
  have hpredD : ∀ s : Stock, (!(is_financial_company s)) = true →
      is_financial_company s = false := by
    intro s hs; simpa using hs
  have hpredV : ∀ v : CapVariant, ∀ s : Stock,
      ((!(is_financial_company s)) &&
        meets_market_cap_threshold s (capThreshold v)) = true →
      is_financial_company s = false := by
    intro v s hs
    have := (Bool.and_eq_true _ _).mp hs
    simpa using this.1
  have inv0 : ∀ j (hj : j < (stocks.map initScores).length)
      (hj' : j < stocks.length),
      C3Inv (stocks.get ⟨j, hj'⟩) ((stocks.map initScores).get ⟨j, hj⟩) := by
    intro j hj hj'
    have hje : (stocks.map initScores).get ⟨j, hj⟩ =
        initScores (stocks.get ⟨j, hj'⟩) := by
      rw [List.get_eq_getElem, List.get_eq_getElem]
      exact List.getElem_map initScores
    rw [hje]
    refine ⟨rfl, ?_, ?_⟩
    · intro c; cases c <;> exact Or.inr rfl
    · intro hor
      rcases hor with hh | hh <;> exact absurd rfl hh
  have inv1 : ∀ j (hj : j < (mfDefaultBatch stocks).length)
      (hj' : j < stocks.length),
      C3Inv (stocks.get ⟨j, hj'⟩) ((mfDefaultBatch stocks).get ⟨j, hj⟩) := by
    intro j hj hj'
    exact pass_C3Inv (fun s => !(is_financial_company s)) applyDefaultCopy
      stocks (stocks.map initScores) hpredD hnd (initBatch_map_raw stocks)
      (fun o r t hrf hin => c3inv_default hrf hin) inv0 j hj hj'
  have stepV : ∀ (v : CapVariant) (b : List Stock),
      b.map Stock.raw = stocks.map Stock.raw →
      (∀ j (hj : j < b.length) (hj' : j < stocks.length),
        C3Inv (stocks.get ⟨j, hj'⟩) (b.get ⟨j, hj⟩)) →
      ∀ j (hj : j < (variantStep v stocks b).length) (hj' : j < stocks.length),
        C3Inv (stocks.get ⟨j, hj'⟩) ((variantStep v stocks b).get ⟨j, hj⟩) := by
    intro v b hraw hinv j hj hj'
    exact pass_C3Inv
      (fun s => !(is_financial_company s) &&
        meets_market_cap_threshold s (capThreshold v))
      (applyVariantCopy v) stocks b (hpredV v) hnd hraw
      (fun o r t hrf hin => c3inv_variant v hrf hin) hinv j hj hj'
  have raw1 : (mfDefaultBatch stocks).map Stock.raw = stocks.map Stock.raw :=
    mfDefaultBatch_map_raw stocks
  have raw2 : (variantStep CapVariant.m100 stocks (mfDefaultBatch stocks)).map
      Stock.raw = stocks.map Stock.raw := by
    rw [variantStep_map_raw]; exact raw1
  have raw3 : (variantStep CapVariant.m500 stocks
      (variantStep CapVariant.m100 stocks (mfDefaultBatch stocks))).map
        Stock.raw = stocks.map Stock.raw := by
    rw [variantStep_map_raw]; exact raw2
  have raw4 : (variantStep CapVariant.b1 stocks (variantStep CapVariant.m500
      stocks (variantStep CapVariant.m100 stocks
        (mfDefaultBatch stocks)))).map Stock.raw = stocks.map Stock.raw := by
    rw [variantStep_map_raw]; exact raw3
  exact stepV CapVariant.b5 _ raw4
    (stepV CapVariant.b1 _ raw3
      (stepV CapVariant.m500 _ raw2
        (stepV CapVariant.m100 _ raw1 inv1)))
    i hi hi0

/-- C3: after a full scoring run — `calculate_all_score_variants`
followed by the consistency sweep of `recalculate_all_scores` — every
record's every score column (the default one and the four market-cap
variants) holds a number exactly when that column's ey rank and roc rank
both hold numbers; otherwise the score is the "N/A" sentinel. Stated
for batches whose truthy tickers are pairwise distinct, as the batch is
the value set of a ticker-keyed dict. -/
theorem claim_C3 (stocks : List Stock)
    (hnd : (stocks.filterMap tickerKey).Nodup)
    (s : Stock) (hs : s ∈ recalculate_all_scores_pure stocks) (c : ScoreColumn) :
    (colScore c s.sc).isSome ↔
      ((colEyRank c s.sc).isSome ∧ (colRocRank c s.sc).isSome) := by
  unfold recalculate_all_scores_pure at hs
  obtain ⟨x, hx, rfl⟩ := List.mem_map.mp hs
  obtain ⟨i, hi, hxe⟩ := List.getElem_of_mem hx
  obtain ⟨hi0, hinv⟩ := calcAll_C3Inv stocks hnd i hi
  have hxx : x = (calculate_all_score_variants stocks).get ⟨i, hi⟩ := by
    rw [List.get_eq_getElem]; exact hxe.symm
  rw [hxx]
  have hsc : (sweepStock ((calculate_all_score_variants stocks).get ⟨i, hi⟩)).sc
      = ((calculate_all_score_variants stocks).get ⟨i, hi⟩).sc :=
    sweepStock_sc_of_tripleOk _ hinv.2.1
  rw [hsc]
  rcases hinv.2.1 c with ⟨a, e, r, heq⟩ | heq
  · have ha := congrArg (fun p => p.1) heq
    have he := congrArg (fun p => p.2.1) heq
    have hr := congrArg (fun p => p.2.2) heq
    dsimp only at ha he hr
    rw [ha, he, hr]
    simp
  · have ha := congrArg (fun p => p.1) heq
    have he := congrArg (fun p => p.2.1) heq
    have hr := congrArg (fun p => p.2.2) heq
    dsimp only at ha he hr
    rw [ha, he, hr]
    simp

/-- C3 witness: a concrete one-record batch with a distinct truthy
ticker; the default column of its swept output satisfies the iff. -/
theorem claim_C3_witness :
    (([exStock] : List Stock).filterMap tickerKey).Nodup ∧
    ((colScore ScoreColumn.dflt
        ((recalculate_all_scores_pure [exStock]).getD 0 exStock).sc).isSome ↔
      ((colEyRank ScoreColumn.dflt
          ((recalculate_all_scores_pure [exStock]).getD 0 exStock).sc).isSome ∧
        (colRocRank ScoreColumn.dflt
          ((recalculate_all_scores_pure [exStock]).getD 0 exStock).sc).isSome)) := by
  have hnd : (([exStock] : List Stock).filterMap tickerKey).Nodup := by decide
  have hlen : 0 < (recalculate_all_scores_pure [exStock]).length := by
    rw [recalc_length]
    simp
  have hmem : (recalculate_all_scores_pure [exStock]).getD 0 exStock ∈
      recalculate_all_scores_pure [exStock] := by
    rw [List.getD_eq_getElem _ _ hlen]
    exact List.getElem_mem hlen
  exact ⟨hnd, claim_C3 [exStock] hnd _ hmem ScoreColumn.dflt⟩

/-! ## The frame effect of the market-cap variant passes -/

theorem applyDefaultCopy_narr_of_scored {r : Stock} (t : Stock) {x : ℕ}
    (hscore : r.sc.magic_formula_score = Option.some x) :
    (applyDefaultCopy r t).narr =
      { magic_formula_reason :=
          match r.narr.magic_formula_reason with
          | Option.some y => Option.some y
          | Option.none => t.narr.magic_formula_reason
        magic_formula_ebit_periods :=
          Option.some (r.narr.magic_formula_ebit_periods.getD "N/A")
        magic_formula_balance_sheet_period :=
          Option.some (r.narr.magic_formula_balance_sheet_period.getD "N/A")
        magic_formula_uses_ttm := Option.some true } := by
  unfold applyDefaultCopy
  dsimp only
  rw [if_pos (by rw [hscore]; exact fun hh => Option.noConfusion hh)]

theorem applyVariantCopy_narr_of_skip (v : CapVariant) {r : Stock} (t : Stock)
    (hscore : r.sc.magic_formula_score = Option.none) :
    (applyVariantCopy v r t).narr = t.narr := by
  unfold applyVariantCopy
  dsimp only
  rw [if_neg (by rw [hscore]; exact fun hh => hh rfl)]

theorem applyVariantCopy_narr_of_scored (v : CapVariant) {r : Stock} (t : Stock)
    {x : ℕ} (hscore : r.sc.magic_formula_score = Option.some x) :
    (applyVariantCopy v r t).narr =
      { t.narr with
        magic_formula_ebit_periods :=
          match r.narr.magic_formula_ebit_periods with
          | Option.some p =>
            if p ≠ "" ∧ p ≠ "N/A" then Option.some p
            else t.narr.magic_formula_ebit_periods
          | Option.none => t.narr.magic_formula_ebit_periods
        magic_formula_balance_sheet_period :=
          match r.narr.magic_formula_balance_sheet_period with
          | Option.some p =>
            if p ≠ "" ∧ p ≠ "N/A" then Option.some p
            else t.narr.magic_formula_balance_sheet_period
          | Option.none => t.narr.magic_formula_balance_sheet_period } := by
  unfold applyVariantCopy
  dsimp only
  rw [if_pos (by rw [hscore]; exact fun hh => Option.noConfusion hh)]

/-- The shared period fields the default pass leaves on a targeted,
gate-passing entry are exactly the gate's period strings. -/
theorem mfDefaultBatch_dnarr (stocks : List Stock)
    (hnd : (stocks.filterMap tickerKey).Nodup)
    (i : ℕ) (hd : i < (mfDefaultBatch stocks).length) :
    DNarrFact stocks i ((mfDefaultBatch stocks).get ⟨i, hd⟩) := by
  have hib : i < (stocks.map initScores).length := by
    rw [mfDefaultBatch_length] at hd
    rw [List.length_map]
    exact hd
  have he : mfDefaultBatch stocks = writeBackWith applyDefaultCopy stocks
      (stocks.map initScores)
      (calculate_magic_formula_for_stocks Option.none
        ((stocks.map initScores).filter
          (fun s => !(is_financial_company s)))) := rfl
  rcases scoredPass_entry (fun s => !(is_financial_company s)) applyDefaultCopy
      stocks (stocks.map initScores) (fun s hs => by simpa using hs) hnd
      (initBatch_map_raw stocks) i hib with
    ⟨hp, ht, r, hrf, hw⟩ | ⟨hnc, hw⟩
  · have hval : (mfDefaultBatch stocks).get ⟨i, hd⟩ =
        applyDefaultCopy r ((stocks.map initScores).get ⟨i, hib⟩) := by
      have h3 : (writeBackWith applyDefaultCopy stocks (stocks.map initScores)
          (calculate_magic_formula_for_stocks Option.none
            ((stocks.map initScores).filter
              (fun s => !(is_financial_company s)))))[i]? =
          Option.some ((mfDefaultBatch stocks).get ⟨i, hd⟩) := by
        rw [← he, List.get_eq_getElem]
        exact List.getElem?_eq_getElem hd
      rw [hw] at h3
      exact (Option.some.inj h3).symm
    rw [hval]
    intro e ro ps bs hfin htg hvalid
    have hdr : (applyDefaultCopy r ((stocks.map initScores).get ⟨i, hib⟩)).raw =
        ((stocks.map initScores).get ⟨i, hib⟩).raw := applyDefaultCopy_raw r _
    have hxt : extractStock ((stocks.map initScores).get ⟨i, hib⟩) =
        ExtractResult.valid e ro ps bs := by
      rw [← extractStock_raw_congr hdr]
      exact hvalid
    rcases hrf.2 with ⟨rr, hx, -, -⟩ | ⟨e', ro', ps', bs', eyr, rocr, hx, hsc, hnarrR⟩
    · rw [hxt] at hx
      cases hx
    · have hinj : e = e' ∧ ro = ro' ∧ ps = ps' ∧ bs = bs' := by
        have h4 := hx
        rw [hxt] at h4
        simpa [ExtractResult.valid.injEq] using h4
      obtain ⟨-, -, hps', hbs'⟩ := hinj
      have hscore : r.sc.magic_formula_score = Option.some (eyr + rocr) := by
        rw [hsc]
      rw [applyDefaultCopy_narr_of_scored _ hscore, hnarrR]
      refine ⟨?_, ?_⟩
      · dsimp only
        rw [hps']
        rfl
      · dsimp only
        rw [hbs']
        rfl
  · have hval : (mfDefaultBatch stocks).get ⟨i, hd⟩ =
        (stocks.map initScores).get ⟨i, hib⟩ := by
      have h3 : (writeBackWith applyDefaultCopy stocks (stocks.map initScores)
          (calculate_magic_formula_for_stocks Option.none
            ((stocks.map initScores).filter
              (fun s => !(is_financial_company s)))))[i]? =
          Option.some ((mfDefaultBatch stocks).get ⟨i, hd⟩) := by
        rw [← he, List.get_eq_getElem]
        exact List.getElem?_eq_getElem hd
      rw [hw] at h3
      exact (Option.some.inj h3).symm
    rw [hval]
    intro e ro ps bs hfin htg hvalid
    exact absurd ⟨by rw [hfin]; rfl, htg⟩ hnc

/-- One market-cap pass keeps every shared narrative field and every
default-column score field of every entry. -/
theorem c8_variant_step (v : CapVariant) (stocks : List Stock)
    (hnd : (stocks.filterMap tickerKey).Nodup)
    (b : List Stock) (hraw : b.map Stock.raw = stocks.map Stock.raw)
    (d : Stock) (i : ℕ) (hdn : DNarrFact stocks i d)
    (hib : i < b.length) (hiv : i < (variantStep v stocks b).length)
    (hinv : C8Inv d (b.get ⟨i, hib⟩)) :
    C8Inv d ((variantStep v stocks b).get ⟨i, hiv⟩) := by
  have he : variantStep v stocks b = writeBackWith (applyVariantCopy v) stocks b
      (calculate_magic_formula_for_stocks Option.none
        (b.filter (fun s => !(is_financial_company s) &&
          meets_market_cap_threshold s (capThreshold v)))) := rfl
  rcases scoredPass_entry
      (fun s => !(is_financial_company s) &&
        meets_market_cap_threshold s (capThreshold v))
      (applyVariantCopy v) stocks b
      (fun s hs => by simpa using ((Bool.and_eq_true _ _).mp hs).1) hnd hraw i hib with
    ⟨hp, ht, r, hrf, hw⟩ | ⟨hnc, hw⟩
  · have hval : (variantStep v stocks b).get ⟨i, hiv⟩ =
        applyVariantCopy v r (b.get ⟨i, hib⟩) := by
      have h3 : (writeBackWith (applyVariantCopy v) stocks b
          (calculate_magic_formula_for_stocks Option.none
            (b.filter (fun s => !(is_financial_company s) &&
              meets_market_cap_threshold s (capThreshold v)))))[i]? =
          Option.some ((variantStep v stocks b).get ⟨i, hiv⟩) := by
        rw [← he, List.get_eq_getElem]
        exact List.getElem?_eq_getElem hiv
      rw [hw] at h3
      exact (Option.some.inj h3).symm
    rw [hval]
    obtain ⟨hraw', hnarr', hs1, hs2, hs3, hs4, hs5⟩ := hinv
    refine ⟨?_, ?_, ?_, ?_, ?_, ?_, ?_⟩
    · rw [applyVariantCopy_raw]
      exact hraw'
    · rcases hrf.2 with ⟨rr, hx, hsc, -⟩ | ⟨e, ro, ps, bs, eyr, rocr, hx, hsc, hnarrR⟩
      · have hscore : r.sc.magic_formula_score = Option.none := by rw [hsc]
        rw [applyVariantCopy_narr_of_skip v _ hscore]
        exact hnarr'
      · have hscore : r.sc.magic_formula_score = Option.some (eyr + rocr) := by
          rw [hsc]
        have hfin_t : is_financial_company (b.get ⟨i, hib⟩) = false := by
          have h4 := ((Bool.and_eq_true _ _).mp hp).1
          simpa using h4
        have hfin_d : is_financial_company d = false := by
          rw [is_financial_company_raw_congr hraw'] at hfin_t
          exact hfin_t
        have htg_d : targetIdx stocks d = Option.some i := by
          rw [← targetIdx_raw_congr stocks hraw']
          exact ht
        have hx_d : extractStock d = ExtractResult.valid e ro ps bs := by
          rw [← extractStock_raw_congr hraw']
          exact hx
        obtain ⟨hpse, hbse⟩ := hdn e ro ps bs hfin_d htg_d hx_d
        have hte : (b.get ⟨i, hib⟩).narr.magic_formula_ebit_periods =
            Option.some ps := by rw [hnarr']; exact hpse
        have htb : (b.get ⟨i, hib⟩).narr.magic_formula_balance_sheet_period =
            Option.some bs := by rw [hnarr']; exact hbse
        rw [applyVariantCopy_narr_of_scored v _ hscore, hnarrR]
        dsimp only
        split_ifs
        all_goals try rw [← hte]
        all_goals try rw [← htb]
        all_goals exact hnarr'
    · cases v <;> exact hs1
    · cases v <;> exact hs2
    · cases v <;> exact hs3
    · cases v <;> exact hs4
    · cases v <;> exact hs5
  · have hval : (variantStep v stocks b).get ⟨i, hiv⟩ = b.get ⟨i, hib⟩ := by
      have h3 : (writeBackWith (applyVariantCopy v) stocks b
          (calculate_magic_formula_for_stocks Option.none
            (b.filter (fun s => !(is_financial_company s) &&
              meets_market_cap_threshold s (capThreshold v)))))[i]? =
          Option.some ((variantStep v stocks b).get ⟨i, hiv⟩) := by
        rw [← he, List.get_eq_getElem]
        exact List.getElem?_eq_getElem hiv
      rw [hw] at h3
      exact (Option.some.inj h3).symm
    rw [hval]
    exact ⟨hinv.1, hinv.2.1, hinv.2.2.1, hinv.2.2.2.1, hinv.2.2.2.2.1,
      hinv.2.2.2.2.2.1, hinv.2.2.2.2.2.2⟩

/-- C8: the four market-cap variant passes of
`calculate_all_score_variants` write only their own variant-suffixed
score and rank fields; every record's shared narrative fields
(`magic_formula_reason`, `magic_formula_ebit_periods`,
`magic_formula_balance_sheet_period`, `magic_formula_uses_ttm`) and its
five default-column score fields are exactly what the default pass left.
Stated for batches whose truthy tickers are pairwise distinct, as the
batch is the value set of a ticker-keyed dict. -/
theorem claim_C8 (stocks : List Stock)
    (hnd : (stocks.filterMap tickerKey).Nodup)
    (i : ℕ) (hi : i < stocks.length) :
    ∃ (hv : i < (calculate_all_score_variants stocks).length)
      (hd : i < (mfDefaultBatch stocks).length),
      ((calculate_all_score_variants stocks).get ⟨i, hv⟩).narr =
        ((mfDefaultBatch stocks).get ⟨i, hd⟩).narr ∧
      ((calculate_all_score_variants stocks).get ⟨i, hv⟩).sc.magic_formula_score =
        ((mfDefaultBatch stocks).get ⟨i, hd⟩).sc.magic_formula_score ∧
      ((calculate_all_score_variants stocks).get ⟨i, hv⟩).sc.ey_rank =
        ((mfDefaultBatch stocks).get ⟨i, hd⟩).sc.ey_rank ∧
      ((calculate_all_score_variants stocks).get ⟨i, hv⟩).sc.roc_rank =
        ((mfDefaultBatch stocks).get ⟨i, hd⟩).sc.roc_rank ∧
      ((calculate_all_score_variants stocks).get ⟨i, hv⟩).sc.earnings_yield =
        ((mfDefaultBatch stocks).get ⟨i, hd⟩).sc.earnings_yield ∧
      ((calculate_all_score_variants stocks).get ⟨i, hv⟩).sc.return_on_capital =
        ((mfDefaultBatch stocks).get ⟨i, hd⟩).sc.return_on_capital := by
  have hd : i < (mfDefaultBatch stocks).length := by
    rw [mfDefaultBatch_length]; exact hi
  have hb2 : i < (variantStep CapVariant.m100 stocks
      (mfDefaultBatch stocks)).length := by
    rw [variantStep_length]; exact hd
  have hb3 : i < (variantStep CapVariant.m500 stocks
      (variantStep CapVariant.m100 stocks (mfDefaultBatch stocks))).length := by
    rw [variantStep_length]; exact hb2
  have hb4 : i < (variantStep CapVariant.b1 stocks (variantStep CapVariant.m500
      stocks (variantStep CapVariant.m100 stocks
        (mfDefaultBatch stocks)))).length := by
    rw [variantStep_length]; exact hb3
  have hb5 : i < (variantStep CapVariant.b5 stocks (variantStep CapVariant.b1
      stocks (variantStep CapVariant.m500 stocks (variantStep CapVariant.m100
        stocks (mfDefaultBatch stocks))))).length := by
    rw [variantStep_length]; exact hb4
  have hdn := mfDefaultBatch_dnarr stocks hnd i hd
  have raw1 : (mfDefaultBatch stocks).map Stock.raw = stocks.map Stock.raw :=
    mfDefaultBatch_map_raw stocks
  have raw2 : (variantStep CapVariant.m100 stocks (mfDefaultBatch stocks)).map
      Stock.raw = stocks.map Stock.raw := by
    rw [variantStep_map_raw]; exact raw1
  have raw3 : (variantStep CapVariant.m500 stocks
      (variantStep CapVariant.m100 stocks (mfDefaultBatch stocks))).map
        Stock.raw = stocks.map Stock.raw := by
    rw [variantStep_map_raw]; exact raw2
  have raw4 : (variantStep CapVariant.b1 stocks (variantStep CapVariant.m500
      stocks (variantStep CapVariant.m100 stocks
        (mfDefaultBatch stocks)))).map Stock.raw = stocks.map Stock.raw := by
    rw [variantStep_map_raw]; exact raw3
  have inv1 : C8Inv ((mfDefaultBatch stocks).get ⟨i, hd⟩)
      ((mfDefaultBatch stocks).get ⟨i, hd⟩) :=
    ⟨rfl, rfl, rfl, rfl, rfl, rfl, rfl⟩
  have inv2 := c8_variant_step CapVariant.m100 stocks hnd
    (mfDefaultBatch stocks) raw1 _ i hdn hd hb2 inv1
  have inv3 := c8_variant_step CapVariant.m500 stocks hnd
    _ raw2 _ i hdn hb2 hb3 inv2
  have inv4 := c8_variant_step CapVariant.b1 stocks hnd
    _ raw3 _ i hdn hb3 hb4 inv3
  have inv5 := c8_variant_step CapVariant.b5 stocks hnd
    _ raw4 _ i hdn hb4 hb5 inv4
  exact ⟨by rw [calcAll_length]; exact hi, hd, inv5.2.1, inv5.2.2.1,
    inv5.2.2.2.1, inv5.2.2.2.2.1, inv5.2.2.2.2.2.1, inv5.2.2.2.2.2.2⟩

/-- C8 witness: the concrete one-record batch; all shared fields of the
full five-pass output equal the default-pass values. -/
theorem claim_C8_witness :
    (([exStock] : List Stock).filterMap tickerKey).Nodup ∧
    (∃ (hv : 0 < (calculate_all_score_variants [exStock]).length)
      (hd : 0 < (mfDefaultBatch [exStock]).length),
      ((calculate_all_score_variants [exStock]).get ⟨0, hv⟩).narr =
        ((mfDefaultBatch [exStock]).get ⟨0, hd⟩).narr ∧
      ((calculate_all_score_variants [exStock]).get ⟨0, hv⟩).sc.magic_formula_score =
        ((mfDefaultBatch [exStock]).get ⟨0, hd⟩).sc.magic_formula_score ∧
      ((calculate_all_score_variants [exStock]).get ⟨0, hv⟩).sc.ey_rank =
        ((mfDefaultBatch [exStock]).get ⟨0, hd⟩).sc.ey_rank ∧
      ((calculate_all_score_variants [exStock]).get ⟨0, hv⟩).sc.roc_rank =
        ((mfDefaultBatch [exStock]).get ⟨0, hd⟩).sc.roc_rank ∧
      ((calculate_all_score_variants [exStock]).get ⟨0, hv⟩).sc.earnings_yield =
        ((mfDefaultBatch [exStock]).get ⟨0, hd⟩).sc.earnings_yield ∧
      ((calculate_all_score_variants [exStock]).get ⟨0, hv⟩).sc.return_on_capital =
        ((mfDefaultBatch [exStock]).get ⟨0, hd⟩).sc.return_on_capital) :=
  ⟨by decide, claim_C8 [exStock] (by decide) 0 (by simp)⟩

/-! ## Idempotence machinery: paired runs -/

@[simp] theorem initScores_narr (s : Stock) : (initScores s).narr = s.narr := rfl

@[simp] theorem initScores_sc (s : Stock) : (initScores s).sc = scNA := rfl

theorem stock_eq_of_fields {s t : Stock} (h1 : s.raw = t.raw)
    (h2 : s.sc = t.sc) (h3 : s.narr = t.narr) : s = t := by
  cases s
  cases t
  cases h1
  cases h2
  cases h3
  rfl

/-- Raw-map equality gives pointwise raw equality. -/
theorem map_raw_pointwise {b b' : List Stock}
    (h : b.map Stock.raw = b'.map Stock.raw)
    (j : ℕ) (hj : j < b.length) (hj' : j < b'.length) :
    (b.get ⟨j, hj⟩).raw = (b'.get ⟨j, hj'⟩).raw := by
  have hmape : (b.map Stock.raw)[j]? = (b'.map Stock.raw)[j]? := by rw [h]
  rw [List.getElem?_map, List.getElem?_map,
    List.getElem?_eq_getElem hj, List.getElem?_eq_getElem hj'] at hmape
  simpa using hmape

/-- A filter whose predicate only reads raw fields preserves raw-map
equality. -/
theorem filter_map_raw_congr (pred : Stock → Bool)
    (hpred : ∀ s s' : Stock, s.raw = s'.raw → pred s = pred s') :
    ∀ {b b' : List Stock}, b.map Stock.raw = b'.map Stock.raw →
      (b.filter pred).map Stock.raw = (b'.filter pred).map Stock.raw := by
  intro b
  induction b with
  | nil =>
    intro b' h
    cases b' with
    | nil => rfl
    | cons s' tl' => exact absurd h (by simp)
  | cons s tl ih =>
    intro b' h
    cases b' with
    | nil => exact absurd h (by simp)
    | cons s' tl' =>
      simp only [List.map_cons, List.cons.injEq] at h
      rw [List.filter_cons, List.filter_cons, ← hpred s s' h.1]
      cases hp : pred s
      · simpa using ih h.2
      · simp only [ite_true]
        rw [List.map_cons, List.map_cons, h.1, ih h.2]

theorem writeBackWith_orig_congr (f : Stock → Stock → Stock)
    {o o' : List Stock} (ht : ∀ r : Stock, targetIdx o' r = targetIdx o r) :
    ∀ (res b : List Stock),
      writeBackWith f o' b res = writeBackWith f o b res := by
  intro res
  induction res with
  | nil => intro b; rfl
  | cons r rs ih =>
    intro b
    cases htg : targetIdx o r with
    | some i =>
      rw [writeBackWith_cons_some htg, writeBackWith_cons_some
        ((ht r).trans htg), ih]
    | none =>
      rw [writeBackWith_cons_none htg, writeBackWith_cons_none
        ((ht r).trans htg), ih]

theorem variantStep_orig_congr (v : CapVariant) {o o' : List Stock}
    (ht : ∀ r : Stock, targetIdx o' r = targetIdx o r) (b : List Stock) :
    variantStep v o' b = variantStep v o b := by
  unfold variantStep
  exact writeBackWith_orig_congr (applyVariantCopy v) ht _ b

/-- The scoring engine leaves every raw field alone, so the rebuilt
ticker map of its output agrees with the input's everywhere. -/
theorem targetIdx_calcAll_congr (stocks : List Stock) (r : Stock) :
    targetIdx (calculate_all_score_variants stocks) r = targetIdx stocks r := by
  unfold targetIdx
  cases tickerKey r with
  | none => rfl
  | some t =>
    exact lastTickerIdx_congr
      (map_tickerKey_eq_of_map_raw (calcAll_map_raw stocks)) t

theorem applyDefaultCopy_narr_of_skip {r : Stock} (t : Stock)
    (hscore : r.sc.magic_formula_score = Option.none) :
    (applyDefaultCopy r t).narr =
      { magic_formula_reason :=
          match r.narr.magic_formula_reason with
          | Option.some y => Option.some y
          | Option.none => t.narr.magic_formula_reason
        magic_formula_ebit_periods := Option.some "N/A"
        magic_formula_balance_sheet_period := Option.some "N/A"
        magic_formula_uses_ttm := Option.none } := by
  unfold applyDefaultCopy
  dsimp only
  rw [if_neg (by rw [hscore]; exact fun hh => hh rfl)]

/-- Two parallel default-pass write-backs of paired results onto targets
with equal raw and score fields produce fully equal entries. -/
theorem applyDefaultCopy_paired {r r' t t' : Stock} (hq : PairedResult r r')
    (hraw : t.raw = t'.raw) (hsc : t.sc = t'.sc) :
    applyDefaultCopy r t = applyDefaultCopy r' t' := by
  obtain ⟨hqr, hqs, hqn, hqn0, hqnarr⟩ := hq
  obtain ⟨y, hqy⟩ := Option.ne_none_iff_exists'.mp hqn0
  have hqy' : r'.narr.magic_formula_reason = Option.some y := by
    rw [← hqn]; exact hqy
  apply stock_eq_of_fields
  · rw [applyDefaultCopy_raw, applyDefaultCopy_raw]; exact hraw
  · have e1 : (applyDefaultCopy r t).sc = { t.sc with
        magic_formula_score := r.sc.magic_formula_score
        ey_rank := r.sc.ey_rank
        roc_rank := r.sc.roc_rank
        earnings_yield := r.sc.earnings_yield
        return_on_capital := r.sc.return_on_capital } := rfl
    have e2 : (applyDefaultCopy r' t').sc = { t'.sc with
        magic_formula_score := r'.sc.magic_formula_score
        ey_rank := r'.sc.ey_rank
        roc_rank := r'.sc.roc_rank
        earnings_yield := r'.sc.earnings_yield
        return_on_capital := r'.sc.return_on_capital } := rfl
    rw [e1, e2, hsc, hqs]
  · cases hscore : r.sc.magic_formula_score with
    | none =>
      have hscore' : r'.sc.magic_formula_score = Option.none := by
        rw [← hqs]; exact hscore
      rw [applyDefaultCopy_narr_of_skip t hscore,
        applyDefaultCopy_narr_of_skip t' hscore', hqy, hqy']
    | some x =>
      have hx : r.sc.magic_formula_score ≠ Option.none := by
        rw [hscore]; exact fun hh => Option.noConfusion hh
      have hnn := hqnarr hx
      have hscore' : r'.sc.magic_formula_score = Option.some x := by
        rw [← hqs]; exact hscore
      rw [applyDefaultCopy_narr_of_scored t hscore,
        applyDefaultCopy_narr_of_scored t' hscore', hqy, hqy', hnn]

theorem classifyStock_none_excluded {s : Stock}
    (h : is_financial_company s = true) :
    classifyStock Option.none s = Sum.inl (markExcluded (ensureReason s)) := by
  unfold classifyStock
  dsimp only
  rw [is_financial_company_raw_congr (ensureReason_raw s), h]
  rfl

theorem mfValidItems_cons (fl : Option (Stock → Bool)) (s : Stock)
    (tl : List Stock) :
    mfValidItems fl (s :: tl) =
      match classifyStock fl s with
      | Sum.inl _ => mfValidItems fl tl
      | Sum.inr s1 =>
        match processEligible s1 with
        | Sum.inl _ => mfValidItems fl tl
        | Sum.inr it => it :: mfValidItems fl tl := by
  unfold mfValidItems mfProcessed mfEligible mfClassified
  rw [List.map_cons, List.filterMap_cons]
  cases hcl : classifyStock fl s with
  | inl u => rfl
  | inr s1 =>
    dsimp only
    rw [List.map_cons, List.filterMap_cons]
    cases hpe : processEligible s1 with
    | inl u2 => rfl
    | inr it => rfl

/-- The metrics of the valid pool are determined by the raw fields. -/
theorem validMetrics_congr : ∀ {ins ins' : List Stock},
    ins.map Stock.raw = ins'.map Stock.raw →
    (mfValidItems Option.none ins).map (fun it => (it.ey, it.roc)) =
      (mfValidItems Option.none ins').map (fun it => (it.ey, it.roc)) := by
  intro ins
  induction ins with
  | nil =>
    intro ins' h
    cases ins' with
    | nil => rfl
    | cons s' tl' => exact absurd h (by simp)
  | cons s tl ih =>
    intro ins' h
    cases ins' with
    | nil => exact absurd h (by simp)
    | cons s' tl' =>
      simp only [List.map_cons, List.cons.injEq] at h
      rw [mfValidItems_cons, mfValidItems_cons]
      cases hfin : is_financial_company s with
      | true =>
        have hfin' : is_financial_company s' = true := by
          rw [← is_financial_company_raw_congr h.1]; exact hfin
        rw [classifyStock_none_excluded hfin, classifyStock_none_excluded hfin']
        exact ih h.2
      | false =>
        have hfin' : is_financial_company s' = false := by
          rw [← is_financial_company_raw_congr h.1]; exact hfin
        rw [classifyStock_none_eligible hfin, classifyStock_none_eligible hfin']
        dsimp only
        rw [processEligible_ensureReason, processEligible_ensureReason]
        cases hx : extractStock s with
        | skip rr =>
          have hx' : extractStock s' = ExtractResult.skip rr :=
            (extractStock_raw_congr h.1.symm).trans hx
          rw [processEligible_skip hx, processEligible_skip hx']
          exact ih h.2
        | valid e ro ps bs =>
          have hx' : extractStock s' = ExtractResult.valid e ro ps bs :=
            (extractStock_raw_congr h.1.symm).trans hx
          rw [processEligible_valid hx, processEligible_valid hx']
          show (e, ro) :: _ = (e, ro) :: _
          rw [ih h.2]

theorem mfPool_congr {ins ins' : List Stock}
    (h : ins.map Stock.raw = ins'.map Stock.raw) :
    mfPool Option.none ins = mfPool Option.none ins' := by
  have hm := validMetrics_congr h
  have e : ∀ m : List ValidItem,
      m.enum.map (fun p => (p.1, p.2.ey, p.2.roc)) =
        (m.map (fun it => (it.ey, it.roc))).enum.map
          (fun p => (p.1, p.2.1, p.2.2)) := by
    intro m
    rw [List.enum_map, List.map_map]
    rfl
  unfold mfPool
  rw [e, e, hm]

theorem mfEyRank_congr {ins ins' : List Stock}
    (h : mfPool Option.none ins = mfPool Option.none ins') :
    mfEyRank Option.none ins = mfEyRank Option.none ins' := by
  funext k
  unfold mfEyRank mfEySorted
  rw [h]

theorem mfRocRank_congr {ins ins' : List Stock}
    (h : mfPool Option.none ins = mfPool Option.none ins') :
    mfRocRank Option.none ins = mfRocRank Option.none ins' := by
  funext k
  unfold mfRocRank mfRocSorted mfEySorted
  rw [h]

/-- Two all-eligible runs with the same rank maps over inputs with
equal raw fields and blank score fields produce paired rows. -/
theorem calcRows_paired (eyR rocR : ℕ → Option ℕ) :
    ∀ (ins ins' : List Stock) (k : ℕ),
      ins.map Stock.raw = ins'.map Stock.raw →
      (∀ s ∈ ins, s.sc = scNA) →
      (∀ s ∈ ins', s.sc = scNA) →
      (∀ k2, k ≤ k2 → k2 < k + validCount ins →
        (eyR k2).isSome ∧ (rocR k2).isSome) →
      ∀ p : ℕ,
        OptPaired (calcRows eyR rocR ins k)[p]? (calcRows eyR rocR ins' k)[p]? := by
  intro ins
  induction ins with
  | nil =>
    intro ins' k h hna hna' hE p
    cases ins' with
    | nil => simp [calcRows, OptPaired]
    | cons s' tl' => exact absurd h (by simp)
  | cons s tl ih =>
    intro ins' k h hna hna' hE p
    cases ins' with
    | nil => exact absurd h (by simp)
    | cons s' tl' =>
      simp only [List.map_cons, List.cons.injEq] at h
      have hsna : s.sc = scNA := hna s (List.mem_cons_self s tl)
      have hsna' : s'.sc = scNA := hna' s' (List.mem_cons_self s' tl')
      have hnatl : ∀ u ∈ tl, u.sc = scNA :=
        fun u hu => hna u (List.mem_cons_of_mem s hu)
      have hnatl' : ∀ u ∈ tl', u.sc = scNA :=
        fun u hu => hna' u (List.mem_cons_of_mem s' hu)
      rw [calcRows_cons, calcRows_cons]
      cases hx : extractStock s with
      | skip rr =>
        have hx' : extractStock s' = ExtractResult.skip rr :=
          (extractStock_raw_congr h.1.symm).trans hx
        rw [processEligible_skip hx, processEligible_skip hx']
        have hcount : validCount (s :: tl) = validCount tl := by
          rw [validCount_cons, processEligible_skip hx]
          rfl
        cases p with
        | zero =>
          rw [List.getElem?_cons_zero, List.getElem?_cons_zero]
          show PairedResult (finalEnsure (skippedStock s rr))
            (finalEnsure (skippedStock s' rr))
          rw [finalEnsure_of_some (skippedStock_reason s rr),
            finalEnsure_of_some (skippedStock_reason s' rr),
            skippedStock_eq, skippedStock_eq]
          refine ⟨h.1, ?_, rfl, by simp, ?_⟩
          · show ({ s.sc with magic_formula_score := Option.none } : ScoreFields) = _
            rw [hsna, hsna']
          · intro hcontra
            exact absurd rfl hcontra
        | succ q =>
          rw [List.getElem?_cons_succ, List.getElem?_cons_succ]
          exact ih tl' k h.2 hnatl hnatl'
            (fun k2 hk1 hk2 => hE k2 hk1 (by rw [hcount]; omega)) q
      | valid e ro ps bs =>
        have hx' : extractStock s' = ExtractResult.valid e ro ps bs :=
          (extractStock_raw_congr h.1.symm).trans hx
        rw [processEligible_valid hx, processEligible_valid hx']
        have hcount : validCount (s :: tl) = validCount tl + 1 := by
          rw [validCount_cons, processEligible_valid hx]
        cases p with
        | zero =>
          rw [List.getElem?_cons_zero, List.getElem?_cons_zero]
          have hk0 : (eyR k).isSome ∧ (rocR k).isSome :=
            hE k (Nat.le_refl k) (by rw [hcount]; omega)
          obtain ⟨ev, hev⟩ := Option.isSome_iff_exists.mp hk0.1
          obtain ⟨rv, hrv⟩ := Option.isSome_iff_exists.mp hk0.2
          rw [hev, hrv]
          show PairedResult
            (finalEnsure (applyScore ⟨ensureReason s, e, ro, ps, bs⟩ ev rv))
            (finalEnsure (applyScore ⟨ensureReason s', e, ro, ps, bs⟩ ev rv))
          rw [finalEnsure_of_some (applyScore_reason _ ev rv),
            finalEnsure_of_some (applyScore_reason _ ev rv)]
          refine ⟨?_, ?_, rfl,
            by rw [applyScore_reason _ ev rv]; simp, fun _ => rfl⟩
          · rw [applyScore_raw, applyScore_raw]
            show (ensureReason s).raw = (ensureReason s').raw
            rw [ensureReason_raw, ensureReason_raw]
            exact h.1
          · have eA : (applyScore ⟨ensureReason s, e, ro, ps, bs⟩ ev rv).sc =
                { (ensureReason s).sc with
                  magic_formula_score := Option.some (ev + rv)
                  ey_rank := Option.some ev
                  roc_rank := Option.some rv
                  earnings_yield := Option.some (e * 100)
                  return_on_capital := Option.some (ro * 100) } := rfl
            have eB : (applyScore ⟨ensureReason s', e, ro, ps, bs⟩ ev rv).sc =
                { (ensureReason s').sc with
                  magic_formula_score := Option.some (ev + rv)
                  ey_rank := Option.some ev
                  roc_rank := Option.some rv
                  earnings_yield := Option.some (e * 100)
                  return_on_capital := Option.some (ro * 100) } := rfl
            rw [eA, eB, ensureReason_sc, ensureReason_sc, hsna, hsna']
        | succ q =>
          rw [List.getElem?_cons_succ, List.getElem?_cons_succ]
          exact ih tl' (k + 1) h.2 hnatl hnatl'
            (fun k2 hk1 hk2 => hE k2 (by omega) (by rw [hcount]; omega)) q

/-- Folding paired default-pass results onto batches that agree on raw
and score fields everywhere, and on the narrative except at indices a
pending result will overwrite, produces equal batches. -/
theorem writeBackDefault_paired (stocks : List Stock) :
    ∀ (res res' b b' : List Stock),
      (∀ p : ℕ, OptPaired res[p]? res'[p]?) →
      (∀ i : ℕ, OptBatchRel res stocks i b[i]? b'[i]?) →
      writeBackWith applyDefaultCopy stocks b res =
        writeBackWith applyDefaultCopy stocks b' res' := by
  intro res
  induction res with
  | nil =>
    intro res' b b' hrel hb
    cases res' with
    | cons r' rs' =>
      have hc := hrel 0
      rw [List.getElem?_nil, List.getElem?_cons_zero] at hc
      exact absurd hc (by simp [OptPaired])
    | nil =>
      rw [writeBackWith_nil, writeBackWith_nil]
      apply List.ext_getElem?
      intro i
      have hbi := hb i
      cases h1 : b[i]? with
      | none =>
        cases h2 : b'[i]? with
        | none => rfl
        | some y =>
          rw [h1, h2] at hbi
          exact absurd hbi (by simp [OptBatchRel])
      | some x =>
        cases h2 : b'[i]? with
        | none =>
          rw [h1, h2] at hbi
          exact absurd hbi (by simp [OptBatchRel])
        | some y =>
          rw [h1, h2] at hbi
          obtain ⟨e1, e2, e3⟩ := hbi
          rcases e3 with e3 | ⟨r, hr, -⟩
          · rw [stock_eq_of_fields e1 e2 e3]
          · exact absurd hr (List.not_mem_nil r)
  | cons r rs ih =>
    intro res' b b' hrel hb
    cases res' with
    | nil =>
      have hc := hrel 0
      rw [List.getElem?_nil, List.getElem?_cons_zero] at hc
      exact absurd hc (by simp [OptPaired])
    | cons r' rs' =>
      have hq : PairedResult r r' := by
        have hc := hrel 0
        rw [List.getElem?_cons_zero, List.getElem?_cons_zero] at hc
        exact hc
      have hrel' : ∀ p : ℕ, OptPaired rs[p]? rs'[p]? := by
        intro p
        have hc := hrel (p + 1)
        rw [List.getElem?_cons_succ, List.getElem?_cons_succ] at hc
        exact hc
      have htg' : targetIdx stocks r' = targetIdx stocks r :=
        (targetIdx_raw_congr stocks hq.1).symm
      cases htg : targetIdx stocks r with
      | none =>
        rw [writeBackWith_cons_none htg,
          writeBackWith_cons_none (htg'.trans htg)]
        apply ih rs' b b' hrel'
        intro i
        have hbi := hb i
        cases h1 : b[i]? with
        | none =>
          cases h2 : b'[i]? with
          | none => trivial
          | some y =>
            rw [h1, h2] at hbi
            exact absurd hbi (by simp [OptBatchRel])
        | some x =>
          cases h2 : b'[i]? with
          | none =>
            rw [h1, h2] at hbi
            exact absurd hbi (by simp [OptBatchRel])
          | some y =>
            rw [h1, h2] at hbi
            obtain ⟨e1, e2, e3⟩ := hbi
            refine ⟨e1, e2, ?_⟩
            rcases e3 with e3 | ⟨r2, hr2, hrt2⟩
            · exact Or.inl e3
            · rcases List.mem_cons.mp hr2 with rfl | hr2a
              · rw [htg] at hrt2
                cases hrt2
              · exact Or.inr ⟨r2, hr2a, hrt2⟩
      | some i0 =>
        rw [writeBackWith_cons_some htg,
          writeBackWith_cons_some (htg'.trans htg)]
        apply ih rs' _ _ hrel'
        intro i
        have hbi := hb i
        rw [List.getElem?_modify, List.getElem?_modify]
        cases h1 : b[i]? with
        | none =>
          cases h2 : b'[i]? with
          | none => trivial
          | some y =>
            rw [h1, h2] at hbi
            exact absurd hbi (by simp [OptBatchRel])
        | some x =>
          cases h2 : b'[i]? with
          | none =>
            rw [h1, h2] at hbi
            exact absurd hbi (by simp [OptBatchRel])
          | some y =>
            rw [h1, h2] at hbi
            obtain ⟨e1, e2, e3⟩ := hbi
            by_cases hi0 : i0 = i
            · have hw := applyDefaultCopy_paired hq e1 e2
              simp only [Option.map_some, if_pos hi0]
              rw [hw]
              exact ⟨rfl, rfl, Or.inl rfl⟩
            · simp only [Option.map_some, if_neg hi0]
              refine ⟨e1, e2, ?_⟩
              rcases e3 with e3 | ⟨r2, hr2, hrt2⟩
              · exact Or.inl e3
              · rcases List.mem_cons.mp hr2 with rfl | hr2a
                · rw [htg] at hrt2
                  exact absurd (Option.some.inj hrt2) hi0
                · exact Or.inr ⟨r2, hr2a, hrt2⟩

/-- A scoring pass whose filter excludes financial records never writes
to an index that no non-financial truthy-tickered record maps to. -/
theorem pass_untargeted (pred : Stock → Bool) (copyFn : Stock → Stock → Stock)
    (stocks b : List Stock)
    (hpred : ∀ s, pred s = true → is_financial_company s = false)
    (hraw : b.map Stock.raw = stocks.map Stock.raw)
    (i : ℕ) (hnt : ¬ DefaultTargeted stocks i) :
    (writeBackWith copyFn stocks b
      (calculate_magic_formula_for_stocks Option.none (b.filter pred)))[i]? =
      b[i]? := by
  apply writeBackWith_untargeted
  intro r hr hri
  have hfl : ∀ s ∈ b.filter pred, is_financial_company s = false :=
    fun s hs => hpred s (List.mem_filter.mp hs).2
  obtain ⟨c, hc, hcr⟩ := mem_calc_raw_of_nofin hfl hr
  have hcp : pred c = true := (List.mem_filter.mp hc).2
  obtain ⟨j, hj, hje⟩ := List.getElem_of_mem (List.mem_filter.mp hc).1
  have hjs : j < stocks.length := by
    have hh := congrArg List.length hraw
    simp only [List.length_map] at hh
    omega
  have hcs : c.raw = (stocks.get ⟨j, hjs⟩).raw := by
    have h2 := map_raw_pointwise hraw j hj hjs
    have h3 : b.get ⟨j, hj⟩ = c := hje
    rw [← h3]
    exact h2
  apply hnt
  refine ⟨j, hjs, ?_, ?_⟩
  · rw [← is_financial_company_raw_congr hcs]
    exact hpred c hcp
  · rw [← targetIdx_raw_congr stocks hcs, ← targetIdx_raw_congr stocks hcr]
    exact hri

/-- An index no non-financial truthy-tickered record maps to keeps its
freshly initialised entry through all five passes. -/
theorem calcAll_untargeted_entry (stocks : List Stock) (i : ℕ)
    (hnt : ¬ DefaultTargeted stocks i) :
    (calculate_all_score_variants stocks)[i]? =
      (stocks.map initScores)[i]? := by
  have raw1 : (mfDefaultBatch stocks).map Stock.raw = stocks.map Stock.raw :=
    mfDefaultBatch_map_raw stocks
  have raw2 : (variantStep CapVariant.m100 stocks (mfDefaultBatch stocks)).map
      Stock.raw = stocks.map Stock.raw := by
    rw [variantStep_map_raw]; exact raw1
  have raw3 : (variantStep CapVariant.m500 stocks
      (variantStep CapVariant.m100 stocks (mfDefaultBatch stocks))).map
        Stock.raw = stocks.map Stock.raw := by
    rw [variantStep_map_raw]; exact raw2
  have raw4 : (variantStep CapVariant.b1 stocks (variantStep CapVariant.m500
      stocks (variantStep CapVariant.m100 stocks
        (mfDefaultBatch stocks)))).map Stock.raw = stocks.map Stock.raw := by
    rw [variantStep_map_raw]; exact raw3
  have e0 : (mfDefaultBatch stocks)[i]? = (stocks.map initScores)[i]? :=
    pass_untargeted (fun s => !(is_financial_company s)) applyDefaultCopy
      stocks (stocks.map initScores) (fun s hs => by simpa using hs)
      (initBatch_map_raw stocks) i hnt
  have e1 : (variantStep CapVariant.m100 stocks (mfDefaultBatch stocks))[i]? =
      (mfDefaultBatch stocks)[i]? :=
    pass_untargeted _ (applyVariantCopy CapVariant.m100) stocks _
      (fun s hs => by simpa using ((Bool.and_eq_true _ _).mp hs).1) raw1 i hnt
  have e2 : (variantStep CapVariant.m500 stocks (variantStep CapVariant.m100
      stocks (mfDefaultBatch stocks)))[i]? =
      (variantStep CapVariant.m100 stocks (mfDefaultBatch stocks))[i]? :=
    pass_untargeted _ (applyVariantCopy CapVariant.m500) stocks _
      (fun s hs => by simpa using ((Bool.and_eq_true _ _).mp hs).1) raw2 i hnt
  have e3 : (variantStep CapVariant.b1 stocks (variantStep CapVariant.m500
      stocks (variantStep CapVariant.m100 stocks (mfDefaultBatch stocks))))[i]? =
      (variantStep CapVariant.m500 stocks (variantStep CapVariant.m100 stocks
        (mfDefaultBatch stocks)))[i]? :=
    pass_untargeted _ (applyVariantCopy CapVariant.b1) stocks _
      (fun s hs => by simpa using ((Bool.and_eq_true _ _).mp hs).1) raw3 i hnt
  have e4 : (variantStep CapVariant.b5 stocks (variantStep CapVariant.b1 stocks
      (variantStep CapVariant.m500 stocks (variantStep CapVariant.m100 stocks
        (mfDefaultBatch stocks)))))[i]? =
      (variantStep CapVariant.b1 stocks (variantStep CapVariant.m500 stocks
        (variantStep CapVariant.m100 stocks (mfDefaultBatch stocks))))[i]? :=
    pass_untargeted _ (applyVariantCopy CapVariant.b5) stocks _
      (fun s hs => by simpa using ((Bool.and_eq_true _ _).mp hs).1) raw4 i hnt
  exact e4.trans (e3.trans (e2.trans (e1.trans e0)))

/-- A targeted index always has a pending default-pass writer. -/
theorem default_targeted_writer (stocks : List Stock) {i : ℕ}
    (hT : DefaultTargeted stocks i) (b : List Stock)
    (hraw : b.map Stock.raw = stocks.map Stock.raw) :
    ∃ r ∈ calculate_magic_formula_for_stocks Option.none
      (b.filter (fun s => !(is_financial_company s))),
      targetIdx stocks r = Option.some i := by
  obtain ⟨j, hj, hfinj, htgj⟩ := hT
  have hjb : j < b.length := by
    have hh := congrArg List.length hraw
    simp only [List.length_map] at hh
    omega
  have hcr : (b.get ⟨j, hjb⟩).raw = (stocks.get ⟨j, hj⟩).raw :=
    map_raw_pointwise hraw j hjb hj
  have hfc : is_financial_company (b.get ⟨j, hjb⟩) = false := by
    rw [is_financial_company_raw_congr hcr]; exact hfinj
  have hmem : b.get ⟨j, hjb⟩ ∈ b.filter (fun s => !(is_financial_company s)) :=
    List.mem_filter.mpr ⟨List.get_mem b j hjb, by rw [hfc]; rfl⟩
  obtain ⟨p, hp, hpe⟩ := List.getElem_of_mem hmem
  have hfl : ∀ s ∈ b.filter (fun s => !(is_financial_company s)),
      is_financial_company s = false := fun s hs => by
    have hh := (List.mem_filter.mp hs).2
    simpa using hh
  have hpl : p < (calculate_magic_formula_for_stocks Option.none
      (b.filter (fun s => !(is_financial_company s)))).length := by
    rw [calc_length_of_nofin hfl]; exact hp
  refine ⟨(calculate_magic_formula_for_stocks Option.none
      (b.filter (fun s => !(is_financial_company s)))).get ⟨p, hpl⟩,
    List.get_mem _ p hpl, ?_⟩
  have hrr : ((calculate_magic_formula_for_stocks Option.none
      (b.filter (fun s => !(is_financial_company s)))).get ⟨p, hpl⟩).raw =
      ((b.filter (fun s => !(is_financial_company s))).get ⟨p, hp⟩).raw :=
    map_raw_pointwise (calc_map_raw_of_nofin hfl) p hpl hp
  rw [targetIdx_raw_congr stocks hrr]
  have hbe : (b.filter (fun s => !(is_financial_company s))).get ⟨p, hp⟩ =
      b.get ⟨j, hjb⟩ := hpe
  rw [hbe, targetIdx_raw_congr stocks hcr]
  exact htgj

set_option maxHeartbeats 1000000 in
/-- C9: `calculate_all_score_variants` is idempotent: running the
engine twice in succession on a batch (with no change to the raw input
fields in between) leaves every record — all five variants' scores and
ranks, the yields, the reason and the period/TTM fields — identical to
the result of running it once. -/
theorem claim_C9 (stocks : List Stock) :
    calculate_all_score_variants (calculate_all_score_variants stocks) =
      calculate_all_score_variants stocks := by
  have ht := targetIdx_calcAll_congr stocks
  have hrawB := calcAll_map_raw stocks
  have hlenB := calcAll_length stocks
  have hUNT : ∀ i, ¬ DefaultTargeted stocks i →
      (calculate_all_score_variants stocks)[i]? =
        (stocks.map initScores)[i]? :=
    fun i h => calcAll_untargeted_entry stocks i h
  obtain ⟨B, hBeq⟩ : ∃ B, calculate_all_score_variants stocks = B := ⟨_, rfl⟩
  rw [hBeq] at ht hrawB hlenB hUNT ⊢
  have hrawInitB : (B.map initScores).map Stock.raw = stocks.map Stock.raw := by
    rw [initBatch_map_raw]; exact hrawB
  have hrawBB : (B.map initScores).map Stock.raw =
      (stocks.map initScores).map Stock.raw := by
    rw [initBatch_map_raw, initBatch_map_raw]; exact hrawB
  have hpredDc : ∀ s s' : Stock, s.raw = s'.raw →
      (!(is_financial_company s)) = (!(is_financial_company s')) := by
    intro s s' h
    rw [is_financial_company_raw_congr h]
  have hfilraw : ((B.map initScores).filter
      (fun s => !(is_financial_company s))).map Stock.raw =
      ((stocks.map initScores).filter
        (fun s => !(is_financial_company s))).map Stock.raw :=
    filter_map_raw_congr _ hpredDc hrawBB
  have hflB : ∀ s ∈ (B.map initScores).filter
      (fun s => !(is_financial_company s)),
      is_financial_company s = false := fun s hs => by
    have hh := (List.mem_filter.mp hs).2
    simpa using hh
  have hfl0 : ∀ s ∈ (stocks.map initScores).filter
      (fun s => !(is_financial_company s)),
      is_financial_company s = false := fun s hs => by
    have hh := (List.mem_filter.mp hs).2
    simpa using hh
  have hpool := mfPool_congr hfilraw
  have heyR := mfEyRank_congr hpool
  have hrocR := mfRocRank_congr hpool
  have hscB : ∀ s ∈ (B.map initScores).filter
      (fun s => !(is_financial_company s)), s.sc = scNA := by
    intro s hs
    obtain ⟨u, -, hueq⟩ := List.mem_map.mp (List.mem_filter.mp hs).1
    rw [← hueq]
    rfl
  have hsc0 : ∀ s ∈ (stocks.map initScores).filter
      (fun s => !(is_financial_company s)), s.sc = scNA := by
    intro s hs
    obtain ⟨u, -, hueq⟩ := List.mem_map.mp (List.mem_filter.mp hs).1
    rw [← hueq]
    rfl
  have hE : ∀ k2, 0 ≤ k2 →
      k2 < 0 + validCount ((B.map initScores).filter
        (fun s => !(is_financial_company s))) →
      ((mfEyRank Option.none ((stocks.map initScores).filter
        (fun s => !(is_financial_company s)))) k2).isSome ∧
      ((mfRocRank Option.none ((stocks.map initScores).filter
        (fun s => !(is_financial_company s)))) k2).isSome := by
    intro k2 hk1 hk2
    rw [← heyR, ← hrocR]
    have hk : k2 < (mfValidItems Option.none ((B.map initScores).filter
        (fun s => !(is_financial_company s)))).length := by
      rw [mfValidItems_length_of_nofin hflB]
      omega
    obtain ⟨a, -, -, hey⟩ := mfEyRank_eq_some Option.none _ k2 hk
    obtain ⟨a2, -, -, hroc⟩ := mfRocRank_eq_some Option.none _ k2 hk
    exact ⟨by rw [hey]; rfl, by rw [hroc]; rfl⟩
  have hpaired : ∀ p : ℕ,
      OptPaired (calculate_magic_formula_for_stocks Option.none
        ((B.map initScores).filter (fun s => !(is_financial_company s))))[p]?
        (calculate_magic_formula_for_stocks Option.none
          ((stocks.map initScores).filter
            (fun s => !(is_financial_company s))))[p]? := by
    intro p
    rw [calc_eq_calcRows hflB, calc_eq_calcRows hfl0, heyR, hrocR]
    exact calcRows_paired
      (mfEyRank Option.none ((stocks.map initScores).filter
        (fun s => !(is_financial_company s))))
      (mfRocRank Option.none ((stocks.map initScores).filter
        (fun s => !(is_financial_company s))))
      ((B.map initScores).filter (fun s => !(is_financial_company s)))
      ((stocks.map initScores).filter (fun s => !(is_financial_company s)))
      0 hfilraw hscB hsc0 hE p
  have hbrel : ∀ i : ℕ, OptBatchRel (calculate_magic_formula_for_stocks
      Option.none ((B.map initScores).filter
        (fun s => !(is_financial_company s)))) stocks i
      (B.map initScores)[i]? (stocks.map initScores)[i]? := by
    intro i
    by_cases hi : i < stocks.length
    · have hiB : i < (B.map initScores).length := by
        rw [List.length_map, hlenB]; exact hi
      have hi0 : i < (stocks.map initScores).length := by
        rw [List.length_map]; exact hi
      rw [List.getElem?_eq_getElem hiB, List.getElem?_eq_getElem hi0]
      refine ⟨?_, ?_, ?_⟩
      · exact map_raw_pointwise hrawBB i hiB hi0
      · have u1 : (((B.map initScores))[i]).sc = scNA := by
          rw [List.getElem_map]
          rfl
        have u2 : (((stocks.map initScores))[i]).sc = scNA := by
          rw [List.getElem_map]
          rfl
        rw [u1, u2]
      · by_cases hT : DefaultTargeted stocks i
        · exact Or.inr (default_targeted_writer stocks hT _ hrawInitB)
        · left
          have hB0 := hUNT i hT
          have hiB2 : i < B.length := by
            rw [hlenB]; exact hi
          rw [List.getElem?_eq_getElem hiB2,
            List.getElem?_eq_getElem hi0] at hB0
          have hBe := Option.some.inj hB0
          rw [List.getElem_map, initScores_narr, hBe, List.getElem_map,
            initScores_narr]
    · have h1 : (B.map initScores)[i]? = Option.none :=
        List.getElem?_eq_none (by rw [List.length_map, hlenB]; omega)
      have h2 : (stocks.map initScores)[i]? = Option.none :=
        List.getElem?_eq_none (by rw [List.length_map]; omega)
      rw [h1, h2]
      trivial
  have hdef : mfDefaultBatch B = mfDefaultBatch stocks := by
    have heB : mfDefaultBatch B =
        writeBackWith applyDefaultCopy B (B.map initScores)
          (calculate_magic_formula_for_stocks Option.none
            ((B.map initScores).filter
              (fun s => !(is_financial_company s)))) := rfl
    have he0 : mfDefaultBatch stocks =
        writeBackWith applyDefaultCopy stocks (stocks.map initScores)
          (calculate_magic_formula_for_stocks Option.none
            ((stocks.map initScores).filter
              (fun s => !(is_financial_company s)))) := rfl
    rw [heB, he0, writeBackWith_orig_congr applyDefaultCopy ht]
    exact writeBackDefault_paired stocks _ _ _ _ hpaired hbrel
  have hc2 : calculate_all_score_variants B =
      variantStep CapVariant.b5 B
        (variantStep CapVariant.b1 B
          (variantStep CapVariant.m500 B
            (variantStep CapVariant.m100 B (mfDefaultBatch B)))) := rfl
  rw [hc2, variantStep_orig_congr CapVariant.b5 ht,
    variantStep_orig_congr CapVariant.b1 ht,
    variantStep_orig_congr CapVariant.m500 ht,
    variantStep_orig_congr CapVariant.m100 ht, hdef, ← hBeq]
  rfl

end MagicFormula
